import Mathlib

/-!
JSON-RPC dispatcher of `jsonrpc/reqresp`, with its transports.

A shallow embedding of the message classifier, the batch dispatcher, the batch
codec and the request ids of package `reqresp`, of the line framer, the client
and the server connection of the stdio transport, of the error handler of the
HTTP adapter and of the string unions of `mcpsdk/spec`, with the properties
proved about them.

Conventions of the embedding:

* a Go pointer or a nil-able slice is an `Option` (`none` is `nil`);
* a byte slice is a list of byte values;
* user supplied handlers are Go closures that may read and write program
  state: they are functions over an arbitrary state type `σ`, and the
  dispatcher threads the state through the batch in input order;
* dereferencing a nil pointer panics: a function that dereferences returns
  `none` when it would panic;
* `encoding/json` and the user endpoints are parameters of the development.
-/

namespace Reqresp

/-! ## Wire model (`type_spec.go`, `type_intstring.go`, `error.go`) -/

/-- Byte slices (`[]byte`, `json.RawMessage`). -/
abbrev Bytes := List Nat

/-- The type `IntString` of `type_intstring.go`: `Value any` holds an `int`, a
`string`, or a value of some other dynamic type (`other`, the nil interface of
the zero value included). -/
inductive IntString where
  | int (v : Int)
  | string (v : String)
  | other (tag : Nat)
  deriving DecidableEq, Repr

/-- `RequestID = IntString`. -/
abbrev RequestID := IntString

/-- `JSONRPCErrorCode`. -/
abbrev JSONRPCErrorCode := Int

def ParseError : JSONRPCErrorCode := -32700
def InvalidRequestError : JSONRPCErrorCode := -32600
def MethodNotFoundError : JSONRPCErrorCode := -32601
def InvalidParamsError : JSONRPCErrorCode := -32602
def InternalError : JSONRPCErrorCode := -32603

/-- The map `errorMessage` read through `GetDefaultErrorMessage`: a code that is
not a key yields the empty string. -/
def GetDefaultErrorMessage (code : JSONRPCErrorCode) : String :=
  if code = ParseError then "An error occurred on the server while parsing JSON object"
  else if code = InvalidRequestError then "The JSON sent is not a valid Request object"
  else if code = MethodNotFoundError then "The method does not exist / is not available"
  else if code = InvalidParamsError then "Invalid method parameter(s)"
  else if code = InternalError then "Internal JSON-RPC error"
  else ""

/-- The struct `JSONRPCError`; `Data any` is kept as an uninterpreted payload. -/
structure JSONRPCError where
  Code : JSONRPCErrorCode
  Message : String
  Data : Option Bytes := none
  deriving DecidableEq, Repr

/-- Method `JSONRPCError.Error`. -/
def JSONRPCError.Error (e : JSONRPCError) : String :=
  if e.Message ≠ "" then e.Message else GetDefaultErrorMessage e.Code

/-- A Go `error` value: either a `*JSONRPCError` or any other error, of which
only the text of `Error()` is observed. -/
inductive GoError where
  | jsonrpc (e : JSONRPCError)
  | plain (msg : String)
  deriving DecidableEq, Repr

/-- Method `Error()` of an error value. -/
def GoError.Error : GoError → String
  | .jsonrpc e => e.Error
  | .plain msg => msg

def JSONRPCVersion : String := "2.0"

/-- Constants `MessageTypeInvalid`, `MessageTypeMethod`, `MessageTypeNotification`
and `MessageTypeResponse`. -/
inductive MessageType where
  | Invalid
  | Method
  | Notification
  | Response
  deriving DecidableEq, Repr

/-- `Request[json.RawMessage]`. -/
structure Request where
  JSONRPC : String
  ID : RequestID
  Method : String
  Params : Option Bytes
  deriving DecidableEq, Repr

/-- `Notification[json.RawMessage]`. -/
structure Notification where
  JSONRPC : String
  Method : String
  Params : Option Bytes
  deriving DecidableEq, Repr

/-- `Response[json.RawMessage]`. -/
structure Response where
  JSONRPC : String
  ID : Option RequestID
  Result : Option Bytes
  Error : Option JSONRPCError
  deriving DecidableEq, Repr

/-- `UnionRequest`. -/
structure UnionRequest where
  JSONRPC : String
  ID : Option RequestID
  Method : Option String
  Params : Option Bytes
  Result : Option Bytes
  Error : Option JSONRPCError
  deriving DecidableEq, Repr

/-- `BatchItem[T]`. -/
structure BatchItem (T : Type) where
  IsBatch : Bool
  Items : List T
  deriving DecidableEq, Repr

/-- `BatchRequest`. -/
structure BatchRequest where
  Body : Option (BatchItem UnionRequest)
  deriving DecidableEq, Repr

/-- `BatchResponse`. -/
structure BatchResponse where
  Body : Option (BatchItem Response)
  deriving DecidableEq, Repr

/-- The response items a `BatchResponse` carries: none when `Body` is nil. -/
def BatchResponse.items (r : BatchResponse) : List Response :=
  match r.Body with
  | none => []
  | some b => b.Items

/-! ## Message classifier (`handler_meta.go`) -/

/-- Function `detectMessageType` (it does not read its receiver). -/
def detectMessageType (u : UnionRequest) : MessageType × Option JSONRPCError :=
  if u.JSONRPC ≠ "2.0" then
    let msg := ": Invalid JSON-RPC version: '" ++ u.JSONRPC ++ "'"
    (.Invalid, some { Code := InvalidRequestError
                      Message := GetDefaultErrorMessage InvalidRequestError ++ msg })
  else if u.Method.isSome then
    if u.Result.isSome || u.Error.isSome then
      (.Invalid, some {
        Code := InvalidRequestError
        Message := GetDefaultErrorMessage InvalidRequestError ++
          ": Invalid message: 'method' cannot coexist with 'result' or 'error'" })
    else if u.ID.isSome then (.Method, none)
    else (.Notification, none)
  else if u.Result.isSome || u.Error.isSome then
    if u.Result.isSome && u.Error.isSome then
      (.Invalid, some {
        Code := InternalError
        Message := GetDefaultErrorMessage InternalError ++
          ": Invalid message: 'result' and 'error' cannot coexist" })
    else if u.ID.isSome then (.Response, none)
    else
      (.Invalid, some {
        Code := InternalError
        Message := GetDefaultErrorMessage InternalError ++ ": Invalid response: missing 'id'" })
  else
    (.Invalid, some {
      Code := InvalidRequestError
      Message := GetDefaultErrorMessage InvalidRequestError ++
        ": Unknown message type: missing both 'method' and 'result'/'error'" })

/-! ## Per-call context (`helpers.go`) -/

/-- A value stored in a `context.Context` under a key of type `contextKey`. -/
inductive CtxValue where
  | string (s : String)
  | messageType (m : MessageType)
  | requestID (r : RequestID)
  | other (tag : Nat)
  deriving DecidableEq, Repr

/-- Type `contextKey`. -/
abbrev contextKey := String

def ctxKeyRequestID : contextKey := "jsonrpcRequestID"
def ctxKeyMethodName : contextKey := "jsonrpcMethodName"
def ctxKeyMessageType : contextKey := "jsonrpcMessageType"

/-- A `context.Context`, as the chain of `context.WithValue` bindings that
carry a `contextKey`, the most recent first. -/
abbrev Context := List (contextKey × CtxValue)

/-- `context.WithValue`. -/
def Context.WithValue (parent : Context) (key : contextKey) (val : CtxValue) : Context :=
  (key, val) :: parent

/-- Function `contextWithRequestInfo`. -/
def contextWithRequestInfo (parentCtx : Context) (methodName : String) (msgType : MessageType)
    (requestID : Option RequestID) : Context :=
  let ctx := parentCtx.WithValue ctxKeyMethodName (.string methodName)
  let ctx := ctx.WithValue ctxKeyMessageType (.messageType msgType)
  match requestID with
  | some id => ctx.WithValue ctxKeyRequestID (.requestID id)
  | none => ctx

/-! ## Handlers (`handler_notification.go`, `handler_response.go`, `helpers.go`) -/

/-- `json.Unmarshal` into a value of type `I`, and the zero value of `I`. -/
structure Decoder (I : Type) where
  zero : I
  unmarshal : Bytes → Except GoError I

/-- Function `unmarshalData`. -/
def unmarshalData {I : Type} (d : Decoder I) (data : Option Bytes) : Except GoError I :=
  match data with
  | none => .ok d.zero
  | some b => d.unmarshal b

/-- Function `invalidParamsResponse`. -/
def invalidParamsResponse (req : Request) (err : GoError) : Response :=
  { JSONRPC := JSONRPCVersion
    ID := some req.ID
    Result := none
    Error := some { Code := InvalidParamsError
                    Message := GetDefaultErrorMessage InvalidParamsError ++ ": " ++ err.Error } }

/-- Interface `INotificationHandler` (method `Handle`; `GetTypes` only describes
the Go types and plays no part in dispatch). -/
structure INotificationHandler (σ : Type) where
  Handle : Context → Notification → σ → Option GoError × σ

/-- Struct `NotificationHandler[I]`. -/
structure NotificationHandler (σ : Type) (I : Type) where
  Endpoint : Context → I → σ → Option GoError × σ

/-- Method `NotificationHandler[I].Handle`. -/
def NotificationHandler.Handle {σ I : Type} (n : NotificationHandler σ I) (d : Decoder I)
    (ctx : Context) (req : Notification) (s : σ) : Option GoError × σ :=
  match unmarshalData d req.Params with
  | .error err => (some err, s)
  | .ok params => n.Endpoint ctx params s

/-- A `NotificationHandler[I]` as the `INotificationHandler` stored in the map. -/
def NotificationHandler.toI {σ I : Type} (n : NotificationHandler σ I) (d : Decoder I) :
    INotificationHandler σ :=
  ⟨n.Handle d⟩

/-- Interface `IResponseHandler` (method `Handle`). -/
structure IResponseHandler (σ : Type) where
  Handle : Context → Response → σ → Option GoError × σ

/-- Struct `ResponseHandler[T]`: `Endpoint` takes the pointer to the result and the
pointer to the error. -/
structure ResponseHandler (σ : Type) (T : Type) where
  Endpoint : Context → Option T → Option JSONRPCError → σ → Option GoError × σ

/-- Method `ResponseHandler[T].Handle`. -/
def ResponseHandler.Handle {σ T : Type} (r : ResponseHandler σ T) (d : Decoder T)
    (ctx : Context) (resp : Response) (s : σ) : Option GoError × σ :=
  match resp.Error with
  | some e => r.Endpoint ctx none (some e) s
  | none =>
    match unmarshalData d resp.Result with
    | .error err => (some err, s)
    | .ok result => r.Endpoint ctx (some result) none s

/-- A `ResponseHandler[T]` as the `IResponseHandler` stored in the map. -/
def ResponseHandler.toI {σ T : Type} (r : ResponseHandler σ T) (d : Decoder T) :
    IResponseHandler σ :=
  ⟨r.Handle d⟩

/-- Modelled from the spec: interface `IMethodHandler`, declared in a file
(`handler_method.go`) that is not among the sources. A method handler is invoked
with the per-call context and the request and yields the response (§4.4, §4.5);
the shape follows `invalidParamsResponse`, which builds such a response from such
a request. -/
structure IMethodHandler (σ : Type) where
  Handle : Context → Request → σ → Response × σ

/-- Modelled from the spec: struct `MethodHandler[I, O]` of the absent
`handler_method.go`, a handler constructed around a user function from the input
type to the output type or an error (§4.4). -/
structure MethodHandler (σ : Type) (I O : Type) where
  Endpoint : Context → I → σ → Except GoError O × σ

/-- Modelled from the spec: method `MethodHandler[I, O].Handle` of the absent
`handler_method.go`. §4.4: it decodes the raw params into the input value, and on
decode failure yields InvalidParams with the decoder message; it invokes the user
function; an error that is an error object is surfaced verbatim, any other error
becomes InternalError with the error message; on success the output is encoded to
the raw result. `decode` is the decoding of the raw params into `I` (absent
params included), `encode` the encoding of `O`. -/
def MethodHandler.Handle {σ I O : Type} (m : MethodHandler σ I O)
    (decode : Option Bytes → Except GoError I) (encode : O → Bytes)
    (ctx : Context) (req : Request) (s : σ) : Response × σ :=
  match decode req.Params with
  | .error err => (invalidParamsResponse req err, s)
  | .ok params =>
    match m.Endpoint ctx params s with
    | (.error (.jsonrpc e), s') =>
      ({ JSONRPC := JSONRPCVersion, ID := some req.ID, Result := none, Error := some e }, s')
    | (.error err, s') =>
      ({ JSONRPC := JSONRPCVersion, ID := some req.ID, Result := none
         Error := some { Code := InternalError
                         Message := GetDefaultErrorMessage InternalError ++ ": " ++ err.Error } }, s')
    | (.ok out, s') =>
      ({ JSONRPC := JSONRPCVersion, ID := some req.ID, Result := some (encode out)
         Error := none }, s')

/-- A `MethodHandler[I, O]` as the `IMethodHandler` stored in the map. -/
def MethodHandler.toI {σ I O : Type} (m : MethodHandler σ I O)
    (decode : Option Bytes → Except GoError I) (encode : O → Bytes) : IMethodHandler σ :=
  ⟨m.Handle decode encode⟩

/-- The handlers of a method map that were constructed around a user function. -/
def IMethodHandler.IsMethodHandler {σ : Type} (h : IMethodHandler σ) : Prop :=
  ∃ (I O : Type) (m : MethodHandler σ I O) (decode : Option Bytes → Except GoError I)
    (encode : O → Bytes), h = m.toI decode encode

/-- Function `handleNotification`. Reading `*request.Method` panics on a nil
pointer: the result is then `none`. -/
def handleNotification {σ : Type} (ctx : Context) (request : UnionRequest)
    (notificationMap : String → Option (INotificationHandler σ)) (s : σ) :
    Option (Option GoError × σ) :=
  match request.Method with
  | none => none
  | some method =>
    match notificationMap method with
    | none =>
      some (some (.jsonrpc {
        Code := MethodNotFoundError
        Message := GetDefaultErrorMessage MethodNotFoundError ++ ": Notification" ++ method }), s)
    | some handler =>
      let subCtx := contextWithRequestInfo ctx method .Notification none
      some (handler.Handle subCtx
        { JSONRPC := request.JSONRPC, Method := method, Params := request.Params } s)

/-- Function `handleResponse`. -/
def handleResponse {σ : Type} (ctx : Context) (request : UnionRequest)
    (responseMap : String → Option (IResponseHandler σ))
    (responseHandlerMapper : Context → Response → σ → Except GoError String × σ) (s : σ) :
    Option GoError × σ :=
  let resp : Response :=
    { JSONRPC := request.JSONRPC, ID := request.ID, Result := request.Result
      Error := request.Error }
  match responseHandlerMapper ctx resp s with
  | (.error err, s') =>
    (some (.jsonrpc { Code := InternalError
                      Message := GetDefaultErrorMessage InternalError ++ ": " ++ err.Error }), s')
  | (.ok method, s') =>
    let subCtx := contextWithRequestInfo ctx method .Response request.ID
    match responseMap method with
    | none =>
      (some (.jsonrpc { Code := MethodNotFoundError
                        Message := GetDefaultErrorMessage MethodNotFoundError ++ ": " ++ method }), s')
    | some handler => handler.Handle subCtx resp s'

/-- Modelled from the spec: function `handleMethod` of the absent
`handler_method.go`. §4.5 step 3: invoke the method handler registered for
`u.method` and take the assembled response; if there is no such method the
response is `{ id: u.id, error: MethodNotFound(": " + name) }`. The handler runs
under the context derived by `contextWithRequestInfo` (§4.10) and is given the
request made of the fields of the item, as `handleNotification` does for a
notification. Reading `*request.Method` or `*request.ID` panics on a nil pointer:
the result is then `none`. -/
def handleMethod {σ : Type} (ctx : Context) (request : UnionRequest)
    (methodMap : String → Option (IMethodHandler σ)) (s : σ) : Option (Response × σ) :=
  match request.Method with
  | none => none
  | some method =>
    match methodMap method with
    | none =>
      some ({ JSONRPC := JSONRPCVersion, ID := request.ID, Result := none
              Error := some {
                Code := MethodNotFoundError
                Message := GetDefaultErrorMessage MethodNotFoundError ++ ": " ++ method } }, s)
    | some handler =>
      match request.ID with
      | none => none
      | some id =>
        let subCtx := contextWithRequestInfo ctx method .Method request.ID
        some (handler.Handle subCtx
          { JSONRPC := request.JSONRPC, ID := id, Method := method, Params := request.Params } s)

/-! ## Dispatcher (`handler_meta.go`) -/

/-- Struct `BatchRequestHandler`; a nil map, and the nil mapper, are `none`. -/
structure BatchRequestHandler (σ : Type) where
  methodMap : Option (String → Option (IMethodHandler σ))
  notificationMap : Option (String → Option (INotificationHandler σ))
  responseMap : Option (String → Option (IResponseHandler σ))
  responseHandlerMapper : Option (Context → Response → σ → Except GoError String × σ)

/-- Type `HandlerOption`. -/
abbrev HandlerOption (σ : Type) := BatchRequestHandler σ → BatchRequestHandler σ

/-- Function `WithMethodMap`. -/
def WithMethodMap {σ : Type} (methodMap : Option (String → Option (IMethodHandler σ))) :
    HandlerOption σ :=
  fun h => { h with methodMap := methodMap }

/-- Function `WithNotificationMap`. -/
def WithNotificationMap {σ : Type}
    (notificationMap : Option (String → Option (INotificationHandler σ))) : HandlerOption σ :=
  fun h => { h with notificationMap := notificationMap }

/-- Function `WithResponseMap`. -/
def WithResponseMap {σ : Type} (responseMap : Option (String → Option (IResponseHandler σ)))
    (mapper : Option (Context → Response → σ → Except GoError String × σ)) : HandlerOption σ :=
  fun h => { h with responseMap := responseMap, responseHandlerMapper := mapper }

/-- Function `NewBatchRequestHandler`. -/
def NewBatchRequestHandler {σ : Type} (opts : List (HandlerOption σ)) : BatchRequestHandler σ :=
  opts.foldl (fun handler opt => opt handler)
    { methodMap := some (fun _ => none)
      notificationMap := some (fun _ => none)
      responseMap := some (fun _ => none)
      responseHandlerMapper := none }

/-- The response that `Handle` returns when there is no input. -/
def noInputResponse : BatchResponse :=
  { Body := some {
      IsBatch := false
      Items := [{ JSONRPC := JSONRPCVersion
                  ID := none
                  Result := none
                  Error := some { Code := ParseError
                                  Message := GetDefaultErrorMessage ParseError ++
                                    ": No input received" } }] } }

/-- One iteration of the loop of `Handle` over the items of the batch, on the
response items collected so far and the program state. -/
def handleItem {σ : Type} (brh : BatchRequestHandler σ) (ctx : Context) (request : UnionRequest)
    (items : List Response) (s : σ) : Option (List Response × σ) :=
  match detectMessageType request with
  | (_, some jerr) =>
    some (items ++ [{ JSONRPC := JSONRPCVersion, ID := request.ID, Result := none
                      Error := some jerr }], s)
  | (msgType, none) =>
    match msgType, brh.notificationMap, brh.methodMap, brh.responseMap,
        brh.responseHandlerMapper with
    | .Notification, some notificationMap, _, _, _ =>
      (handleNotification ctx request notificationMap s).map (fun r => (items, r.2))
    | .Method, _, some methodMap, _, _ =>
      (handleMethod ctx request methodMap s).map (fun r => (items ++ [r.1], r.2))
    | .Response, _, _, some responseMap, some mapper =>
      some (items, (handleResponse ctx request responseMap mapper s).2)
    | _, _, _, _, _ => some (items, s)

/-- The loop of `Handle` over the items of the batch. -/
def handleLoop {σ : Type} (brh : BatchRequestHandler σ) (ctx : Context) :
    List UnionRequest → List Response → σ → Option (List Response × σ)
  | [], items, s => some (items, s)
  | request :: rest, items, s =>
    match handleItem brh ctx request items s with
    | none => none
    | some (items', s') => handleLoop brh ctx rest items' s'

/-- The pair that `Handle` returns: the pointer to the response and the error. -/
structure HandleResult where
  resp : Option BatchResponse
  err : Option GoError
  deriving DecidableEq, Repr

/-- Method `BatchRequestHandler.Handle`, on the program state `s`; `none` is a
panic. -/
def BatchRequestHandler.Handle {σ : Type} (brh : BatchRequestHandler σ) (ctx : Context)
    (metaReq : Option BatchRequest) (s : σ) : Option (HandleResult × σ) :=
  match metaReq with
  | none => some ({ resp := some noInputResponse, err := none }, s)
  | some req =>
    match req.Body with
    | none => some ({ resp := some noInputResponse, err := none }, s)
    | some body =>
      if body.Items.length = 0 then some ({ resp := some noInputResponse, err := none }, s)
      else
        match handleLoop brh ctx body.Items [] s with
        | none => none
        | some (items, s') =>
          if items.length = 0 then some ({ resp := some { Body := none }, err := none }, s')
          else
            some ({ resp := some { Body := some { IsBatch := body.IsBatch, Items := items } }
                    err := none }, s')

/-- The response items that `Handle` returned: none when the response is the
empty response (or is nil). -/
def HandleResult.items (res : HandleResult) : List Response :=
  match res.resp with
  | some resp => resp.items
  | none => []

/-! ## Batch codec (`type_batchitem.go`) -/

/-- Leading white space removed, as `bytes.TrimSpace` does at the front of a
slice: the six ASCII space bytes and the UTF-8 encodings of the other runes of
`unicode.IsSpace` (U+0085, U+00A0, U+1680, U+2000 to U+200A, U+2028, U+2029,
U+202F, U+205F, U+3000). -/
def trimLeftSpace : Bytes → Bytes
  | [] => []
  | b :: t =>
    if b = 0x09 ∨ b = 0x0A ∨ b = 0x0B ∨ b = 0x0C ∨ b = 0x0D ∨ b = 0x20 then trimLeftSpace t
    else
      match t with
      | [] => [b]
      | c :: t' =>
        if b = 0xC2 ∧ (c = 0x85 ∨ c = 0xA0) then trimLeftSpace t'
        else
          match t' with
          | [] => [b, c]
          | d :: t'' =>
            if (b = 0xE1 ∧ c = 0x9A ∧ d = 0x80) ∨
                (b = 0xE2 ∧ c = 0x80 ∧ ((0x80 ≤ d ∧ d ≤ 0x8A) ∨ d = 0xA8 ∨ d = 0xA9 ∨ d = 0xAF)) ∨
                (b = 0xE2 ∧ c = 0x81 ∧ d = 0x9F) ∨ (b = 0xE3 ∧ c = 0x80 ∧ d = 0x80) then
              trimLeftSpace t''
            else b :: c :: d :: t''

/-- Trailing white space removed, on the reversed slice: the same runes, their
encodings read from the last byte backwards. -/
def trimRightSpaceRev : Bytes → Bytes
  | [] => []
  | b :: t =>
    if b = 0x09 ∨ b = 0x0A ∨ b = 0x0B ∨ b = 0x0C ∨ b = 0x0D ∨ b = 0x20 then trimRightSpaceRev t
    else
      match t with
      | [] => [b]
      | c :: t' =>
        if c = 0xC2 ∧ (b = 0x85 ∨ b = 0xA0) then trimRightSpaceRev t'
        else
          match t' with
          | [] => [b, c]
          | d :: t'' =>
            if (d = 0xE1 ∧ c = 0x9A ∧ b = 0x80) ∨
                (d = 0xE2 ∧ c = 0x80 ∧ ((0x80 ≤ b ∧ b ≤ 0x8A) ∨ b = 0xA8 ∨ b = 0xA9 ∨ b = 0xAF)) ∨
                (d = 0xE2 ∧ c = 0x81 ∧ b = 0x9F) ∨ (d = 0xE3 ∧ c = 0x80 ∧ b = 0x80) then
              trimRightSpaceRev t''
            else b :: c :: d :: t''

/-- `bytes.TrimSpace`. -/
def TrimSpace (data : Bytes) : Bytes :=
  (trimRightSpaceRev (trimLeftSpace data).reverse).reverse

/-- The bytes of the JSON literal `null`. -/
def nullBytes : Bytes := [110, 117, 108, 108]

/-- Function `checkForEmptyOrNullData`. -/
def checkForEmptyOrNullData (data : Bytes) : Option JSONRPCError :=
  let data := TrimSpace data
  if data.length = 0 then
    some { Code := ParseError
           Message := GetDefaultErrorMessage ParseError ++ ": Received empty data" }
  else if data = nullBytes then
    some { Code := ParseError
           Message := GetDefaultErrorMessage ParseError ++ ": Received null data" }
  else none

/-- The two uses of `json.Unmarshal` in `unmarshalBatchItem`: into a
`[]json.RawMessage` and into a `T`; a failure carries the text of `err.Error()`. -/
structure JSONDecoder (T : Type) where
  unmarshalRaw : Bytes → Except String (List Bytes)
  unmarshal : Bytes → Except String T

/-- What a call of `unmarshalBatchItem` leaves behind: the error it returns and
the values of `*isBatch` and `*items`. -/
structure BatchDecode (T : Type) where
  err : Option JSONRPCError
  isBatch : Bool
  items : List T
  deriving DecidableEq, Repr

/-- The loop of `unmarshalBatchItem` over the raw messages of a batch. -/
def unmarshalBatchLoop {T : Type} (dec : JSONDecoder T) :
    List Bytes → List T → Option JSONRPCError × List T
  | [], items => (none, items)
  | msg :: rest, items =>
    match checkForEmptyOrNullData msg with
    | some err => (some err, items)
    | none =>
      match dec.unmarshal msg with
      | .error e =>
        (some { Code := ParseError
                Message := GetDefaultErrorMessage ParseError ++
                  ": Failed to unmarshal batch item: " ++ e }, items)
      | .ok item => unmarshalBatchLoop dec rest (items ++ [item])

/-- Function `unmarshalBatchItem`, on the initial values of `*isBatch` and
`*items`. -/
def unmarshalBatchItem {T : Type} (dec : JSONDecoder T) (data : Bytes) (isBatch : Bool)
    (items : List T) : BatchDecode T :=
  match checkForEmptyOrNullData data with
  | some err => { err := some err, isBatch := isBatch, items := items }
  | none =>
    let data := TrimSpace data
    match dec.unmarshalRaw data with
    | .ok rawMessages =>
      let r := unmarshalBatchLoop dec rawMessages items
      { err := r.1, isBatch := true, items := r.2 }
    | .error _ =>
      match dec.unmarshal data with
      | .error e =>
        { err := some { Code := ParseError
                        Message := GetDefaultErrorMessage ParseError ++
                          ": Failed to unmarshal single item: " ++ e }
          isBatch := isBatch, items := items }
      | .ok item => { err := none, isBatch := false, items := items ++ [item] }

/-- Method `BatchItem[T].UnmarshalJSON`: the error returned and the receiver
after the call. -/
def BatchItem.UnmarshalJSON {T : Type} (dec : JSONDecoder T) (m : BatchItem T) (data : Bytes) :
    Option JSONRPCError × BatchItem T :=
  let r := unmarshalBatchItem dec data m.IsBatch []
  (r.err, { IsBatch := r.isBatch, Items := r.items })

/-! ## Request ids (`type_intstring.go`) -/

/-- Method `IntString.Equal`, on the two pointers. -/
def IntString.Equal (is other : Option IntString) : Bool :=
  match is, other with
  | none, none => true
  | none, some _ => false
  | some _, none => false
  | some a, some b =>
    match a with
    | .int v =>
      match b with
      | .int ov => v == ov
      | _ => false
    | .string v =>
      match b with
      | .string ov => v == ov
      | _ => false
    | .other _ => false

/-! ## Line framer (`transport/mcpstdio/net/framer.go`) -/

/-- The slice `b` starts with `sub`. -/
def startsWith : Bytes → Bytes → Bool
  | _, [] => true
  | [], _ :: _ => false
  | x :: xs, y :: ys => x == y && startsWith xs ys

/-- `bytes.Contains`. -/
def Contains : Bytes → Bytes → Bool
  | [], sub => startsWith [] sub
  | x :: xs, sub => startsWith (x :: xs) sub || Contains xs sub

/-- `bytes.HasSuffix`. -/
def HasSuffix (s suffix : Bytes) : Bool :=
  decide (suffix.length ≤ s.length) && s.drop (s.length - suffix.length) == suffix

/-- `bytes.TrimSuffix`. -/
def TrimSuffix (s suffix : Bytes) : Bytes :=
  if HasSuffix s suffix then s.take (s.length - suffix.length) else s

/-- The byte `'\n'`. -/
def newline : Nat := 10

/-- A `bufio.Writer`, as its method `Write` on a state `ω`: the number of bytes
taken, the error, and the new state. -/
structure Writer (ω : Type) where
  Write : ω → Bytes → (Nat × Option String) × ω

/-- A `bufio.Writer` that does not fail: it takes all the bytes it is given; its
state is the sequence of the bytes written so far. -/
def bufioWriter : Writer Bytes :=
  ⟨fun w p => ((p.length, none), w ++ p)⟩

/-- The loop of `WriteMessage` that writes `msg` from `totalWritten` on; `none`
when `fuel` iterations do not end it. -/
def LineFramer.writeLoop {ω : Type} (wr : Writer ω) (msg : Bytes) :
    Nat → Nat → ω → Option (Option String × ω)
  | 0, _, _ => none
  | fuel + 1, totalWritten, w =>
    if totalWritten < msg.length then
      match wr.Write w (msg.drop totalWritten) with
      | ((_, some err), w') => some (some err, w')
      | ((n, none), w') => LineFramer.writeLoop wr msg fuel (totalWritten + n) w'
    else some (none, w)

/-- Method `LineFramer.WriteMessage`: the error it returns and the state of the
writer after the call. -/
def LineFramer.WriteMessage {ω : Type} (wr : Writer ω) (fuel : Nat) (w : ω) (msg : Bytes) :
    Option (Option String × ω) :=
  let c := TrimSuffix msg [newline]
  if Contains c [newline] then some (some "invalid character newline in the middle", w)
  else
    let msg := if ¬ HasSuffix msg [newline] then msg ++ [newline] else msg
    LineFramer.writeLoop wr msg fuel 0 w

/-- `bufio.Reader.ReadBytes` on a reader whose source holds the bytes `r` and
then ends: the bytes up to and including the first `delim`, or the bytes left
and the error `io.EOF`; and the bytes left in the reader. -/
def ReadBytes (delim : Nat) : Bytes → (Bytes × Option String) × Bytes
  | [] => (([], some "EOF"), [])
  | b :: rest =>
    if b = delim then (([b], none), rest)
    else
      match ReadBytes delim rest with
      | ((line, err), r) => ((b :: line, err), r)

/-- Method `LineFramer.ReadMessage`: the content (`none` is the nil slice), the
error, and the bytes left in the reader. -/
def LineFramer.ReadMessage (r : Bytes) : (Option Bytes × Option String) × Bytes :=
  match ReadBytes newline r with
  | ((_, some err), r') => ((none, some err), r')
  | ((b, none), r') => ((some (TrimSuffix b [newline]), none), r')

/-- The payloads written one after the other with `WriteMessage` to a writer
that does not fail, up to the first error. -/
def LineFramer.writeMessages (fuel : Nat) : List Bytes → Bytes → Option (Option String × Bytes)
  | [], w => some (none, w)
  | msg :: rest, w =>
    match LineFramer.WriteMessage bufioWriter fuel w msg with
    | some (none, w') => LineFramer.writeMessages fuel rest w'
    | other => other

/-- The results of `n` calls of `ReadMessage` in a row, and the bytes left. -/
def LineFramer.readMessages : Nat → Bytes → List (Option Bytes × Option String) × Bytes
  | 0, r => ([], r)
  | n + 1, r =>
    match LineFramer.ReadMessage r with
    | (res, r') =>
      match LineFramer.readMessages n r' with
      | (results, r'') => (res :: results, r'')

/-- The bytes of the frames of the payloads `ms`, one after the other: each
payload followed by one newline. -/
def LineFramer.framesOf : List Bytes → Bytes
  | [] => []
  | msg :: rest => msg ++ [newline] ++ LineFramer.framesOf rest

/-! ## Batch encode (`type_batchitem.go`) -/

/-- `json.Marshal` of a value of type `T`; a failure carries the text of
`err.Error()`. -/
structure JSONEncoder (T : Type) where
  marshal : T → Except String Bytes

/-- The text of the JSON array whose elements have the texts `elems`, as
`json.Marshal` writes it: `[`, the elements separated by `,`, and `]`. -/
def arrayText (elems : List Bytes) : Bytes :=
  [91] ++ List.intercalate [44] elems ++ [93]

/-- The encodings of the items in order, or the error of the first item that
does not encode. -/
def marshalItems {T : Type} (enc : JSONEncoder T) : List T → Except String (List Bytes)
  | [] => .ok []
  | x :: xs =>
    match enc.marshal x with
    | .error e => .error e
    | .ok b =>
      match marshalItems enc xs with
      | .error e => .error e
      | .ok bs => .ok (b :: bs)

/-- `json.Marshal` of a slice `[]T` (`T` not being a byte type): `null` for the
nil slice, the array of the encodings of the elements otherwise. -/
def marshalSlice {T : Type} (enc : JSONEncoder T) : Option (List T) → Except String Bytes
  | none => .ok nullBytes
  | some xs =>
    match marshalItems enc xs with
    | .error e => .error e
    | .ok bs => .ok (arrayText bs)

/-- Function `marshalBatchItem`; `items` is a slice, `none` being the nil slice. -/
def marshalBatchItem {T : Type} (enc : JSONEncoder T) (isBatch : Bool)
    (items : Option (List T)) : Except String Bytes :=
  if isBatch then marshalSlice enc items
  else
    match items with
    | some (x :: _) => enc.marshal x
    | _ => .ok nullBytes

/-- Method `BatchItem[T].MarshalJSON`, on a `BatchItem` whose `Items` is not the
nil slice. -/
def BatchItem.MarshalJSON {T : Type} (enc : JSONEncoder T) (m : BatchItem T) :
    Except String Bytes :=
  marshalBatchItem enc m.IsBatch (some m.Items)

/-! ## JSON texts (`encoding/json`)

The scanner and the writer of `encoding/json` are a parameter: `JSONLib` gives,
for a text, the value it holds one level deep, and the texts written for an
integer and for a string. What the package does with these, for the types of
this repository, is spelled out here. -/

/-- One level of a JSON text: the kind of the value it holds, the value itself
for a scalar, and the texts of the elements or of the members for an array or
an object. A number written without fraction and exponent is `int`, any other
number is `real`. -/
inductive JSONShape where
  | null
  | bool (b : Bool)
  | int (n : Int)
  | real (q : Rat)
  | string (s : String)
  | array (elems : List Bytes)
  | object (members : List (String × Bytes))
  deriving DecidableEq, Repr

/-- The text layer of `encoding/json`: `shape` reads a text (`none` when it is
not a JSON text), `marshalInt` and `marshalString` write an integer and a
string, `compact` is the text written for a `json.RawMessage` (`none` when it
is not a JSON text), `anyText` is the text written for the value that a text is
read into when the target has type `any`, and `fold` is the folding of a member
name that field lookup falls back on. -/
structure JSONLib where
  shape : Bytes → Option JSONShape
  marshalInt : Int → Bytes
  marshalString : String → Bytes
  compact : Bytes → Option Bytes
  anyText : Bytes → Bytes
  fold : String → String

/-- The least value of the Go type `int` (64 bits). -/
def minInt : Int := -9223372036854775808

/-- The greatest value of the Go type `int` (64 bits). -/
def maxInt : Int := 9223372036854775807

/-- `json.Unmarshal` into an `int`: an integer literal that fits is stored,
`null` leaves the zero value, anything else is an error (of which only the
occurrence is observed here). -/
def JSONLib.unmarshalInt (lib : JSONLib) (data : Bytes) : Except String Int :=
  match lib.shape data with
  | some .null => .ok 0
  | some (.int n) =>
    if minInt ≤ n ∧ n ≤ maxInt then .ok n
    else .error "json: cannot unmarshal number into Go value of type int"
  | some _ => .error "json: cannot unmarshal value into Go value of type int"
  | none => .error "invalid character looking for beginning of value"

/-- `json.Unmarshal` into a `string`: a string is stored, `null` leaves the zero
value, anything else is an error. -/
def JSONLib.unmarshalString (lib : JSONLib) (data : Bytes) : Except String String :=
  match lib.shape data with
  | some .null => .ok ""
  | some (.string s) => .ok s
  | some _ => .error "json: cannot unmarshal value into Go value of type string"
  | none => .error "invalid character looking for beginning of value"

/-- `json.Unmarshal` into a `[]json.RawMessage`: the texts of the elements of an
array, the nil slice for `null`, an error otherwise. -/
def JSONLib.unmarshalRaw (lib : JSONLib) (data : Bytes) : Except String (List Bytes) :=
  match lib.shape data with
  | some .null => .ok []
  | some (.array elems) => .ok elems
  | some _ => .error "json: cannot unmarshal value into Go value of type []json.RawMessage"
  | none => .error "invalid character looking for beginning of value"

/-- Method `IntString.UnmarshalJSON`: the value stored in the receiver, or the
error. -/
def IntString.UnmarshalJSON (lib : JSONLib) (data : Bytes) : Except String IntString :=
  if data = nullBytes then .error "IntString cannot be null"
  else
    match lib.unmarshalInt data with
    | .ok intValue => .ok (.int intValue)
    | .error _ =>
      match lib.unmarshalString data with
      | .ok strValue => .ok (.string strValue)
      | .error _ => .error "IntString must be a string or an integer"

/-- Method `IntString.MarshalJSON`. -/
def IntString.MarshalJSON (lib : JSONLib) (is : IntString) : Except String Bytes :=
  match is with
  | .int v => .ok (lib.marshalInt v)
  | .string v => .ok (lib.marshalString v)
  | .other _ => .error "IntString contains unsupported type"

/-! ## Decoding and encoding of the wire structs (`type_spec.go`, `error.go`)

What `encoding/json` does with the struct tags of `JSONRPCError`, `UnionRequest`
and `Response`. A decoding error of a field that is not raised by an
`UnmarshalJSON` method is kept aside and returned at the end; an error of
`IntString.UnmarshalJSON` ends the decoding at once. The payload of `Data any`
is the text that `json.Marshal` writes for its value. -/

/-- The field that a member name selects among the JSON names `fields` of a
struct: the field of exactly that name, or else the first field with the same
folded name. -/
def JSONLib.fieldOf (lib : JSONLib) (fields : List String) (key : String) : Option String :=
  match fields.find? (fun f => f = key) with
  | some f => some f
  | none => fields.find? (fun f => lib.fold f = lib.fold key)

/-- The first error kept aside. -/
def keepError (saved : Option String) (e : String) : Option String :=
  match saved with
  | some s => some s
  | none => some e

/-- The JSON names of the fields of `JSONRPCError`. -/
def errorFields : List String := ["code", "message", "data"]

/-- Decoding of one member of an object into a `JSONRPCError`. -/
def JSONRPCError.decodeMember (lib : JSONLib) (st : JSONRPCError × Option String)
    (m : String × Bytes) : JSONRPCError × Option String :=
  match lib.fieldOf errorFields m.1 with
  | none => st
  | some f =>
    if f = "code" then
      match lib.shape m.2 with
      | some .null => st
      | _ =>
        match lib.unmarshalInt m.2 with
        | .ok n => ({ st.1 with Code := n }, st.2)
        | .error e => (st.1, keepError st.2 e)
    else if f = "message" then
      match lib.shape m.2 with
      | some .null => st
      | _ =>
        match lib.unmarshalString m.2 with
        | .ok s => ({ st.1 with Message := s }, st.2)
        | .error e => (st.1, keepError st.2 e)
    else
      match lib.shape m.2 with
      | some .null => ({ st.1 with Data := none }, st.2)
      | _ => ({ st.1 with Data := some (lib.anyText m.2) }, st.2)

/-- Decoding of the text of an `error` member into the `*JSONRPCError` field
whose current value is `cur`. -/
def JSONRPCError.decodeInto (lib : JSONLib) (cur : Option JSONRPCError) (saved : Option String)
    (data : Bytes) : Option JSONRPCError × Option String :=
  match lib.shape data with
  | some .null => (none, saved)
  | some (.object members) =>
    let start : JSONRPCError := cur.getD { Code := 0, Message := "", Data := none }
    let r := members.foldl (JSONRPCError.decodeMember lib) (start, saved)
    (some r.1, r.2)
  | _ =>
    (some (cur.getD { Code := 0, Message := "", Data := none }),
      keepError saved "json: cannot unmarshal value into Go value of type reqresp.JSONRPCError")

/-- The JSON names of the fields of `UnionRequest`. -/
def unionFields : List String := ["jsonrpc", "id", "method", "params", "result", "error"]

/-- The JSON names of the fields of `Response`. -/
def responseFields : List String := ["jsonrpc", "id", "result", "error"]

/-- Decoding of one member of an object into a struct with the fields `fields`
of `UnionRequest`: the struct and the error kept aside, or the error of
`IntString.UnmarshalJSON`. -/
def UnionRequest.decodeMember (lib : JSONLib) (fields : List String)
    (st : UnionRequest × Option String) (m : String × Bytes) :
    Except String (UnionRequest × Option String) :=
  match lib.fieldOf fields m.1 with
  | none => .ok st
  | some f =>
    if f = "jsonrpc" then
      match lib.shape m.2 with
      | some .null => .ok st
      | _ =>
        match lib.unmarshalString m.2 with
        | .ok s => .ok ({ st.1 with JSONRPC := s }, st.2)
        | .error e => .ok (st.1, keepError st.2 e)
    else if f = "id" then
      match lib.shape m.2 with
      | some .null => .ok ({ st.1 with ID := none }, st.2)
      | _ =>
        match IntString.UnmarshalJSON lib m.2 with
        | .ok id => .ok ({ st.1 with ID := some id }, st.2)
        | .error e => .error e
    else if f = "method" then
      match lib.shape m.2 with
      | some .null => .ok ({ st.1 with Method := none }, st.2)
      | _ =>
        match lib.unmarshalString m.2 with
        | .ok s => .ok ({ st.1 with Method := some s }, st.2)
        | .error e => .ok (st.1, keepError st.2 e)
    else if f = "params" then .ok ({ st.1 with Params := some m.2 }, st.2)
    else if f = "result" then .ok ({ st.1 with Result := some m.2 }, st.2)
    else
      let r := JSONRPCError.decodeInto lib st.1.Error st.2 m.2
      .ok ({ st.1 with Error := r.1 }, r.2)

/-- Decoding of the members of an object, in order. -/
def UnionRequest.decodeMembers (lib : JSONLib) (fields : List String) :
    List (String × Bytes) → UnionRequest × Option String →
      Except String (UnionRequest × Option String)
  | [], st => .ok st
  | m :: rest, st =>
    match UnionRequest.decodeMember lib fields st m with
    | .error e => .error e
    | .ok st' => UnionRequest.decodeMembers lib fields rest st'

/-- The zero value of `UnionRequest`. -/
def UnionRequest.zero : UnionRequest :=
  { JSONRPC := "", ID := none, Method := none, Params := none, Result := none, Error := none }

/-- `json.Unmarshal` of a text into a zero struct with the fields `fields` of
`UnionRequest`. -/
def UnionRequest.decodeWith (lib : JSONLib) (fields : List String) (data : Bytes) :
    Except String UnionRequest :=
  match lib.shape data with
  | none => .error "invalid character looking for beginning of value"
  | some .null => .ok UnionRequest.zero
  | some (.object members) =>
    match UnionRequest.decodeMembers lib fields members (UnionRequest.zero, none) with
    | .error e => .error e
    | .ok (u, none) => .ok u
    | .ok (_, some e) => .error e
  | some _ => .error "json: cannot unmarshal value into Go value of type reqresp.UnionRequest"

/-- `json.Unmarshal` into a `UnionRequest`. -/
def UnionRequest.Unmarshal (lib : JSONLib) (data : Bytes) : Except String UnionRequest :=
  UnionRequest.decodeWith lib unionFields data

/-- A `Response` as the `UnionRequest` with the same fields and neither method
nor params. -/
def Response.toUnion (r : Response) : UnionRequest :=
  { JSONRPC := r.JSONRPC, ID := r.ID, Method := none, Params := none, Result := r.Result
    Error := r.Error }

/-- The `Response` made of the fields of a `UnionRequest`. -/
def UnionRequest.toResponse (u : UnionRequest) : Response :=
  { JSONRPC := u.JSONRPC, ID := u.ID, Result := u.Result, Error := u.Error }

/-- `json.Unmarshal` into a `Response[json.RawMessage]`. -/
def Response.Unmarshal (lib : JSONLib) (data : Bytes) : Except String Response :=
  match UnionRequest.decodeWith lib responseFields data with
  | .error e => .error e
  | .ok u => .ok u.toResponse

/-- The decoders that `unmarshalBatchItem` uses for items of type `UnionRequest`. -/
def unionDecoder (lib : JSONLib) : JSONDecoder UnionRequest :=
  ⟨lib.unmarshalRaw, UnionRequest.Unmarshal lib⟩

/-- The decoders that `unmarshalBatchItem` uses for items of type `Response`. -/
def responseDecoder (lib : JSONLib) : JSONDecoder Response :=
  ⟨lib.unmarshalRaw, Response.Unmarshal lib⟩

/-- The text of the JSON object whose members have the names and the texts
`members`, as `json.Marshal` writes it. -/
def JSONLib.objectText (lib : JSONLib) (members : List (String × Bytes)) : Bytes :=
  [123] ++ List.intercalate [44] (members.map (fun m => lib.marshalString m.1 ++ [58] ++ m.2))
    ++ [125]

/-- The member written for a field of type `json.RawMessage` tagged `omitempty`:
none for an empty slice, the compacted text otherwise. -/
def JSONLib.rawMember (lib : JSONLib) (name : String) (raw : Option Bytes) :
    Except String (List (String × Bytes)) :=
  match raw with
  | none => .ok []
  | some b =>
    if b.length = 0 then .ok []
    else
      match lib.compact b with
      | some c => .ok [(name, c)]
      | none => .error "json: error calling MarshalJSON for type json.RawMessage"

/-- The members that `json.Marshal` writes for a `JSONRPCError`: `code`,
`message`, and `data` unless it is nil. -/
def JSONRPCError.members (lib : JSONLib) (e : JSONRPCError) : List (String × Bytes) :=
  [("code", lib.marshalInt e.Code), ("message", lib.marshalString e.Message)] ++
    (match e.Data with
      | none => []
      | some d => [("data", d)])

/-- The member written for the field `id`, tagged `omitempty`. -/
def IntString.member (lib : JSONLib) (id : Option IntString) :
    Except String (List (String × Bytes)) :=
  match id with
  | none => .ok []
  | some v =>
    match v.MarshalJSON lib with
    | .ok b => .ok [("id", b)]
    | .error e => .error e

/-- The member written for the field `error`, tagged `omitempty`. -/
def JSONRPCError.member (lib : JSONLib) (e : Option JSONRPCError) : List (String × Bytes) :=
  match e with
  | none => []
  | some v => [("error", lib.objectText (v.members lib))]

/-- The members that `json.Marshal` writes for a `UnionRequest`, in the order of
the fields: `jsonrpc` always, the others unless they are nil (or empty). -/
def UnionRequest.members (lib : JSONLib) (u : UnionRequest) :
    Except String (List (String × Bytes)) :=
  match IntString.member lib u.ID, lib.rawMember "params" u.Params,
      lib.rawMember "result" u.Result with
  | .ok id, .ok params, .ok result =>
    .ok ([("jsonrpc", lib.marshalString u.JSONRPC)] ++ id ++
      (match u.Method with
        | none => []
        | some m => [("method", lib.marshalString m)]) ++ params ++ result ++
      JSONRPCError.member lib u.Error)
  | .error e, _, _ => .error e
  | _, .error e, _ => .error e
  | _, _, .error e => .error e

/-- `json.Marshal` of a `UnionRequest`. -/
def UnionRequest.Marshal (lib : JSONLib) (u : UnionRequest) : Except String Bytes :=
  match u.members lib with
  | .ok ms => .ok (lib.objectText ms)
  | .error e => .error e

/-- The members that `json.Marshal` writes for a `Response[json.RawMessage]`:
`jsonrpc` always, `id`, `result` and `error` unless they are nil (or empty). -/
def Response.members (lib : JSONLib) (r : Response) : Except String (List (String × Bytes)) :=
  match IntString.member lib r.ID, lib.rawMember "result" r.Result with
  | .ok id, .ok result =>
    .ok ([("jsonrpc", lib.marshalString r.JSONRPC)] ++ id ++ result ++
      JSONRPCError.member lib r.Error)
  | .error e, _ => .error e
  | _, .error e => .error e

/-- `json.Marshal` of a `Response[json.RawMessage]`. -/
def Response.Marshal (lib : JSONLib) (r : Response) : Except String Bytes :=
  match r.members lib with
  | .ok ms => .ok (lib.objectText ms)
  | .error e => .error e

/-- The encoder that `marshalBatchItem` uses for items of type `UnionRequest`. -/
def unionEncoder (lib : JSONLib) : JSONEncoder UnionRequest :=
  ⟨UnionRequest.Marshal lib⟩

/-- The encoder that `marshalBatchItem` uses for items of type `Response`. -/
def responseEncoder (lib : JSONLib) : JSONEncoder Response :=
  ⟨Response.Marshal lib⟩

/-! ## Reading the per-call context (`helpers.go`) -/

/-- Method `Value` of a context, for a key of type `contextKey`: the value of the
most recent binding of the key. -/
def Context.Value (ctx : Context) (key : contextKey) : Option CtxValue :=
  ctx.lookup key

/-- Function `GetRequestID`; the pair `(id, true)` is `some id`, and the pair of
the zero value and `false` is `none`. -/
def GetRequestID (ctx : Context) : Option RequestID :=
  match ctx.Value ctxKeyRequestID with
  | some (.requestID id) => some id
  | _ => none

/-- Function `GetMethodName`; the pair `(method, true)` is `some method`, and the
pair of the zero value and `false` is `none`. -/
def GetMethodName (ctx : Context) : Option String :=
  match ctx.Value ctxKeyMethodName with
  | some (.string method) => some method
  | _ => none

/-- Function `GetMessageType`; the pair `(msgType, true)` is `some msgType`, and
the pair of the zero value and `false` is `none`. -/
def GetMessageType (ctx : Context) : Option MessageType :=
  match ctx.Value ctxKeyMessageType with
  | some (.messageType msgType) => some msgType
  | _ => none

/-! ## Client of the stdio transport (`transport/mcpstdio/net/client.go`)

The receiver is the only goroutine that writes to the dead-letter queue and the
only one that delivers responses. Its loop is modelled one iteration at a time,
on the fields of the client that the iteration reads and writes. -/

/-- Types `AssignID` and `ExtractID`: the request id (`none` is the nil pointer),
the message, and the error. -/
abbrev IDFunc := Bytes → Option String × Option Bytes × Option String

/-- Struct `DeadLetterItem`; `Err` is the text of the error. -/
structure DeadLetterItem where
  Response : Option Bytes
  Err : String
  deriving DecidableEq, Repr

/-- A buffered channel: its capacity and the values in its buffer, the oldest
first. -/
structure Chan (α : Type) where
  capacity : Nat
  buf : List α
  deriving DecidableEq, Repr

/-- `make(chan T, capacity)`. -/
def Chan.make {α : Type} (capacity : Nat) : Chan α :=
  ⟨capacity, []⟩

/-- A send that is the only case of a `select` with a `default`, no receiver
waiting: the value is put at the tail of the buffer when there is room, and
nothing happens otherwise. -/
def Chan.trySend {α : Type} (c : Chan α) (x : α) : Chan α :=
  if c.buf.length < c.capacity then { c with buf := c.buf ++ [x] } else c

/-- A receive that does not wait: the oldest value, taken out of the buffer. -/
def Chan.tryRecv {α : Type} (c : Chan α) : Option α × Chan α :=
  match c.buf with
  | [] => (none, c)
  | x :: rest => (some x, { c with buf := rest })

/-- Struct `Client`, the fields that the receiver and the options read and write:
`pending` maps a request id to the response channel that waits for it, a channel
being named by a number; `responses` holds the values sent to each response
channel. -/
structure Client where
  pending : String → Option Nat
  responses : Nat → List (Option Bytes)
  assignID : Option IDFunc
  extractID : Option IDFunc
  concurrencyEnabled : Bool
  deadLetters : Chan DeadLetterItem

/-- Type `ClientOption`. -/
abbrev ClientOption := Client → Client

/-- Function `WithRequestIDFunctions`. -/
def WithRequestIDFunctions (assignID extractID : Option IDFunc) : ClientOption :=
  fun c => { c with assignID := assignID, extractID := extractID, concurrencyEnabled := true }

/-- Function `WithDeadLetterQueue`. -/
def WithDeadLetterQueue (capacity : Int) : ClientOption :=
  fun c =>
    let capacity := if capacity < 4096 then 4096 else capacity
    { c with deadLetters := Chan.make capacity.toNat }

/-- Function `NewClient`, up to the start of the receiver; `none` is the panic on
a missing id function. -/
def NewClient (options : List ClientOption) : Option Client :=
  let client := options.foldl (fun c opt => opt c)
    { pending := fun _ => none
      responses := fun _ => []
      assignID := none
      extractID := none
      concurrencyEnabled := false
      deadLetters := Chan.make 4096 }
  if client.concurrencyEnabled ∧ (client.assignID.isNone ∨ client.extractID.isNone) then none
  else some client

/-- Method `Client.addToDeadLetter`. -/
def Client.addToDeadLetter (c : Client) (item : DeadLetterItem) : Client :=
  { c with deadLetters := c.deadLetters.trySend item }

/-- Method `Client.PopDeadLetter`, when it does not wait: the item and the client
after the call, or the error of the empty queue. -/
def Client.PopDeadLetter (c : Client) : Except String DeadLetterItem × Client :=
  match c.deadLetters.tryRecv with
  | (some item, q) => (.ok item, { c with deadLetters := q })
  | (none, _) => (.error "no messages in dead letter queue", c)

/-- One iteration of the loop of `Client.receiver`, from the pair that
`ReadMessage` returned on: `none` when the receiver returns (end of the input),
the client after the iteration otherwise. -/
def Client.receiverStep (c : Client) (extractID : IDFunc) (resp : Option Bytes)
    (err : Option String) : Option Client :=
  match err with
  | some e =>
    if e = "EOF" ∨ e = "unexpected EOF" then none
    else some (c.addToDeadLetter { Response := resp, Err := e })
  | none =>
    match extractID (resp.getD []) with
    | (_, _, some e) => some (c.addToDeadLetter { Response := resp, Err := e })
    | (none, _, none) => some c
    | (some reqID, respWithoutID, none) =>
      match c.pending reqID with
      | some ch =>
        some { c with
          pending := fun k => if k = reqID then none else c.pending k
          responses := fun n => if n = ch then c.responses n ++ [respWithoutID]
            else c.responses n }
      | none =>
        some (c.addToDeadLetter
          { Response := resp, Err := "no pending request for response" })

/-! ## String unions (`mcpsdk/spec/type_stringunion.go`, `type_role.go`) -/

/-- Struct `StringUnion`; the set `allowedValues` is the list of the keys of the
map, each key once. -/
structure StringUnion where
  Value : String
  allowedValues : List String
  deriving DecidableEq, Repr

/-- Function `NewStringUnion`. -/
def NewStringUnion (allowedValues : List String) : StringUnion :=
  { Value := ""
    allowedValues :=
      allowedValues.foldl (fun allowed v => if v ∈ allowed then allowed else allowed ++ [v]) [] }

/-- Method `StringUnion.SetValue`: the error and the receiver after the call. Of
the text of the error only the start, which names the value, is kept: the rest
lists the allowed values in the order of an iteration over the map. -/
def StringUnion.SetValue (s : StringUnion) (value : String) : Option GoError × StringUnion :=
  if value ∈ s.allowedValues then (none, { s with Value := value })
  else (some (.plain ("invalid value " ++ value)), s)

/-- Method `StringUnion.UnmarshalJSON`: the error and the receiver after the
call. -/
def StringUnion.UnmarshalJSON (lib : JSONLib) (s : StringUnion) (b : Bytes) :
    Option GoError × StringUnion :=
  match lib.unmarshalString b with
  | .error err => (some (.plain err), s)
  | .ok v => s.SetValue v

/-- Method `StringUnion.MarshalJSON`. -/
def StringUnion.MarshalJSON (lib : JSONLib) (s : StringUnion) : Bytes :=
  lib.marshalString s.Value

/-- Variable `enumValuesRole`. -/
def enumValuesRole : List String := ["assistant", "user"]

/-- Struct `Role`: the embedded pointer to a `StringUnion`. -/
structure Role where
  StringUnion : Option StringUnion
  deriving DecidableEq, Repr

/-- Function `NewRole`. -/
def NewRole (value : String) : Role :=
  let stringUnion := NewStringUnion enumValuesRole
  { StringUnion := some (stringUnion.SetValue value).2 }

/-- Method `Role.UnmarshalJSON`: the error and the receiver after the call. -/
def Role.UnmarshalJSON (lib : JSONLib) (r : Role) (b : Bytes) : Option GoError × Role :=
  let su := match r.StringUnion with
    | none => NewStringUnion enumValuesRole
    | some su => su
  match su.UnmarshalJSON lib b with
  | (err, su') => (err, { StringUnion := some su' })

/-! ## Error handler of the HTTP adapter (`humaadapter/register.go`,
`humaadapter/errorhandler.go`) -/

/-- An `error` that the adapter is given: one that implements
`huma.ErrorDetailer`, with the message of its detail; one that does not and in
whose chain `errors.As` finds a `JSONRPCError`; or any other. `text` is what
`Error()` returns. -/
inductive AdapterError where
  | detailer (message : String) (text : String)
  | jsonrpc (e : JSONRPCError) (text : String)
  | other (text : String)
  deriving DecidableEq, Repr

/-- Method `Error()` of an error of the adapter. -/
def AdapterError.Error : AdapterError → String
  | .detailer _ text => text
  | .jsonrpc _ text => text
  | .other text => text

/-- Struct `ResponseStatusError`: the embedded response and the status. -/
structure ResponseStatusError where
  Response : Response
  status : Int
  deriving DecidableEq, Repr

/-- Method `ResponseStatusError.Error`. -/
def ResponseStatusError.Error (e : ResponseStatusError) : String :=
  match e.Response.Error with
  | some err => err.Message
  | none => ""

/-- Method `ResponseStatusError.GetStatus`. -/
def ResponseStatusError.GetStatus (e : ResponseStatusError) : Int :=
  e.status

/-- `strings.Contains`. -/
def stringsContains (s substr : String) : Bool :=
  decide (substr.data <:+: s.data)

/-- The rest of a text after the first occurrence of `sep`: `s[idx+len(sep):]`
for `idx := strings.Index(s, sep)`, and `none` when `idx` is -1. -/
def afterIndex (sep : List Char) : List Char → Option (List Char)
  | [] => if sep = [] then some [] else none
  | c :: cs =>
    if sep <+: c :: cs then some ((c :: cs).drop sep.length) else afterIndex sep cs

/-- The method name that the loop over the details finds: in the first detail
that holds `method:`, the text after it, up to the next space, `]` or `)` or to
the end; the empty string when no detail holds `method:`. -/
def methodNameOf (details : List String) : String :=
  match details.findSome? (fun errMsg => afterIndex "method:".data errMsg.data) with
  | some rest => String.mk (rest.takeWhile (fun r => ¬ (r = ' ' ∨ r = ']' ∨ r = ')')))
  | none => ""

/-- What the loop of the error handler over the errors keeps: the code, the
message, the details and the `JSONRPCError` found. -/
structure ErrorScan where
  code : JSONRPCErrorCode
  message : String
  details : List String
  found : Option JSONRPCError
  deriving DecidableEq, Repr

/-- One iteration of the loop of the error handler over the errors. -/
def ErrorScan.step (st : ErrorScan) (err : AdapterError) : ErrorScan :=
  let st :=
    match err with
    | .detailer message _ =>
      if stringsContains message "unmarshal" || stringsContains message "invalid character" ||
          stringsContains message "unexpected end" then
        { st with code := ParseError, message := GetDefaultErrorMessage ParseError }
      else st
    | .jsonrpc e _ => { st with found := some e }
    | .other _ => st
  { st with details := st.details ++ [err.Error] }

/-- The text of a byte slice, as the conversion `string(b)` gives it (for a text
of ASCII characters). -/
def bytesToString (b : Bytes) : String :=
  String.mk (b.map Char.ofNat)

/-- Function `GetErrorHandler`, applied to the status, the message and the
errors. The payload of `Data` is the text that `json.Marshal` writes for the
details. -/
def GetErrorHandler {M N : Type} (lib : JSONLib) (methodMap : String → Option M)
    (notificationMap : String → Option N) (gotStatus : Int) (gotMessage : String)
    (errs : List AdapterError) : ResponseStatusError :=
  let details := ["Message:" ++ gotMessage, "HTTP Status:" ++ toString gotStatus]
  let status := 200
  let start : ErrorScan :=
    if gotStatus ≥ 400 ∧ gotStatus < 500 then
      { code := InvalidRequestError, message := GetDefaultErrorMessage InvalidRequestError
        details := details, found := none }
    else { code := InternalError, message := gotMessage, details := details, found := none }
  let scan := errs.foldl ErrorScan.step start
  let scan :=
    match scan.found with
    | some foundJSONRPCError =>
      { scan with
        message := foundJSONRPCError.Message
        code := foundJSONRPCError.Code
        details := scan.details ++ [bytesToString (foundJSONRPCError.Data.getD nullBytes)] }
    | none => scan
  let scan :=
    if gotMessage = "validation failed" then
      let methodName := methodNameOf scan.details
      if methodName ≠ "" ∧ (methodMap methodName).isNone ∧
          (notificationMap methodName).isNone then
        { scan with
          code := MethodNotFoundError
          message := "Method '" ++ methodName ++ "' not found" }
      else scan
    else scan
  { status := status
    Response :=
      { JSONRPC := JSONRPCVersion
        ID := none
        Result := none
        Error := some
          { Code := scan.code
            Message := scan.message
            Data := some (arrayText (scan.details.map lib.marshalString)) } } }

/-! ## Handler tasks of a server connection (`transport/mcpstdio/net/server.go`)

`handleConnection` starts one goroutine for each message it reads. The goroutine
lets the handler fill a buffer of its own, locks `writeMutex`, frames the buffer
into the `bufio.Writer` of the connection with `WriteMessage`, flushes, and
unlocks. The goroutines are modelled as tasks that a scheduler runs one step at
a time, in any order. -/

/-- Where a handler task is: at `writeMutex.Lock()` with the reply that the
handler left in its buffer; in the loop of `WriteMessage`, with the message and
the count of the bytes written; at `writer.Flush()`; at the deferred
`writeMutex.Unlock()`; or at its end. -/
inductive TaskState where
  | waiting (reply : Bytes)
  | writing (msg : Bytes) (totalWritten : Nat)
  | flushing
  | unlocking
  | done
  deriving DecidableEq, Repr

/-- What the tasks of one connection share: the holder of `writeMutex`, the bytes
in the buffer of the `bufio.Writer`, and the bytes written to the connection; and
the state of each task. -/
structure ConnState where
  tasks : Nat → TaskState
  writeMutex : Option Nat
  buffered : Bytes
  wire : Bytes

/-- The connection when the handlers have left the replies in their buffers and
no task has locked the mutex yet. -/
def ConnState.init (replies : List Bytes) : ConnState :=
  { tasks := fun i =>
      match replies[i]? with
      | some reply => .waiting reply
      | none => .done
    writeMutex := none
    buffered := []
    wire := [] }

/-- The message that `WriteMessage` writes for a payload: the payload, with a
newline appended unless it ends with one. -/
def frameOf (msg : Bytes) : Bytes :=
  if ¬ HasSuffix msg [newline] then msg ++ [newline] else msg

/-- One step of the task `i`. A task at `Lock` takes the mutex when it is free,
and waits otherwise; with the mutex it runs the checks of `WriteMessage`, which
returns at once for a payload with a newline in the middle. One iteration of the
loop of `WriteMessage` is one call of `Write`, which takes `n` bytes (at least
one, at most those left) into the buffer, of which the writer passes `k` bytes on
to the connection; `Flush` passes on the rest. The connection takes all the bytes
it is given. -/
def ConnState.step (c : ConnState) (i n k : Nat) : ConnState :=
  match c.tasks i with
  | .waiting reply =>
    if c.writeMutex.isSome then c
    else if Contains (TrimSuffix reply [newline]) [newline] then
      { c with writeMutex := some i, tasks := Function.update c.tasks i .unlocking }
    else
      { c with writeMutex := some i
               tasks := Function.update c.tasks i (.writing (frameOf reply) 0) }
  | .writing msg totalWritten =>
    if totalWritten < msg.length then
      let p := msg.drop totalWritten
      let n := min (max n 1) p.length
      let buf := c.buffered ++ p.take n
      let k := min k buf.length
      { c with tasks := Function.update c.tasks i (.writing msg (totalWritten + n))
               buffered := buf.drop k
               wire := c.wire ++ buf.take k }
    else { c with tasks := Function.update c.tasks i .flushing }
  | .flushing =>
    { c with tasks := Function.update c.tasks i .unlocking
             buffered := []
             wire := c.wire ++ c.buffered }
  | .unlocking => { c with writeMutex := none, tasks := Function.update c.tasks i .done }
  | .done => c

/-- The connection after the steps of a schedule: each entry names the task that
runs and the two counts of its step. -/
def ConnState.run (c : ConnState) (schedule : List (Nat × Nat × Nat)) : ConnState :=
  schedule.foldl (fun c s => c.step s.1 s.2.1 s.2.2) c

/-! ## Vocabulary of the statements -/

/-- The items to which the dispatcher `brh` gives a response item: those the
classifier rejects, and the method calls when the method map is not nil. -/
def BatchRequestHandler.answers {σ : Type} (brh : BatchRequestHandler σ) (u : UnionRequest) :
    Bool :=
  match detectMessageType u with
  | (_, some _) => true
  | (.Method, none) => brh.methodMap.isSome
  | _ => false

/-- The items classified as a method call or as invalid. -/
def isMethodOrInvalid (u : UnionRequest) : Bool :=
  decide ((detectMessageType u).1 = .Method) || decide ((detectMessageType u).1 = .Invalid)

/-- The response item `r` is the one `Handle` makes for the item `u`: the error
response of the classifier for a rejected item, the result of `handleMethod`, in
some program state, for a method call. -/
def BatchRequestHandler.ResponseOf {σ : Type} (brh : BatchRequestHandler σ) (ctx : Context)
    (u : UnionRequest) (r : Response) : Prop :=
  match detectMessageType u with
  | (_, some jerr) =>
    r = { JSONRPC := JSONRPCVersion, ID := u.ID, Result := none, Error := some jerr }
  | (.Method, none) =>
    ∃ methodMap s s', brh.methodMap = some methodMap ∧
      handleMethod ctx u methodMap s = some (r, s')
  | _ => False

/-- The claim of order: `Handle` returns, and its response items correspond one
to one and in order to the items of the batch classified as a method call or as
invalid (so there are as many of the ones as of the others). -/
def BatchRequestHandler.AnswersInOrder {σ : Type} (brh : BatchRequestHandler σ) (ctx : Context)
    (body : BatchItem UnionRequest) (s : σ) : Prop :=
  ∃ res s', brh.Handle ctx (some ⟨some body⟩) s = some (res, s') ∧
    res.items.length = (body.Items.filter isMethodOrInvalid).length ∧
    List.Forall₂ (brh.ResponseOf ctx) (body.Items.filter isMethodOrInvalid) res.items

/-- The claim of shape: `Handle` returns a batch whose `IsBatch` is the one of
the input. -/
def BatchRequestHandler.KeepsIsBatch {σ : Type} (brh : BatchRequestHandler σ) (ctx : Context)
    (body : BatchItem UnionRequest) (s : σ) : Prop :=
  ∃ res s' b, brh.Handle ctx (some ⟨some body⟩) s = some (res, s') ∧
    res.resp = some ⟨some b⟩ ∧ b.IsBatch = body.IsBatch

/-- An element of a JSON array that `unmarshalBatchItem` accepts: it is neither
empty nor `null` once trimmed, and it decodes to `t`. -/
def DecodesTo {T : Type} (dec : JSONDecoder T) (msg : Bytes) (t : T) : Prop :=
  checkForEmptyOrNullData msg = none ∧ dec.unmarshal msg = .ok t

/-! ## Sample handlers and inputs

The program state of the samples counts the calls of user functions. -/

/-- A method call `{"jsonrpc":"2.0","method":"echo","params":[1],"id":1}`, the
params kept as the bytes of `[1]`. -/
def sampleCall : UnionRequest :=
  { JSONRPC := "2.0", ID := some (.int 1), Method := some "echo", Params := some [91, 49, 93]
    Result := none, Error := none }

/-- A notification `{"jsonrpc":"2.0","method":"ping"}`. -/
def sampleNotification : UnionRequest :=
  { JSONRPC := "2.0", ID := none, Method := some "ping", Params := none
    Result := none, Error := none }

/-- A message of version 1.0 with a string id. -/
def sampleOldVersion : UnionRequest :=
  { JSONRPC := "1.0", ID := some (.string "a"), Method := some "echo", Params := none
    Result := none, Error := none }

/-- A user function that returns its input, and fails on the empty input with
an error that is not an error object. -/
def sampleEcho : MethodHandler Nat Bytes Bytes :=
  ⟨fun _ params n =>
    (if params = [] then .error (.plain "intentional error") else .ok params, n + 1)⟩

/-- A user function that fails with an error object. -/
def sampleFail : MethodHandler Nat Bytes Bytes :=
  ⟨fun _ _ n => (.error (.jsonrpc { Code := 1234, Message := "Custom error" }), n + 1)⟩

/-- Decoding of the params of the samples: the raw bytes themselves, absent
params being the empty input. -/
def sampleDecode : Option Bytes → Except GoError Bytes
  | none => .ok []
  | some b => .ok b

/-- A method map with the methods `echo` and `fail`. -/
def sampleMethodMap : String → Option (IMethodHandler Nat) := fun name =>
  if name = "echo" then some (sampleEcho.toI sampleDecode id)
  else if name = "fail" then some (sampleFail.toI sampleDecode id)
  else none

/-- A notification map with the notification `ping`, whose user function fails. -/
def sampleNotificationMap : String → Option (INotificationHandler Nat) := fun name =>
  if name = "ping" then
    some ((⟨fun _ _ n => (some (.plain "processing error"), n + 1)⟩ :
      NotificationHandler Nat Bytes).toI ⟨[], fun b => .ok b⟩)
  else none

/-- A dispatcher built with the sample maps. -/
def sampleHandler : BatchRequestHandler Nat :=
  NewBatchRequestHandler
    [WithMethodMap (some sampleMethodMap), WithNotificationMap (some sampleNotificationMap)]

/-- A dispatcher whose method map was set to nil. -/
def nilMapHandler : BatchRequestHandler Nat :=
  NewBatchRequestHandler [WithMethodMap none]

/-- A decoder of numbers that agrees with `encoding/json` on the sample inputs:
the arrays `[]`, `[1]`, `[null]` and `[1,x]`, and the values `1` and `x`. -/
def sampleDecoder : JSONDecoder Nat where
  unmarshalRaw d :=
    if d = [91, 93] then .ok []
    else if d = [91, 49, 93] then .ok [[49]]
    else if d = [91, 110, 117, 108, 108, 93] then .ok [nullBytes]
    else if d = [91, 49, 44, 120, 93] then .ok [[49], [120]]
    else .error "json: cannot unmarshal into Go value of type []json.RawMessage"
  unmarshal d :=
    if d = [49] then .ok 1
    else .error "invalid character 'x' looking for beginning of value"

/-- The claim of the round trip: the `BatchItem` encodes, and decoding the
encoding gives back its `IsBatch` and its items. -/
def BatchItem.RoundTrips {T : Type} (enc : JSONEncoder T) (dec : JSONDecoder T)
    (b : BatchItem T) : Prop :=
  ∃ data, b.MarshalJSON enc = .ok data ∧
    ∀ m : BatchItem T, BatchItem.UnmarshalJSON dec m data = (none, b)

/-- The decimal digits of a number, as bytes. -/
def digitBytes (n : Nat) : Bytes :=
  (Nat.toDigits 10 n).map Char.toNat

/-- Encoding of numbers of the sample decoder: `1` is written `1`; no other
number is encoded. -/
def sampleEncoder : JSONEncoder Nat :=
  ⟨fun n => if n = 1 then .ok [49] else .error "json: unsupported value"⟩

/-- Encoding of pointers to numbers: the nil pointer is written `null`. -/
def pointerEncoder : JSONEncoder (Option Nat) :=
  ⟨fun p =>
    match p with
    | none => .ok nullBytes
    | some n => .ok (digitBytes n)⟩

/-- A decoder of pointers to numbers that agrees with `encoding/json` on the
values `null` and `1`. -/
def pointerDecoder : JSONDecoder (Option Nat) where
  unmarshalRaw _ := .error "json: cannot unmarshal into Go value of type []json.RawMessage"
  unmarshal d :=
    if d = nullBytes then .ok none
    else if d = [49] then .ok (some 1)
    else .error "invalid character"

/-- Encoding of slices of numbers, on the slice `[1, 2]`: the array `[1,2]`. -/
def sliceEncoder : JSONEncoder (List Nat) :=
  ⟨fun xs => .ok (arrayText (xs.map digitBytes))⟩

/-- A decoder of slices of numbers that agrees with `encoding/json` on the
texts `[1,2]`, `1` and `2`. -/
def sliceDecoder : JSONDecoder (List Nat) where
  unmarshalRaw d :=
    if d = [91, 49, 44, 50, 93] then .ok [[49], [50]]
    else .error "json: cannot unmarshal into Go value of type []json.RawMessage"
  unmarshal d :=
    if d = [91, 49, 44, 50, 93] then .ok [1, 2]
    else .error "json: cannot unmarshal number into Go value of type []int"

/-- The bytes of a text of ASCII characters. -/
def ascii (s : String) : Bytes :=
  s.data.map Char.toNat

/-- The text of an integer, as `strconv.AppendInt` writes it in base 10. -/
def intText (n : Int) : Bytes :=
  if 0 ≤ n then digitBytes n.toNat else 45 :: digitBytes (-n).toNat

/-- A request `{"jsonrpc":"2.0","method":"echo","id":[1]}`, whose id is an array. -/
def sampleArrayID : Bytes :=
  ascii "\x7b\"jsonrpc\":\"2.0\",\"method\":\"echo\",\"id\":[1]\x7d"

/-- A notification `{"jsonrpc":"2.0","method":"ping","id":null}` with a null id. -/
def sampleNullID : Bytes :=
  ascii "\x7b\"jsonrpc\":\"2.0\",\"method\":\"ping\",\"id\":null\x7d"

/-- A notification `{"jsonrpc":"2.0","method":"ping","meta":1}` with a member
that is not a field of `UnionRequest`. -/
def sampleUnknownMember : Bytes :=
  ascii "\x7b\"jsonrpc\":\"2.0\",\"method\":\"ping\",\"meta\":1\x7d"

/-- The notification `{"jsonrpc":"2.0","method":"ping"}`. -/
def samplePing : Bytes :=
  ascii "\x7b\"jsonrpc\":\"2.0\",\"method\":\"ping\"\x7d"

/-- A request `{ "id": 1, "method": "echo", "jsonrpc": "2.0" }`, written with
white space and with the id first. -/
def sampleSpaced : Bytes :=
  ascii "\x7b \"id\": 1, \"method\": \"echo\", \"jsonrpc\": \"2.0\" \x7d"

/-- The request `{"jsonrpc":"2.0","id":1,"method":"echo"}`. -/
def sampleCompact : Bytes :=
  ascii "\x7b\"jsonrpc\":\"2.0\",\"id\":1,\"method\":\"echo\"\x7d"

/-- A text layer that agrees with `encoding/json` on the texts of the samples:
the values `null`, `1`, `"1"`, `"2.0"`, `"echo"`, `"ping"`, `[1]` and the empty
object, and the messages `sampleArrayID`, `sampleNullID`, `sampleUnknownMember`,
`samplePing`, `sampleSpaced` and `sampleCompact`. Integers are written in base
10, and a string between quotes (right for a string without a character to
escape). -/
def sampleLib : JSONLib where
  shape d :=
    if d = ascii "null" then some .null
    else if d = ascii "1" then some (.int 1)
    else if d = ascii "\"1\"" then some (.string "1")
    else if d = ascii "\"2.0\"" then some (.string "2.0")
    else if d = ascii "\"echo\"" then some (.string "echo")
    else if d = ascii "[1]" then some (.array [ascii "1"])
    else if d = ascii "\x7b\x7d" then some (.object [])
    else if d = sampleArrayID then
      some (.object [("jsonrpc", ascii "\"2.0\""), ("method", ascii "\"echo\""),
        ("id", ascii "[1]")])
    else if d = ascii "\"ping\"" then some (.string "ping")
    else if d = sampleNullID then
      some (.object [("jsonrpc", ascii "\"2.0\""), ("method", ascii "\"ping\""),
        ("id", ascii "null")])
    else if d = sampleUnknownMember then
      some (.object [("jsonrpc", ascii "\"2.0\""), ("method", ascii "\"ping\""),
        ("meta", ascii "1")])
    else if d = samplePing then
      some (.object [("jsonrpc", ascii "\"2.0\""), ("method", ascii "\"ping\"")])
    else if d = sampleSpaced then
      some (.object [("id", ascii "1"), ("method", ascii "\"echo\""),
        ("jsonrpc", ascii "\"2.0\"")])
    else if d = sampleCompact then
      some (.object [("jsonrpc", ascii "\"2.0\""), ("id", ascii "1"),
        ("method", ascii "\"echo\"")])
    else none
  marshalInt := intText
  marshalString s := [34] ++ ascii s ++ [34]
  compact d := some d
  anyText d := d
  fold s := String.mk (s.data.map Char.toLower)

/-- The claim that batch decode reports a text with error code `InvalidRequest`. -/
def ReportsInvalidRequest (lib : JSONLib) (data : Bytes) : Prop :=
  ∃ e, (unmarshalBatchItem (unionDecoder lib) data false []).err = some e ∧
    e.Code = InvalidRequestError

/-- The text of the empty JSON object. -/
def emptyObject : Bytes := [123, 125]

/-- `json.Unmarshal` into an `int`, as the decoder of a handler whose input type
is `int`. -/
def intDecoder (lib : JSONLib) : Decoder Int where
  zero := 0
  unmarshal b :=
    match lib.unmarshalInt b with
    | .ok n => .ok n
    | .error e => .error (.plain e)

/-- `json.Unmarshal` into a `*int`, as the decoder of a handler whose input type
is `*int`: null gives the nil pointer. -/
def intPointerDecoder (lib : JSONLib) : Decoder (Option Int) where
  zero := none
  unmarshal b :=
    match lib.shape b with
    | some .null => .ok none
    | _ =>
      match lib.unmarshalInt b with
      | .ok n => .ok (some n)
      | .error e => .error (.plain e)

/-- A notification handler with input type `int` that counts its calls. -/
def sampleIntHandler : NotificationHandler Nat Int :=
  ⟨fun _ _ n => (none, n + 1)⟩

/-- A notification handler with input type `*int` that counts the calls with a
nil input by one and the others by two. -/
def samplePointerHandler : NotificationHandler Nat (Option Int) :=
  ⟨fun _ p n => (none, if p = none then n + 1 else n + 2)⟩

/-- The claim that a handler treats absent params as the empty JSON object: the
outcome of a notification without params is the outcome of the same notification
with the params `{}`. -/
def AbsentAsEmptyObject {σ I : Type} (n : NotificationHandler σ I) (d : Decoder I) : Prop :=
  ∀ (ctx : Context) (req : Notification) (s : σ), req.Params = none →
    n.Handle d ctx req s = n.Handle d ctx { req with Params := some emptyObject } s

/-- The response item of `noInputResponse`: the id is nil. -/
def noInputItem : Response :=
  { JSONRPC := JSONRPCVersion, ID := none, Result := none
    Error := some { Code := ParseError
                    Message := GetDefaultErrorMessage ParseError ++ ": No input received" } }

/-- The text that `json.Marshal` writes for the error object of `noInputItem`. -/
def noInputErrorText : Bytes :=
  ascii ("\x7b\"code\":-32700,\"message\":" ++
    "\"An error occurred on the server while parsing JSON object: No input received\"\x7d")

/-! ## Semantic equality of JSON texts, and the messages that are written back
as they were read -/

/-- The number that a shape holds. -/
def JSONShape.number : JSONShape → Option Rat
  | .int n => some n
  | .real q => some q
  | _ => none

/-- Semantic equality of two JSON texts: they hold the same scalar, or arrays of
the same length whose elements are equal in order, or objects with the same
member names whose members of the same name are equal. White space and the order
of the members play no part. -/
inductive JSONEq (lib : JSONLib) : Bytes → Bytes → Prop
  | null {a b : Bytes} : lib.shape a = some .null → lib.shape b = some .null → JSONEq lib a b
  | bool {a b : Bytes} (v : Bool) :
      lib.shape a = some (.bool v) → lib.shape b = some (.bool v) → JSONEq lib a b
  | number {a b : Bytes} (x y : JSONShape) (q : Rat) :
      lib.shape a = some x → lib.shape b = some y → x.number = some q → y.number = some q →
      JSONEq lib a b
  | string {a b : Bytes} (s : String) :
      lib.shape a = some (.string s) → lib.shape b = some (.string s) → JSONEq lib a b
  | array {a b : Bytes} (xs ys : List Bytes) :
      lib.shape a = some (.array xs) → lib.shape b = some (.array ys) →
      xs.length = ys.length →
      (∀ (i : Nat) (v w : Bytes), xs[i]? = some v → ys[i]? = some w → JSONEq lib v w) →
      JSONEq lib a b
  | object {a b : Bytes} (ms ns : List (String × Bytes)) :
      lib.shape a = some (.object ms) → lib.shape b = some (.object ns) →
      (∀ name : String, name ∈ ms.map Prod.fst ↔ name ∈ ns.map Prod.fst) →
      (∀ (name : String) (v w : Bytes), (name, v) ∈ ms → (name, w) ∈ ns → JSONEq lib v w) →
      JSONEq lib a b

/-- The claim of the decode-encode round trip: when batch decode accepts a text,
the encoding of the decoded value is semantically equal to the text. -/
def ReencodesEqual {T : Type} (lib : JSONLib) (dec : JSONDecoder T) (enc : JSONEncoder T)
    (data : Bytes) : Prop :=
  ∀ b : BatchItem T, BatchItem.UnmarshalJSON dec ⟨false, []⟩ data = (none, b) →
    ∃ out, b.MarshalJSON enc = .ok out ∧ JSONEq lib data out

/-- The string that a text holds (the empty string when it holds none). -/
def JSONLib.stringOf (lib : JSONLib) (v : Bytes) : String :=
  match lib.shape v with
  | some (.string s) => s
  | _ => ""

/-- The integer that a text holds (0 when it holds none). -/
def JSONLib.intOf (lib : JSONLib) (v : Bytes) : Int :=
  match lib.shape v with
  | some (.int n) => n
  | _ => 0

/-- The id that a text holds. -/
def JSONLib.idOf (lib : JSONLib) (v : Bytes) : IntString :=
  match lib.shape v with
  | some (.int n) => .int n
  | some (.string s) => .string s
  | _ => .other 0

/-- The error object with the fields that the members `es` hold. -/
def JSONRPCError.ofMembers (lib : JSONLib) (es : List (String × Bytes)) : JSONRPCError :=
  { Code := ((es.lookup "code").map lib.intOf).getD 0
    Message := ((es.lookup "message").map lib.stringOf).getD ""
    Data := (es.lookup "data").map lib.anyText }

/-- The error object that a text holds. -/
def JSONLib.errorOf (lib : JSONLib) (v : Bytes) : JSONRPCError :=
  match lib.shape v with
  | some (.object es) => JSONRPCError.ofMembers lib es
  | _ => { Code := 0, Message := "", Data := none }

/-- The message with the fields that the members `ms` hold. -/
def UnionRequest.ofMembers (lib : JSONLib) (ms : List (String × Bytes)) : UnionRequest :=
  { JSONRPC := ((ms.lookup "jsonrpc").map lib.stringOf).getD ""
    ID := (ms.lookup "id").map lib.idOf
    Method := (ms.lookup "method").map lib.stringOf
    Params := ms.lookup "params"
    Result := ms.lookup "result"
    Error := (ms.lookup "error").map lib.errorOf }

/-- A member of an error object that is written back as it was read: its name is
`code`, `message` or `data`; a code is an integer that fits the Go type `int`, a
message is a string, and data is not null. The texts written for the integer and
for the string hold them, and the text written for the data is equal to it. -/
def PlainErrorMember (lib : JSONLib) (m : String × Bytes) : Prop :=
  m.1 ∈ errorFields ∧
  (m.1 = "code" → ∃ n, lib.shape m.2 = some (.int n) ∧ minInt ≤ n ∧ n ≤ maxInt ∧
    lib.shape (lib.marshalInt n) = some (.int n)) ∧
  (m.1 = "message" → ∃ s, lib.shape m.2 = some (.string s) ∧
    lib.shape (lib.marshalString s) = some (.string s)) ∧
  (m.1 = "data" → lib.shape m.2 ≠ some .null ∧ JSONEq lib m.2 (lib.anyText m.2))

/-- The members of an error object that is written back as it was read: no name
occurs twice, `code` and `message` are there, and every member is plain. -/
def PlainError (lib : JSONLib) (es : List (String × Bytes)) : Prop :=
  (es.map Prod.fst).Nodup ∧ "code" ∈ es.map Prod.fst ∧ "message" ∈ es.map Prod.fst ∧
    ∀ m ∈ es, PlainErrorMember lib m

/-- A member of a message that is written back as it was read: its name is one of
`fields`; `jsonrpc` and `method` are strings, `id` is an integer that fits the Go
type `int` or a string, `params` and `result` are texts that `json.Marshal`
accepts and writes as an equal text, and `error` is a plain error object whose
encoding holds the members written. -/
def PlainMember (lib : JSONLib) (fields : List String) (m : String × Bytes) : Prop :=
  m.1 ∈ fields ∧
  (m.1 = "jsonrpc" ∨ m.1 = "method" → ∃ s, lib.shape m.2 = some (.string s) ∧
    lib.shape (lib.marshalString s) = some (.string s)) ∧
  (m.1 = "id" →
    (∃ n, lib.shape m.2 = some (.int n) ∧ minInt ≤ n ∧ n ≤ maxInt ∧
      lib.shape (lib.marshalInt n) = some (.int n)) ∨
    (∃ s, lib.shape m.2 = some (.string s) ∧
      lib.shape (lib.marshalString s) = some (.string s))) ∧
  (m.1 = "params" ∨ m.1 = "result" →
    m.2 ≠ [] ∧ ∃ c, lib.compact m.2 = some c ∧ JSONEq lib m.2 c) ∧
  (m.1 = "error" → ∃ es, lib.shape m.2 = some (.object es) ∧ PlainError lib es ∧
    lib.shape (lib.objectText ((JSONRPCError.ofMembers lib es).members lib)) =
      some (.object ((JSONRPCError.ofMembers lib es).members lib)))

/-- The members of a message that is written back as it was read: no name occurs
twice, `jsonrpc` is there, and every member is plain. -/
def PlainMessage (lib : JSONLib) (fields : List String) (ms : List (String × Bytes)) : Prop :=
  (ms.map Prod.fst).Nodup ∧ "jsonrpc" ∈ ms.map Prod.fst ∧ ∀ m ∈ ms, PlainMember lib fields m

/-- The text written for the field `name` of a message whose member of that name
was read from the text `v`. -/
def JSONLib.written (lib : JSONLib) (name : String) (v : Bytes) : Bytes :=
  if name = "jsonrpc" ∨ name = "method" then lib.marshalString (lib.stringOf v)
  else if name = "id" then
    match lib.idOf v with
    | .int n => lib.marshalInt n
    | .string s => lib.marshalString s
    | .other _ => []
  else if name = "error" then lib.objectText ((lib.errorOf v).members lib)
  else (lib.compact v).getD []

/-- The members written for a message that was read from the members `ms`: in the
order of the fields, the members of `ms` that are fields, each with the text
written for it. -/
def JSONLib.writtenMembers (lib : JSONLib) (ms : List (String × Bytes)) :
    List (String × Bytes) :=
  unionFields.filterMap (fun f => (ms.lookup f).map (fun v => (f, lib.written f v)))

/-- The members of the object that a text holds. -/
def JSONLib.membersOf (lib : JSONLib) (raw : Bytes) : List (String × Bytes) :=
  match lib.shape raw with
  | some (.object ms) => ms
  | _ => []

/-- The text written for a message that was read from the text `raw`. -/
def JSONLib.rewritten (lib : JSONLib) (raw : Bytes) : Bytes :=
  lib.objectText (lib.writtenMembers (lib.membersOf raw))

/-- A text that holds a plain message, the text written for it being read as the
members written. -/
def PlainText (lib : JSONLib) (fields : List String) (raw : Bytes) : Prop :=
  ∃ ms, lib.shape raw = some (.object ms) ∧ PlainMessage lib fields ms ∧
    lib.shape (lib.objectText (lib.writtenMembers ms)) = some (.object (lib.writtenMembers ms))

/-- A text that holds an array of plain messages, none of them empty or `null`
once trimmed, the array written for them being read as the texts written. -/
def PlainBatch (lib : JSONLib) (fields : List String) (data : Bytes) : Prop :=
  ∃ raws, lib.shape data = some (.array raws) ∧
    (∀ raw ∈ raws, checkForEmptyOrNullData raw = none ∧ PlainText lib fields raw) ∧
    lib.shape (arrayText (raws.map lib.rewritten)) = some (.array (raws.map lib.rewritten))

/-- A response handler with result type `int` that records how it was called: 1
for an error, 2 for a result, added to ten times the count so far. -/
def sampleResponseHandler : ResponseHandler Nat Int :=
  ⟨fun _ result err n =>
    (none, 10 * n + (if err.isSome then 1 else 0) + (if result.isSome then 2 else 0))⟩

/-- A context that already carries values under the three keys. -/
def sampleParentContext : Context :=
  [(ctxKeyMethodName, .string "old"), (ctxKeyRequestID, .requestID (.int 7)),
    (ctxKeyMessageType, .other 0)]

/-- What is done to the dead-letter queue of a client: an item is added, or the
oldest item is popped. -/
inductive DeadLetterOp where
  | add (item : DeadLetterItem)
  | pop
  deriving DecidableEq, Repr

/-- The client after the operation. -/
def Client.applyOp (c : Client) : DeadLetterOp → Client
  | .add item => c.addToDeadLetter item
  | .pop => c.PopDeadLetter.2

/-- An `ExtractID` for the samples: the frame `bad` is an error, the frame `note`
has no id, and any other frame has the id `1` and is its own payload. -/
def sampleExtractID : IDFunc := fun b =>
  if b = ascii "bad" then (none, none, some "invalid frame")
  else if b = ascii "note" then (none, some b, none)
  else (some "1", some b, none)

/-- A client with one pending request, of id `1`, that waits on the channel 0, and
with room for two dead letters, one of which is taken. -/
def sampleClient : Client :=
  { pending := fun k => if k = "1" then some 0 else none
    responses := fun _ => []
    assignID := some sampleExtractID
    extractID := some sampleExtractID
    concurrencyEnabled := true
    deadLetters := ⟨2, [⟨some (ascii "old"), "invalid frame"⟩]⟩ }

/-- The claim that `UnmarshalJSON` of a `StringUnion` accepts exactly the JSON
strings that are allowed values. -/
def AcceptsAllowedStrings (lib : JSONLib) (s : StringUnion) : Prop :=
  ∀ b : Bytes, (s.UnmarshalJSON lib b).1 = none ↔
    ∃ v, lib.shape b = some (.string v) ∧ v ∈ s.allowedValues

/-- The task `i` has a reply that `WriteMessage` accepts: one without a newline in
the middle. -/
def ValidAt (replies : List Bytes) (i : Nat) : Prop :=
  ∃ reply, replies[i]? = some reply ∧ Contains (TrimSuffix reply [newline]) [newline] = false

/-- The frames of the tasks of `order`, one after the other. -/
def framesInOrder (replies : List Bytes) (order : List Nat) : Bytes :=
  (order.map (fun i => frameOf (replies[i]?.getD []))).flatten

/-- The bytes of the frame that is being written: those that the holder of the
mutex has written in the loop of `WriteMessage`. -/
def ConnState.current (c : ConnState) : Bytes :=
  match c.writeMutex with
  | none => []
  | some h =>
    match c.tasks h with
    | .writing msg totalWritten => msg.take totalWritten
    | _ => []

/-- What holds of the task `i` in the state `t`, given the holder of the mutex,
the bytes in the buffer and the tasks whose frame is written: a task at `Lock`
has its reply, does not hold the mutex and has written nothing; a task in the
loop of `WriteMessage`, at `Flush` or at `Unlock` holds the mutex; the frame of a
task at `Flush` is written, and so is that of a task at `Unlock` or at its end
when its reply is one that `WriteMessage` accepts. -/
def TaskOk (replies : List Bytes) (writeMutex : Option Nat) (buffered : Bytes)
    (order : List Nat) (i : Nat) : TaskState → Prop
  | .waiting reply => replies[i]? = some reply ∧ i ∉ order ∧ writeMutex ≠ some i
  | .writing msg _ =>
    (∃ reply, replies[i]? = some reply ∧ msg = frameOf reply ∧
      Contains (TrimSuffix reply [newline]) [newline] = false) ∧
    writeMutex = some i ∧ i ∉ order
  | .flushing => writeMutex = some i ∧ i ∈ order
  | .unlocking =>
    writeMutex = some i ∧ buffered = [] ∧ (∃ reply, replies[i]? = some reply) ∧
      (ValidAt replies i → i ∈ order)
  | .done => writeMutex ≠ some i ∧ (ValidAt replies i → i ∈ order)

/-- What holds of a connection at every moment, `order` being the tasks whose
frame is written, in the order in which they took the mutex. -/
structure ConnState.Inv (replies : List Bytes) (c : ConnState) (order : List Nat) : Prop where
  nodup : order.Nodup
  valid : ∀ i ∈ order, ValidAt replies i
  task : ∀ i, TaskOk replies c.writeMutex c.buffered order i (c.tasks i)
  stream : c.wire ++ c.buffered = framesInOrder replies order ++ c.current
  free : c.writeMutex = none → c.buffered = []

/-! ## Classifier -/

theorem getDefaultErrorMessage_invalidRequest :
    GetDefaultErrorMessage InvalidRequestError = "The JSON sent is not a valid Request object" := by
  decide

theorem getDefaultErrorMessage_internal :
    GetDefaultErrorMessage InternalError = "Internal JSON-RPC error" := by
  decide

theorem getDefaultErrorMessage_parse :
    GetDefaultErrorMessage ParseError
      = "An error occurred on the server while parsing JSON object" := by
  decide

theorem invalidVersion_message (v : String) :
    GetDefaultErrorMessage InvalidRequestError ++ (": Invalid JSON-RPC version: '" ++ v ++ "'")
      = "The JSON sent is not a valid Request object: Invalid JSON-RPC version: '" ++ v ++ "'" := by
  rw [getDefaultErrorMessage_invalidRequest, ← String.append_assoc, ← String.append_assoc]
  rfl

/-- C1: the classifier returns the outcome of the first rule that matches, and
its error object is present exactly when the type is Invalid. -/
theorem detectMessageType_rules (u : UnionRequest) :
    (u.JSONRPC ≠ "2.0" →
      detectMessageType u = (.Invalid, some ⟨-32600,
        "The JSON sent is not a valid Request object: Invalid JSON-RPC version: '"
          ++ u.JSONRPC ++ "'", none⟩)) ∧
    (u.JSONRPC = "2.0" → u.Method ≠ none → u.Result ≠ none ∨ u.Error ≠ none →
      detectMessageType u = (.Invalid, some ⟨-32600,
        "The JSON sent is not a valid Request object: Invalid message: 'method' cannot coexist with 'result' or 'error'",
        none⟩)) ∧
    (u.JSONRPC = "2.0" → u.Method ≠ none → u.Result = none → u.Error = none → u.ID ≠ none →
      detectMessageType u = (.Method, none)) ∧
    (u.JSONRPC = "2.0" → u.Method ≠ none → u.Result = none → u.Error = none → u.ID = none →
      detectMessageType u = (.Notification, none)) ∧
    (u.JSONRPC = "2.0" → u.Method = none → u.Result ≠ none → u.Error ≠ none →
      detectMessageType u = (.Invalid, some ⟨-32603,
        "Internal JSON-RPC error: Invalid message: 'result' and 'error' cannot coexist", none⟩)) ∧
    (u.JSONRPC = "2.0" → u.Method = none → u.Result ≠ none ∨ u.Error ≠ none →
      ¬ (u.Result ≠ none ∧ u.Error ≠ none) → u.ID ≠ none →
      detectMessageType u = (.Response, none)) ∧
    (u.JSONRPC = "2.0" → u.Method = none → u.Result ≠ none ∨ u.Error ≠ none →
      ¬ (u.Result ≠ none ∧ u.Error ≠ none) → u.ID = none →
      detectMessageType u = (.Invalid, some ⟨-32603,
        "Internal JSON-RPC error: Invalid response: missing 'id'", none⟩)) ∧
    (u.JSONRPC = "2.0" → u.Method = none → u.Result = none → u.Error = none →
      detectMessageType u = (.Invalid, some ⟨-32600,
        "The JSON sent is not a valid Request object: Unknown message type: missing both 'method' and 'result'/'error'",
        none⟩)) ∧
    ((detectMessageType u).2 ≠ none ↔ (detectMessageType u).1 = .Invalid) := by
  obtain ⟨v, id, method, params, result, error⟩ := u
  refine ⟨?_, ?_, ?_, ?_, ?_, ?_, ?_, ?_, ?_⟩
  · intro hv
    simp only [detectMessageType, hv, ne_eq, not_false_eq_true, if_true, invalidVersion_message]
    rfl
  · rintro hv hm hre
    simp only at hv hm hre
    subst hv
    cases method <;> cases result <;> cases error <;> simp_all [detectMessageType] <;> decide
  · rintro hv hm hr he hid
    simp only at hv hm hr he hid
    subst hv hr he
    cases method <;> cases id <;> simp_all [detectMessageType]
  · rintro hv hm hr he hid
    simp only at hv hm hr he hid
    subst hv hr he hid
    cases method <;> simp_all [detectMessageType]
  · rintro hv hm hr he
    simp only at hv hm hr he
    subst hv hm
    cases result <;> cases error <;> simp_all [detectMessageType]
    decide
  · rintro hv hm hre hnot hid
    simp only at hv hm hre hnot hid
    subst hv hm
    cases result <;> cases error <;> cases id <;> simp_all [detectMessageType]
  · rintro hv hm hre hnot hid
    simp only at hv hm hre hnot hid
    subst hv hm hid
    cases result <;> cases error <;> simp_all [detectMessageType] <;> decide
  · rintro hv hm hr he
    simp only at hv hm hr he
    subst hv hm hr he
    simp [detectMessageType]
    decide
  · by_cases hv : v = "2.0"
    · subst hv
      cases method <;> cases result <;> cases error <;> cases id <;> simp [detectMessageType]
    · simp [detectMessageType, hv]

theorem detectMessageType_rules_witness :
    detectMessageType sampleCall = (.Method, none) ∧
      detectMessageType sampleOldVersion = (.Invalid, some ⟨-32600,
        "The JSON sent is not a valid Request object: Invalid JSON-RPC version: '"
          ++ sampleOldVersion.JSONRPC ++ "'", none⟩) :=
  ⟨(detectMessageType_rules sampleCall).2.2.1 rfl (by decide) rfl rfl (by decide),
    (detectMessageType_rules sampleOldVersion).1 (by decide)⟩

/-! ## Dispatcher: one item -/

theorem detect_method_fields {u : UnionRequest} (h : detectMessageType u = (.Method, none)) :
    ∃ method id, u.Method = some method ∧ u.ID = some id := by
  obtain ⟨v, id, method, params, result, error⟩ := u
  by_cases hv : v = "2.0"
  · subst hv
    cases method <;> cases result <;> cases error <;> cases id <;>
      simp [detectMessageType] at h ⊢
  · simp [detectMessageType, hv] at h

theorem detect_notification_fields {u : UnionRequest}
    (h : detectMessageType u = (.Notification, none)) :
    ∃ method, u.Method = some method ∧ u.ID = none := by
  obtain ⟨v, id, method, params, result, error⟩ := u
  by_cases hv : v = "2.0"
  · subst hv
    cases method <;> cases result <;> cases error <;> cases id <;>
      simp [detectMessageType] at h ⊢
  · simp [detectMessageType, hv] at h

theorem handleMethod_isSome {σ : Type} (ctx : Context) {u : UnionRequest}
    (h : detectMessageType u = (.Method, none)) (methodMap : String → Option (IMethodHandler σ))
    (s : σ) : ∃ r s', handleMethod ctx u methodMap s = some (r, s') := by
  obtain ⟨method, id, hm, hid⟩ := detect_method_fields h
  simp only [handleMethod, hm, hid]
  cases methodMap method with
  | none => exact ⟨_, _, rfl⟩
  | some handler => exact ⟨_, _, rfl⟩

theorem handleNotification_isSome {σ : Type} (ctx : Context) {u : UnionRequest}
    (h : detectMessageType u = (.Notification, none))
    (notificationMap : String → Option (INotificationHandler σ)) (s : σ) :
    ∃ e s', handleNotification ctx u notificationMap s = some (e, s') := by
  obtain ⟨method, hm, -⟩ := detect_notification_fields h
  simp only [handleNotification, hm]
  cases notificationMap method with
  | none => exact ⟨_, _, rfl⟩
  | some handler => exact ⟨_, _, rfl⟩

/-- One iteration of the loop returns, and appends the response of the item when
the item is one the dispatcher answers, nothing otherwise. -/
theorem handleItem_spec {σ : Type} (brh : BatchRequestHandler σ) (ctx : Context)
    (u : UnionRequest) (acc : List Response) (s : σ) :
    ∃ out s', handleItem brh ctx u acc s = some (acc ++ out, s') ∧
      ((brh.answers u = true ∧ ∃ r, out = [r] ∧ brh.ResponseOf ctx u r) ∨
        (brh.answers u = false ∧ out = [])) := by
  obtain ⟨methodMap, notificationMap, responseMap, mapper⟩ := brh
  rcases h : detectMessageType u with ⟨t, e⟩
  cases e with
  | some jerr =>
    refine ⟨[{ JSONRPC := JSONRPCVersion, ID := u.ID, Result := none, Error := some jerr }], s,
      ?_, Or.inl ⟨?_, _, rfl, ?_⟩⟩
    · simp only [handleItem, h]
    · simp only [BatchRequestHandler.answers, h]
    · simp only [BatchRequestHandler.ResponseOf, h]
  | none =>
    cases t with
    | Invalid =>
      refine ⟨[], s, ?_, Or.inr ⟨?_, rfl⟩⟩
      · simp [handleItem, h]
      · simp [BatchRequestHandler.answers, h]
    | Method =>
      cases methodMap with
      | none =>
        refine ⟨[], s, ?_, Or.inr ⟨?_, rfl⟩⟩
        · simp [handleItem, h]
        · simp [BatchRequestHandler.answers, h]
      | some mm =>
        obtain ⟨r, s', hr⟩ := handleMethod_isSome ctx h mm s
        refine ⟨[r], s', ?_, Or.inl ⟨?_, r, rfl, ?_⟩⟩
        · simp [handleItem, h, hr]
        · simp [BatchRequestHandler.answers, h]
        · simp only [BatchRequestHandler.ResponseOf, h]
          exact ⟨mm, s, s', rfl, hr⟩
    | Notification =>
      cases notificationMap with
      | none =>
        refine ⟨[], s, ?_, Or.inr ⟨?_, rfl⟩⟩
        · simp [handleItem, h]
        · simp [BatchRequestHandler.answers, h]
      | some nm =>
        obtain ⟨e, s', hr⟩ := handleNotification_isSome ctx h nm s
        refine ⟨[], s', ?_, Or.inr ⟨?_, rfl⟩⟩
        · simp [handleItem, h, hr]
        · simp [BatchRequestHandler.answers, h]
    | Response =>
      cases responseMap with
      | none =>
        refine ⟨[], s, ?_, Or.inr ⟨?_, rfl⟩⟩
        · simp [handleItem, h]
        · simp [BatchRequestHandler.answers, h]
      | some rm =>
        cases mapper with
        | none =>
          refine ⟨[], s, ?_, Or.inr ⟨?_, rfl⟩⟩
          · simp [handleItem, h]
          · simp [BatchRequestHandler.answers, h]
        | some mp =>
          refine ⟨[], (handleResponse ctx u rm mp s).2, ?_, Or.inr ⟨?_, rfl⟩⟩
          · simp [handleItem, h]
          · simp [BatchRequestHandler.answers, h]

/-! ## Dispatcher: the loop -/

/-- The loop returns, and what it appends corresponds one to one and in order
to the items the dispatcher answers. -/
theorem handleLoop_spec {σ : Type} (brh : BatchRequestHandler σ) (ctx : Context)
    (items : List UnionRequest) (acc : List Response) (s : σ) :
    ∃ out s', handleLoop brh ctx items acc s = some (acc ++ out, s') ∧
      List.Forall₂ (brh.ResponseOf ctx) (items.filter brh.answers) out := by
  induction items generalizing acc s with
  | nil => exact ⟨[], s, by simp [handleLoop], by simp⟩
  | cons u rest ih =>
    obtain ⟨out₁, s₁, h₁, hcase⟩ := handleItem_spec brh ctx u acc s
    obtain ⟨out₂, s₂, h₂, hrel⟩ := ih (acc ++ out₁) s₁
    refine ⟨out₁ ++ out₂, s₂, ?_, ?_⟩
    · simp [handleLoop, h₁, h₂, List.append_assoc]
    · rcases hcase with ⟨ha, r, rfl, hr⟩ | ⟨ha, rfl⟩
      · simpa [List.filter_cons, ha] using ⟨hr, hrel⟩
      · simpa [List.filter_cons, ha] using hrel

/-- The outcome of `Handle` on a batch with at least one item, in terms of the
loop. -/
theorem handle_nonempty {σ : Type} (brh : BatchRequestHandler σ) (ctx : Context)
    (body : BatchItem UnionRequest) (s : σ) (hne : body.Items ≠ []) :
    ∃ out s', handleLoop brh ctx body.Items [] s = some (out, s') ∧
      List.Forall₂ (brh.ResponseOf ctx) (body.Items.filter brh.answers) out ∧
      brh.Handle ctx (some ⟨some body⟩) s =
        some ({ resp := some (if out = [] then { Body := none }
                  else { Body := some { IsBatch := body.IsBatch, Items := out } })
                err := none }, s') := by
  obtain ⟨out, s', h, hrel⟩ := handleLoop_spec brh ctx body.Items [] s
  simp only [List.nil_append] at h
  refine ⟨out, s', h, hrel, ?_⟩
  have hlen : body.Items.length ≠ 0 := by simpa using hne
  simp only [BatchRequestHandler.Handle, hlen, if_false, h]
  cases out <;> simp

theorem detect_error_isSome_iff (u : UnionRequest) :
    (detectMessageType u).2.isSome = true ↔ (detectMessageType u).1 = .Invalid := by
  obtain ⟨v, id, method, params, result, error⟩ := u
  by_cases hv : v = "2.0"
  · subst hv
    cases method <;> cases result <;> cases error <;> cases id <;> simp [detectMessageType]
  · simp [detectMessageType, hv]

theorem answers_eq_isMethodOrInvalid {σ : Type} (brh : BatchRequestHandler σ)
    (hmap : brh.methodMap ≠ none) (u : UnionRequest) : brh.answers u = isMethodOrInvalid u := by
  have hiff := detect_error_isSome_iff u
  have hsome : brh.methodMap.isSome = true := by
    cases h : brh.methodMap with
    | none => exact absurd h hmap
    | some m => rfl
  unfold BatchRequestHandler.answers isMethodOrInvalid
  rcases h : detectMessageType u with ⟨t, e⟩
  rw [h] at hiff
  cases e with
  | some jerr =>
    have ht : t = .Invalid := hiff.1 rfl
    simp [ht]
  | none =>
    have ht : t ≠ .Invalid := fun hc => by simpa using hiff.2 hc
    cases t <;> simp_all

/-! ## Dispatcher: the claims -/

/-- C2, as stated, fails: a dispatcher built with the option `WithMethodMap(nil)`
returns no response item for a batch made of one method call. -/
theorem answersInOrder_fails_without_methodMap :
    ¬ nilMapHandler.AnswersInOrder [] ⟨false, [sampleCall]⟩ 0 := by
  rintro ⟨res, s', h, hlen, -⟩
  have hres : nilMapHandler.Handle [] (some ⟨some ⟨false, [sampleCall]⟩⟩) 0
      = some (⟨some ⟨none⟩, none⟩, 0) := by decide
  rw [hres] at h
  obtain ⟨rfl, -⟩ := Prod.mk.inj (Option.some.inj h)
  revert hlen
  decide

/-- C2, amended: when the method map of the dispatcher is not nil, `Handle`
returns on every batch with at least one item, and its response items correspond
one to one and in input order to the items classified as a method call or as
invalid; the other items add nothing. -/
theorem handle_answers_in_order {σ : Type} (brh : BatchRequestHandler σ) (ctx : Context)
    (body : BatchItem UnionRequest) (s : σ) (hmap : brh.methodMap ≠ none)
    (hne : body.Items ≠ []) : brh.AnswersInOrder ctx body s := by
  obtain ⟨out, s', -, hrel, hH⟩ := handle_nonempty brh ctx body s hne
  have hfil : body.Items.filter brh.answers = body.Items.filter isMethodOrInvalid :=
    List.filter_congr (fun u _ => answers_eq_isMethodOrInvalid brh hmap u)
  rw [hfil] at hrel
  have hitems : HandleResult.items
      { resp := some (if out = [] then { Body := none }
          else { Body := some { IsBatch := body.IsBatch, Items := out } })
        err := none } = out := by
    by_cases ho : out = [] <;> simp [HandleResult.items, BatchResponse.items, ho]
  refine ⟨_, s', hH, ?_, ?_⟩
  · rw [hitems]
    exact hrel.length_eq.symm
  · rw [hitems]
    exact hrel

theorem handle_answers_in_order_witness :
    sampleHandler.AnswersInOrder []
      ⟨true, [sampleCall, sampleNotification, sampleOldVersion, sampleCall]⟩ 0 :=
  handle_answers_in_order sampleHandler [] _ 0 (by simp [sampleHandler, NewBatchRequestHandler,
    WithMethodMap, WithNotificationMap]) (by simp)

/-! ## Method calls -/

theorem methodHandler_handle_id {σ I O : Type} (m : MethodHandler σ I O)
    (decode : Option Bytes → Except GoError I) (encode : O → Bytes) (ctx : Context)
    (req : Request) (s : σ) :
    (m.Handle decode encode ctx req s).1.ID = some req.ID ∧
      (m.Handle decode encode ctx req s).1.JSONRPC = "2.0" := by
  unfold MethodHandler.Handle
  cases decode req.Params with
  | error err => exact ⟨rfl, rfl⟩
  | ok params =>
    simp only
    split <;> exact ⟨rfl, rfl⟩

theorem handleMethod_id {σ : Type} (ctx : Context) (u : UnionRequest)
    (methodMap : String → Option (IMethodHandler σ))
    (htyped : ∀ name h, methodMap name = some h → h.IsMethodHandler)
    (s s' : σ) (r : Response) (hr : handleMethod ctx u methodMap s = some (r, s')) :
    r.ID = u.ID ∧ r.JSONRPC = "2.0" := by
  unfold handleMethod at hr
  cases hm : u.Method with
  | none => simp [hm] at hr
  | some method =>
    simp only [hm] at hr
    cases hh : methodMap method with
    | none =>
      simp only [hh, Option.some.injEq, Prod.mk.injEq] at hr
      obtain ⟨rfl, -⟩ := hr
      exact ⟨rfl, rfl⟩
    | some handler =>
      simp only [hh] at hr
      cases hid : u.ID with
      | none => simp [hid] at hr
      | some id =>
        simp only [hid, Option.some.injEq] at hr
        obtain ⟨I, O, m, decode, encode, rfl⟩ := htyped method handler hh
        have hk := methodHandler_handle_id m decode encode
          (contextWithRequestInfo ctx method .Method (some id))
          { JSONRPC := u.JSONRPC, ID := id, Method := method, Params := u.Params } s
        simp only [MethodHandler.toI] at hr
        rw [hr] at hk
        exact hk

theorem sampleMethodMap_typed (name : String) (h : IMethodHandler Nat)
    (hh : sampleMethodMap name = some h) : h.IsMethodHandler := by
  unfold sampleMethodMap at hh
  by_cases h1 : name = "echo"
  · simp only [h1, if_true, Option.some.injEq] at hh
    exact ⟨_, _, sampleEcho, sampleDecode, id, hh.symm⟩
  · by_cases h2 : name = "fail"
    · subst h2
      rw [if_neg (by decide), if_pos rfl, Option.some.injEq] at hh
      exact ⟨_, _, sampleFail, sampleDecode, id, hh.symm⟩
    · simp [h1, h2] at hh

/-- C3: on a batch with at least one item, given to a dispatcher whose
registered method handlers were constructed around user functions, `Handle`
returns, and the response item made for each item classified as a method call
carries the id of that item (same kind, same value) and the version 2.0,
whatever the handler does, and also when no handler is registered. -/
theorem handle_method_response_id {σ : Type} (brh : BatchRequestHandler σ) (ctx : Context)
    (body : BatchItem UnionRequest) (s : σ) (hne : body.Items ≠ [])
    (htyped : ∀ methodMap name h, brh.methodMap = some methodMap → methodMap name = some h →
      h.IsMethodHandler) :
    ∃ res s', brh.Handle ctx (some ⟨some body⟩) s = some (res, s') ∧
      List.Forall₂
        (fun u r => (detectMessageType u).1 = .Method →
          u.ID.isSome = true ∧ r.ID = u.ID ∧ r.JSONRPC = "2.0")
        (body.Items.filter brh.answers) res.items := by
  obtain ⟨out, s', -, hrel, hH⟩ := handle_nonempty brh ctx body s hne
  have hitems : HandleResult.items
      { resp := some (if out = [] then { Body := none }
          else { Body := some { IsBatch := body.IsBatch, Items := out } })
        err := none } = out := by
    by_cases ho : out = [] <;> simp [HandleResult.items, BatchResponse.items, ho]
  refine ⟨_, s', hH, ?_⟩
  rw [hitems]
  refine hrel.imp ?_
  intro u r hur ht
  have hiff := detect_error_isSome_iff u
  rcases hd : detectMessageType u with ⟨t, e⟩
  rw [hd] at ht hiff
  simp only at ht
  subst ht
  cases e with
  | some jerr => simp at hiff
  | none =>
    simp only [BatchRequestHandler.ResponseOf, hd] at hur
    obtain ⟨methodMap, s₁, s₂, hmm, hr⟩ := hur
    obtain ⟨method, id, -, hid⟩ := detect_method_fields hd
    refine ⟨by simp [hid], ?_⟩
    exact handleMethod_id ctx u methodMap (fun name h => htyped methodMap name h hmm) s₁ s₂ r hr

theorem handle_method_response_id_witness :
    ∃ res s', sampleHandler.Handle []
        (some ⟨some ⟨true, [sampleCall, { sampleCall with ID := some (.string "1") },
          { sampleCall with Method := some "fail" },
          { sampleCall with Method := some "subtract" }]⟩⟩) 0 = some (res, s') ∧
      List.Forall₂
        (fun u r => (detectMessageType u).1 = .Method →
          u.ID.isSome = true ∧ r.ID = u.ID ∧ r.JSONRPC = "2.0")
        ([sampleCall, { sampleCall with ID := some (.string "1") },
          { sampleCall with Method := some "fail" },
          { sampleCall with Method := some "subtract" }].filter sampleHandler.answers)
        res.items :=
  handle_method_response_id sampleHandler [] _ 0 (by simp)
    (fun methodMap name h hmm hh => by
      have : methodMap = sampleMethodMap := by
        simpa [sampleHandler, NewBatchRequestHandler, WithMethodMap, WithNotificationMap]
          using hmm.symm
      subst this
      exact sampleMethodMap_typed name h hh)

/-- C4: an item that the classifier rejects makes `Handle` append exactly one
response item, with version 2.0, the id of the item, no result and the error
object of the classifier, without running any handler; a batch made of such an
item alone gets exactly that response; and for a version other than 2.0 the
error has code -32600 and the message of the invalid version. -/
theorem handle_invalid_item {σ : Type} (brh : BatchRequestHandler σ) (ctx : Context)
    (u : UnionRequest) (items : List Response) (s : σ)
    (hinv : (detectMessageType u).1 = .Invalid) :
    ∃ jerr, (detectMessageType u).2 = some jerr ∧
      handleItem brh ctx u items s =
        some (items ++ [{ JSONRPC := "2.0", ID := u.ID, Result := none, Error := some jerr }], s) ∧
      (∀ isBatch, brh.Handle ctx (some ⟨some ⟨isBatch, [u]⟩⟩) s =
        some (⟨some ⟨some ⟨isBatch,
          [{ JSONRPC := "2.0", ID := u.ID, Result := none, Error := some jerr }]⟩⟩, none⟩, s)) ∧
      (u.JSONRPC ≠ "2.0" → jerr = ⟨-32600,
        "The JSON sent is not a valid Request object: Invalid JSON-RPC version: '"
          ++ u.JSONRPC ++ "'", none⟩) := by
  have hiff := detect_error_isSome_iff u
  rcases hd : detectMessageType u with ⟨t, e⟩
  rw [hd] at hinv hiff
  cases e with
  | none => exact absurd (hiff.2 hinv) (by simp)
  | some jerr =>
    have hitem : ∀ acc, handleItem brh ctx u acc s =
        some (acc ++ [{ JSONRPC := "2.0", ID := u.ID, Result := none, Error := some jerr }], s) := by
      intro acc
      simp only [handleItem, hd]
      rfl
    refine ⟨jerr, rfl, hitem items, ?_, ?_⟩
    · intro isBatch
      simp [BatchRequestHandler.Handle, handleLoop, hitem]
    · intro hv
      have := hd
      simp only [detectMessageType, hv, ne_eq, not_false_eq_true, if_true, invalidVersion_message,
        Prod.mk.injEq, Option.some.injEq] at this
      rw [← this.2]
      rfl

theorem handle_invalid_item_witness :
    ∃ jerr, (detectMessageType sampleOldVersion).2 = some jerr ∧
      handleItem sampleHandler [] sampleOldVersion [] 0 =
        some ([] ++ [{ JSONRPC := "2.0", ID := sampleOldVersion.ID, Result := none
                       Error := some jerr }], 0) ∧
      (∀ isBatch, sampleHandler.Handle [] (some ⟨some ⟨isBatch, [sampleOldVersion]⟩⟩) 0 =
        some (⟨some ⟨some ⟨isBatch,
          [{ JSONRPC := "2.0", ID := sampleOldVersion.ID, Result := none
             Error := some jerr }]⟩⟩, none⟩, 0)) ∧
      (sampleOldVersion.JSONRPC ≠ "2.0" → jerr = ⟨-32600,
        "The JSON sent is not a valid Request object: Invalid JSON-RPC version: '"
          ++ sampleOldVersion.JSONRPC ++ "'", none⟩) :=
  handle_invalid_item sampleHandler [] sampleOldVersion [] 0 (by decide)

/-- C5: without input (a nil request, a nil body, or no item, whatever the
`IsBatch` of the input) `Handle` returns the non-batch response with the single
item of version 2.0, nil id, no result and the ParseError -32700 with the message
of no input received; no handler runs. -/
theorem handle_no_input {σ : Type} (brh : BatchRequestHandler σ) (ctx : Context) (s : σ) :
    brh.Handle ctx none s = some (⟨some noInputResponse, none⟩, s) ∧
    brh.Handle ctx (some ⟨none⟩) s = some (⟨some noInputResponse, none⟩, s) ∧
    (∀ isBatch, brh.Handle ctx (some ⟨some ⟨isBatch, []⟩⟩) s
      = some (⟨some noInputResponse, none⟩, s)) ∧
    noInputResponse = ⟨some ⟨false, [⟨"2.0", none, none, some ⟨-32700,
      "An error occurred on the server while parsing JSON object: No input received",
      none⟩⟩]⟩⟩ :=
  ⟨rfl, rfl, fun _ => rfl, by decide⟩

/-- C6: on a batch with at least one item, all classified as notifications,
`Handle` returns the empty response (nil body) and a nil error, whatever the
notification map holds and whatever the handlers do. -/
theorem handle_only_notifications {σ : Type} (brh : BatchRequestHandler σ) (ctx : Context)
    (body : BatchItem UnionRequest) (s : σ) (hne : body.Items ≠ [])
    (hall : ∀ u ∈ body.Items, (detectMessageType u).1 = .Notification) :
    ∃ s', brh.Handle ctx (some ⟨some body⟩) s = some (⟨some ⟨none⟩, none⟩, s') := by
  obtain ⟨out, s', -, hrel, hH⟩ := handle_nonempty brh ctx body s hne
  have hfil : body.Items.filter brh.answers = [] := by
    rw [List.filter_eq_nil_iff]
    intro u hu
    have ht := hall u hu
    have hiff := detect_error_isSome_iff u
    rcases hd : detectMessageType u with ⟨t, e⟩
    rw [hd] at ht hiff
    simp only at ht
    subst ht
    cases e with
    | some jerr => simp at hiff
    | none => simp [BatchRequestHandler.answers, hd]
  rw [hfil] at hrel
  have hout : out = [] := by
    cases hrel
    rfl
  subst hout
  exact ⟨s', by simpa using hH⟩

theorem handle_only_notifications_witness :
    ∃ s', sampleHandler.Handle []
      (some ⟨some ⟨true, [sampleNotification, { sampleNotification with Method := some "unknown" },
        { sampleNotification with Params := some [123] }]⟩⟩) 0
        = some (⟨some ⟨none⟩, none⟩, s') :=
  handle_only_notifications sampleHandler [] _ 0 (by simp) (by decide)

/-- C7, as stated, fails: the empty array, and an array made of a notification,
are array-shaped inputs for which `Handle` does not return a batch with
`IsBatch` true. -/
theorem keepsIsBatch_fails_on_arrays :
    ¬ sampleHandler.KeepsIsBatch [] ⟨true, []⟩ 0 ∧
      ¬ sampleHandler.KeepsIsBatch [] ⟨true, [sampleNotification]⟩ 0 := by
  constructor
  · rintro ⟨res, s', b, h, hres, hb⟩
    have hH : sampleHandler.Handle [] (some ⟨some ⟨true, []⟩⟩) 0
        = some (⟨some noInputResponse, none⟩, 0) := rfl
    rw [hH] at h
    obtain ⟨rfl, -⟩ := Prod.mk.inj (Option.some.inj h)
    simp only [noInputResponse, Option.some.injEq, BatchResponse.mk.injEq] at hres
    subst hres
    simp at hb
  · rintro ⟨res, s', b, h, hres, hb⟩
    have hH : sampleHandler.Handle [] (some ⟨some ⟨true, [sampleNotification]⟩⟩) 0
        = some (⟨some ⟨none⟩, none⟩, 1) := by decide
    rw [hH] at h
    obtain ⟨rfl, -⟩ := Prod.mk.inj (Option.some.inj h)
    simp at hres

/-- C7, amended: when at least one item of the input gets a response item (an
item the classifier rejects, or a method call when the method map is not nil),
`Handle` returns a batch with the `IsBatch` of the input and these response
items: false for a single method call, true for an array, even of one element. -/
theorem handle_keeps_isBatch {σ : Type} (brh : BatchRequestHandler σ) (ctx : Context)
    (body : BatchItem UnionRequest) (s : σ)
    (hans : ∃ u ∈ body.Items, brh.answers u = true) :
    brh.KeepsIsBatch ctx body s ∧
      ∃ out s', out ≠ [] ∧ brh.Handle ctx (some ⟨some body⟩) s =
        some (⟨some ⟨some ⟨body.IsBatch, out⟩⟩, none⟩, s') := by
  obtain ⟨u, hu, ha⟩ := hans
  have hne : body.Items ≠ [] := List.ne_nil_of_mem hu
  obtain ⟨out, s', -, hrel, hH⟩ := handle_nonempty brh ctx body s hne
  have hmem : u ∈ body.Items.filter brh.answers := List.mem_filter.2 ⟨hu, ha⟩
  have hout : out ≠ [] := by
    rintro rfl
    cases hf : body.Items.filter brh.answers with
    | nil => simp [hf] at hmem
    | cons a l =>
      rw [hf] at hrel
      cases hrel
  rw [if_neg hout] at hH
  exact ⟨⟨_, s', _, hH, rfl, rfl⟩, out, s', hout, hH⟩

theorem handle_keeps_isBatch_witness :
    sampleHandler.KeepsIsBatch [] ⟨true, [sampleCall]⟩ 0 ∧
      ∃ out s', out ≠ [] ∧ sampleHandler.Handle [] (some ⟨some ⟨true, [sampleCall]⟩⟩) 0 =
        some (⟨some ⟨some ⟨(⟨true, [sampleCall]⟩ : BatchItem UnionRequest).IsBatch, out⟩⟩,
          none⟩, s') :=
  handle_keeps_isBatch sampleHandler [] ⟨true, [sampleCall]⟩ 0 ⟨sampleCall, by simp, by decide⟩

/-- C8: on every input `Handle` returns (it does not panic on a nil pointer),
with a response and a nil error. -/
theorem handle_error_is_nil {σ : Type} (brh : BatchRequestHandler σ) (ctx : Context)
    (metaReq : Option BatchRequest) (s : σ) :
    ∃ resp s', brh.Handle ctx metaReq s = some (⟨some resp, none⟩, s') := by
  cases metaReq with
  | none => exact ⟨_, _, rfl⟩
  | some req =>
    obtain ⟨body⟩ := req
    cases body with
    | none => exact ⟨_, _, rfl⟩
    | some body =>
      by_cases hne : body.Items = []
      · obtain ⟨isBatch, items⟩ := body
        simp only at hne
        subst hne
        exact ⟨_, _, rfl⟩
      · obtain ⟨out, s', -, -, hH⟩ := handle_nonempty brh ctx body s hne
        exact ⟨_, s', hH⟩

/-- C9: for a method call to a registered method whose user function returns an
error, the response made by `handleMethod`, which is the one `Handle` returns for
the call, has the id of the call, no result, and as error the error object of the
user function unchanged when the error is one, and otherwise the code -32603 with
the message of the internal error followed by the text of the error. -/
theorem handleMethod_user_error {σ I O : Type} (m : MethodHandler σ I O)
    (decode : Option Bytes → Except GoError I) (encode : O → Bytes)
    (methodMap : String → Option (IMethodHandler σ)) (ctx : Context) (u : UnionRequest)
    (name : String) (id : RequestID) (params : I) (e : GoError) (s s' : σ)
    (hu : detectMessageType u = (.Method, none))
    (hname : u.Method = some name) (hid : u.ID = some id)
    (hreg : methodMap name = some (m.toI decode encode))
    (hdec : decode u.Params = .ok params)
    (hend : m.Endpoint (contextWithRequestInfo ctx name .Method (some id)) params s
      = (.error e, s')) :
    handleMethod ctx u methodMap s =
      some (⟨"2.0", some id, none, some (match e with
        | .jsonrpc je => je
        | .plain msg => ⟨-32603, "Internal JSON-RPC error: " ++ msg, none⟩)⟩, s') ∧
    ∀ (brh : BatchRequestHandler σ) (isBatch : Bool), brh.methodMap = some methodMap →
      brh.Handle ctx (some ⟨some ⟨isBatch, [u]⟩⟩) s =
        some (⟨some ⟨some ⟨isBatch, [⟨"2.0", some id, none, some (match e with
          | .jsonrpc je => je
          | .plain msg => ⟨-32603, "Internal JSON-RPC error: " ++ msg, none⟩)⟩]⟩⟩, none⟩, s') := by
  have hM : handleMethod ctx u methodMap s =
      some (⟨"2.0", some id, none, some (match e with
        | .jsonrpc je => je
        | .plain msg => ⟨-32603, "Internal JSON-RPC error: " ++ msg, none⟩)⟩, s') := by
    simp only [handleMethod, hname, hreg, hid, MethodHandler.toI, MethodHandler.Handle, hdec, hend]
    cases e with
    | jsonrpc je => rfl
    | plain msg =>
      simp only [GoError.Error, getDefaultErrorMessage_internal, String.append_assoc]
      rfl
  refine ⟨hM, ?_⟩
  intro brh isBatch hmap
  obtain ⟨mm, nm, rm, mp⟩ := brh
  simp only at hmap
  subst hmap
  simp [BatchRequestHandler.Handle, handleLoop, handleItem, hu, hM]

theorem handleMethod_user_error_witness :
    handleMethod [] { sampleCall with Method := some "fail" } sampleMethodMap 0 =
      some (⟨"2.0", some (.int 1), none, some (match
          (GoError.jsonrpc { Code := 1234, Message := "Custom error" }) with
        | .jsonrpc je => je
        | .plain msg => ⟨-32603, "Internal JSON-RPC error: " ++ msg, none⟩)⟩, 1) ∧
    ∀ (brh : BatchRequestHandler Nat) (isBatch : Bool), brh.methodMap = some sampleMethodMap →
      brh.Handle [] (some ⟨some ⟨isBatch, [{ sampleCall with Method := some "fail" }]⟩⟩) 0 =
        some (⟨some ⟨some ⟨isBatch, [⟨"2.0", some (.int 1), none, some (match
            (GoError.jsonrpc { Code := 1234, Message := "Custom error" }) with
          | .jsonrpc je => je
          | .plain msg => ⟨-32603, "Internal JSON-RPC error: " ++ msg, none⟩)⟩]⟩⟩, none⟩, 1) :=
  handleMethod_user_error sampleFail sampleDecode id sampleMethodMap []
    { sampleCall with Method := some "fail" } "fail" (.int 1) [91, 49, 93]
    (.jsonrpc { Code := 1234, Message := "Custom error" }) 0 1
    (by decide) rfl rfl (by simp [sampleMethodMap]) rfl rfl

/-! ## Batch decode -/

theorem parseError_batchItem_message (e : String) :
    GetDefaultErrorMessage ParseError ++ ": Failed to unmarshal batch item: " ++ e =
      "An error occurred on the server while parsing JSON object: Failed to unmarshal batch item: "
        ++ e := by
  rw [getDefaultErrorMessage_parse]
  rfl

theorem parseError_singleItem_message (e : String) :
    GetDefaultErrorMessage ParseError ++ ": Failed to unmarshal single item: " ++ e =
      "An error occurred on the server while parsing JSON object: Failed to unmarshal single item: "
        ++ e := by
  rw [getDefaultErrorMessage_parse]
  rfl

theorem checkForEmptyOrNullData_empty {data : Bytes} (h : TrimSpace data = []) :
    checkForEmptyOrNullData data = some ⟨-32700,
      "An error occurred on the server while parsing JSON object: Received empty data", none⟩ := by
  simp only [checkForEmptyOrNullData, h, List.length_nil, if_true]
  rfl

theorem checkForEmptyOrNullData_null {data : Bytes} (h : TrimSpace data = nullBytes) :
    checkForEmptyOrNullData data = some ⟨-32700,
      "An error occurred on the server while parsing JSON object: Received null data", none⟩ := by
  simp only [checkForEmptyOrNullData, h]
  rfl

theorem checkForEmptyOrNullData_none {data : Bytes} (h₁ : TrimSpace data ≠ [])
    (h₂ : TrimSpace data ≠ nullBytes) : checkForEmptyOrNullData data = none := by
  have hlen : (TrimSpace data).length ≠ 0 := by simpa using h₁
  simp [checkForEmptyOrNullData, hlen, h₂]

theorem checkForEmptyOrNullData_code {data : Bytes} {e : JSONRPCError}
    (h : checkForEmptyOrNullData data = some e) : e.Code = -32700 := by
  unfold checkForEmptyOrNullData at h
  simp only at h
  split at h
  · rw [← Option.some.inj h]
    rfl
  · split at h
    · rw [← Option.some.inj h]
      rfl
    · cases h

/-- The loop over a batch all of whose elements are accepted appends their
decoded values in order. -/
theorem unmarshalBatchLoop_ok {T : Type} (dec : JSONDecoder T) (msgs : List Bytes) (ts : List T)
    (items : List T) (h : List.Forall₂ (DecodesTo dec) msgs ts) :
    unmarshalBatchLoop dec msgs items = (none, items ++ ts) := by
  induction h generalizing items with
  | nil => simp [unmarshalBatchLoop]
  | cons hd _ ih =>
    obtain ⟨hc, hu⟩ := hd
    simp [unmarshalBatchLoop, hc, hu, ih, List.append_assoc]

/-- The loop stops at the first element that is not accepted, after the decoded
values of the elements before it were appended. -/
theorem unmarshalBatchLoop_stop {T : Type} (dec : JSONDecoder T) (pre : List Bytes) (ts : List T)
    (msg : Bytes) (rest : List Bytes) (items : List T)
    (h : List.Forall₂ (DecodesTo dec) pre ts) :
    unmarshalBatchLoop dec (pre ++ msg :: rest) items =
      match checkForEmptyOrNullData msg with
      | some err => (some err, items ++ ts)
      | none =>
        match dec.unmarshal msg with
        | .error e =>
          (some ⟨-32700,
            "An error occurred on the server while parsing JSON object: Failed to unmarshal batch item: "
              ++ e, none⟩, items ++ ts)
        | .ok item => unmarshalBatchLoop dec rest (items ++ ts ++ [item]) := by
  induction h generalizing items with
  | nil =>
    simp only [List.nil_append, List.append_nil, unmarshalBatchLoop]
    cases checkForEmptyOrNullData msg with
    | some err => rfl
    | none =>
      cases dec.unmarshal msg with
      | error e =>
        simp only [parseError_batchItem_message]
        rfl
      | ok item => rfl
  | cons hd _ ih =>
    obtain ⟨hc, hu⟩ := hd
    simp [unmarshalBatchLoop, hc, hu, ih, List.append_assoc]

theorem unmarshalBatchLoop_code {T : Type} (dec : JSONDecoder T) (msgs : List Bytes)
    (items : List T) (e : JSONRPCError) (h : (unmarshalBatchLoop dec msgs items).1 = some e) :
    e.Code = -32700 := by
  induction msgs generalizing items with
  | nil => simp [unmarshalBatchLoop] at h
  | cons msg rest ih =>
    unfold unmarshalBatchLoop at h
    cases hc : checkForEmptyOrNullData msg with
    | some err =>
      simp only [hc, Option.some.injEq] at h
      subst h
      exact checkForEmptyOrNullData_code hc
    | none =>
      simp only [hc] at h
      cases hu : dec.unmarshal msg with
      | error e' =>
        simp only [hu, Option.some.injEq] at h
        subst h
        rfl
      | ok item =>
        simp only [hu] at h
        exact ih _ h

/-- C10: `unmarshalBatchItem` follows the decode contract. Trimmed data that is
empty, or the literal null, fails with the ParseError of empty, or null, data.
Data that decodes as an array of raw messages sets the batch flag and appends the
decoded elements in order (none for the empty array), and fails with a
ParseError at the first element that is empty or null, or that does not decode.
Other data is decoded as a single item, which is appended with the batch flag
unset, or fails with the ParseError of a single item. Every error has code
-32700. Through `UnmarshalJSON`, which starts from no items, the items are
exactly the decoded ones. -/
theorem unmarshalBatchItem_contract {T : Type} (dec : JSONDecoder T) (data : Bytes)
    (isBatch : Bool) (items : List T) :
    (TrimSpace data = [] →
      (unmarshalBatchItem dec data isBatch items).err = some ⟨-32700,
        "An error occurred on the server while parsing JSON object: Received empty data",
        none⟩) ∧
    (TrimSpace data = nullBytes →
      (unmarshalBatchItem dec data isBatch items).err = some ⟨-32700,
        "An error occurred on the server while parsing JSON object: Received null data",
        none⟩) ∧
    (∀ msgs, TrimSpace data ≠ [] → TrimSpace data ≠ nullBytes →
      dec.unmarshalRaw (TrimSpace data) = .ok msgs →
      (∀ ts, List.Forall₂ (DecodesTo dec) msgs ts →
        unmarshalBatchItem dec data isBatch items = ⟨none, true, items ++ ts⟩ ∧
        ∀ m : BatchItem T, BatchItem.UnmarshalJSON dec m data = (none, ⟨true, ts⟩)) ∧
      (msgs = [] → unmarshalBatchItem dec data isBatch items = ⟨none, true, items⟩) ∧
      (∀ pre ts msg rest, msgs = pre ++ msg :: rest → List.Forall₂ (DecodesTo dec) pre ts →
        (TrimSpace msg = [] ∨ TrimSpace msg = nullBytes →
          ∃ e, (unmarshalBatchItem dec data isBatch items).err = some e ∧
            checkForEmptyOrNullData msg = some e ∧ e.Code = -32700) ∧
        (∀ e, TrimSpace msg ≠ [] → TrimSpace msg ≠ nullBytes → dec.unmarshal msg = .error e →
          (unmarshalBatchItem dec data isBatch items).err = some ⟨-32700,
            "An error occurred on the server while parsing JSON object: Failed to unmarshal batch item: "
              ++ e, none⟩))) ∧
    (∀ e₀, TrimSpace data ≠ [] → TrimSpace data ≠ nullBytes →
      dec.unmarshalRaw (TrimSpace data) = .error e₀ →
      (∀ item, dec.unmarshal (TrimSpace data) = .ok item →
        unmarshalBatchItem dec data isBatch items = ⟨none, false, items ++ [item]⟩ ∧
        ∀ m : BatchItem T, BatchItem.UnmarshalJSON dec m data = (none, ⟨false, [item]⟩)) ∧
      (∀ e, dec.unmarshal (TrimSpace data) = .error e →
        (unmarshalBatchItem dec data isBatch items).err = some ⟨-32700,
          "An error occurred on the server while parsing JSON object: Failed to unmarshal single item: "
            ++ e, none⟩)) ∧
    (∀ e, (unmarshalBatchItem dec data isBatch items).err = some e → e.Code = -32700) := by
  refine ⟨?_, ?_, ?_, ?_, ?_⟩
  · intro h
    simp only [unmarshalBatchItem, checkForEmptyOrNullData_empty h]
  · intro h
    simp only [unmarshalBatchItem, checkForEmptyOrNullData_null h]
  · intro msgs h₁ h₂ hraw
    have hc := checkForEmptyOrNullData_none h₁ h₂
    refine ⟨?_, ?_, ?_⟩
    · intro ts hts
      refine ⟨?_, fun m => ?_⟩
      · simp only [unmarshalBatchItem, hc, hraw, unmarshalBatchLoop_ok dec msgs ts items hts]
      · simp only [BatchItem.UnmarshalJSON, unmarshalBatchItem, hc, hraw,
          unmarshalBatchLoop_ok dec msgs ts [] hts, List.nil_append]
    · rintro rfl
      simp only [unmarshalBatchItem, hc, hraw, unmarshalBatchLoop]
    · rintro pre ts msg rest rfl hpre
      have hstop := unmarshalBatchLoop_stop dec pre ts msg rest items hpre
      refine ⟨?_, ?_⟩
      · intro hbad
        have hmsg : ∃ e, checkForEmptyOrNullData msg = some e := by
          rcases hbad with h | h
          · exact ⟨_, checkForEmptyOrNullData_empty h⟩
          · exact ⟨_, checkForEmptyOrNullData_null h⟩
        obtain ⟨e, he⟩ := hmsg
        rw [he] at hstop
        refine ⟨e, ?_, he, checkForEmptyOrNullData_code he⟩
        simp only [unmarshalBatchItem, hc, hraw, hstop]
      · intro e hm₁ hm₂ hu
        rw [checkForEmptyOrNullData_none hm₁ hm₂, hu] at hstop
        simp only [unmarshalBatchItem, hc, hraw, hstop]
  · intro e₀ h₁ h₂ hraw
    have hc := checkForEmptyOrNullData_none h₁ h₂
    refine ⟨?_, ?_⟩
    · intro item hitem
      refine ⟨?_, fun m => ?_⟩
      · simp only [unmarshalBatchItem, hc, hraw, hitem]
      · simp only [BatchItem.UnmarshalJSON, unmarshalBatchItem, hc, hraw, hitem, List.nil_append]
    · intro e he
      simp only [unmarshalBatchItem, hc, hraw, he, parseError_singleItem_message]
      rfl
  · intro e he
    unfold unmarshalBatchItem at he
    cases hc : checkForEmptyOrNullData data with
    | some err =>
      simp only [hc, Option.some.injEq] at he
      subst he
      exact checkForEmptyOrNullData_code hc
    | none =>
      simp only [hc] at he
      cases hraw : dec.unmarshalRaw (TrimSpace data) with
      | ok msgs =>
        simp only [hraw] at he
        exact unmarshalBatchLoop_code dec msgs items e he
      | error e₀ =>
        simp only [hraw] at he
        cases hu : dec.unmarshal (TrimSpace data) with
        | error e' =>
          simp only [hu, Option.some.injEq] at he
          subst he
          rfl
        | ok item => simp [hu] at he

theorem unmarshalBatchItem_contract_witness :
    (unmarshalBatchItem sampleDecoder [0x20, 91, 49, 93, 0x0A] false [] = ⟨none, true, [] ++ [1]⟩ ∧
      ∀ m : BatchItem Nat,
        BatchItem.UnmarshalJSON sampleDecoder m [0x20, 91, 49, 93, 0x0A] = (none, ⟨true, [1]⟩)) ∧
    (unmarshalBatchItem sampleDecoder [91, 49, 44, 120, 93] false []).err = some ⟨-32700,
      "An error occurred on the server while parsing JSON object: Failed to unmarshal batch item: "
        ++ "invalid character 'x' looking for beginning of value", none⟩ :=
  ⟨((unmarshalBatchItem_contract sampleDecoder [0x20, 91, 49, 93, 0x0A] false []).2.2.1 [[49]]
      (by decide) (by decide) rfl).1 [1]
      (List.Forall₂.cons ⟨by decide, rfl⟩ List.Forall₂.nil),
    (((unmarshalBatchItem_contract sampleDecoder [91, 49, 44, 120, 93] false []).2.2.1
      [[49], [120]] (by decide) (by decide) rfl).2.2 [[49]] [1] [120] [] rfl
      (List.Forall₂.cons ⟨by decide, rfl⟩ List.Forall₂.nil)).2 _ (by decide) (by decide) rfl⟩

/-! ## Request ids: equality -/

/-- C16: `Equal` compares by kind and value: two int ids are equal exactly when
the integers are, two string ids exactly when the strings are, an int id and a
string id are never equal, two nil pointers are equal, a nil pointer and a
non-nil one are not; `Equal` is reflexive on ids that hold an int or a string,
and symmetric and transitive. -/
theorem intString_equal_spec :
    (∀ a b : Int, IntString.Equal (some (.int a)) (some (.int b)) = true ↔ a = b) ∧
    (∀ a b : String, IntString.Equal (some (.string a)) (some (.string b)) = true ↔ a = b) ∧
    (∀ (a : Int) (b : String),
      IntString.Equal (some (.int a)) (some (.string b)) = false ∧
      IntString.Equal (some (.string b)) (some (.int a)) = false) ∧
    IntString.Equal none none = true ∧
    (∀ x : IntString,
      IntString.Equal none (some x) = false ∧ IntString.Equal (some x) none = false) ∧
    (∀ x : IntString, (∃ n, x = .int n) ∨ (∃ s, x = .string s) →
      IntString.Equal (some x) (some x) = true) ∧
    (∀ x y : Option IntString, IntString.Equal x y = IntString.Equal y x) ∧
    (∀ x y z : Option IntString, IntString.Equal x y = true → IntString.Equal y z = true →
      IntString.Equal x z = true) := by
  refine ⟨?_, ?_, ?_, rfl, ?_, ?_, ?_, ?_⟩
  · intro a b
    simp [IntString.Equal]
  · intro a b
    simp [IntString.Equal]
  · intro a b
    exact ⟨rfl, rfl⟩
  · intro x
    exact ⟨rfl, rfl⟩
  · rintro x (⟨n, rfl⟩ | ⟨s, rfl⟩) <;> simp [IntString.Equal]
  · intro x y
    rcases x with _ | (a | a | a) <;> rcases y with _ | (b | b | b) <;>
      simp [IntString.Equal, eq_comm]
  · intro x y z hxy hyz
    rcases x with _ | (a | a | a) <;> rcases y with _ | (b | b | b) <;>
      rcases z with _ | (c | c | c) <;> simp_all [IntString.Equal]

theorem intString_equal_spec_witness :
    IntString.Equal (some (.int 1)) (some (.int 1)) = true ∧
      IntString.Equal (some (.int 1)) (some (.string "1")) = false ∧
      IntString.Equal (some (.string "1")) (some (.string "1")) = true :=
  ⟨intString_equal_spec.2.2.2.2.2.1 (.int 1) (Or.inl ⟨1, rfl⟩),
    (intString_equal_spec.2.2.1 1 "1").1,
    intString_equal_spec.2.2.2.2.2.2.2 (some (.string "1")) (some (.string "1"))
      (some (.string "1")) (by decide) (by decide)⟩

/-! ## Line framer -/

theorem contains_newline_iff (c : Bytes) : Contains c [newline] = true ↔ newline ∈ c := by
  induction c with
  | nil => simp [Contains, startsWith]
  | cons x xs ih =>
    simp only [Contains, startsWith, Bool.and_true, Bool.or_eq_true, beq_iff_eq, ih,
      List.mem_cons]
    constructor
    · rintro (h | h)
      · exact Or.inl h.symm
      · exact Or.inr h
    · rintro (h | h)
      · exact Or.inl h.symm
      · exact Or.inr h

theorem hasSuffix_append_newline (t : Bytes) : HasSuffix (t ++ [newline]) [newline] = true := by
  simp [HasSuffix]

theorem trimSuffix_append_newline (t : Bytes) : TrimSuffix (t ++ [newline]) [newline] = t := by
  simp [TrimSuffix, hasSuffix_append_newline]

theorem hasSuffix_newline_iff (s : Bytes) :
    HasSuffix s [newline] = true ↔ s.getLast? = some newline := by
  rcases List.eq_nil_or_concat s with rfl | ⟨t, x, rfl⟩
  · simp [HasSuffix]
  · simp [HasSuffix]

theorem trimSuffix_of_not_hasSuffix {s : Bytes} (h : HasSuffix s [newline] = false) :
    TrimSuffix s [newline] = s := by
  simp [TrimSuffix, h]

theorem writeLoop_bufioWriter (msg w : Bytes) (fuel : Nat) :
    LineFramer.writeLoop bufioWriter msg (fuel + 2) 0 w = some (none, w ++ msg) := by
  by_cases h : 0 < msg.length
  · simp [LineFramer.writeLoop, bufioWriter, h]
  · have : msg = [] := by simpa using h
    subst this
    simp [LineFramer.writeLoop]

/-- A payload without a newline is written followed by one newline. -/
theorem writeMessage_plain (w msg : Bytes) (fuel : Nat) (h : newline ∉ msg) :
    LineFramer.WriteMessage bufioWriter (fuel + 2) w msg = some (none, w ++ msg ++ [newline]) := by
  have hs : HasSuffix msg [newline] = false := by
    rw [Bool.eq_false_iff, Ne, hasSuffix_newline_iff]
    intro hl
    exact h (List.mem_of_getLast?_eq_some hl)
  have hc : Contains msg [newline] = false := by
    rw [Bool.eq_false_iff, Ne, contains_newline_iff]
    exact h
  simp [LineFramer.WriteMessage, trimSuffix_of_not_hasSuffix hs, hc, hs, writeLoop_bufioWriter,
    List.append_assoc]

/-- A payload that ends in its only newline is written as it is. -/
theorem writeMessage_terminated (w t : Bytes) (fuel : Nat) (h : newline ∉ t) :
    LineFramer.WriteMessage bufioWriter (fuel + 2) w (t ++ [newline])
      = some (none, w ++ (t ++ [newline])) := by
  have hc : Contains t [newline] = false := by
    rw [Bool.eq_false_iff, Ne, contains_newline_iff]
    exact h
  simp [LineFramer.WriteMessage, trimSuffix_append_newline, hc, hasSuffix_append_newline,
    writeLoop_bufioWriter]

/-- A payload with a newline before its last byte is rejected and nothing is
written. -/
theorem writeMessage_rejected (w msg : Bytes) (fuel : Nat)
    (h : newline ∈ TrimSuffix msg [newline]) :
    LineFramer.WriteMessage bufioWriter fuel w msg
      = some (some "invalid character newline in the middle", w) := by
  have hc : Contains (TrimSuffix msg [newline]) [newline] = true :=
    (contains_newline_iff _).2 h
  simp [LineFramer.WriteMessage, hc]

/-- C18: on a writer that does not fail, `WriteMessage` rejects, writing
nothing, exactly the payloads that still hold a newline once one trailing newline
is removed; it writes a payload without newline followed by one newline, and a
payload that ends in its only newline as it is. -/
theorem writeMessage_spec (w msg : Bytes) (fuel : Nat) (hfuel : 2 ≤ fuel) :
    ((∃ t, msg = t ++ [newline] ∧ newline ∈ t) ∨ (msg.getLast? ≠ some newline ∧ newline ∈ msg) →
      LineFramer.WriteMessage bufioWriter fuel w msg
        = some (some "invalid character newline in the middle", w)) ∧
    (newline ∉ msg →
      LineFramer.WriteMessage bufioWriter fuel w msg = some (none, w ++ msg ++ [newline])) ∧
    (∀ t, msg = t ++ [newline] → newline ∉ t →
      LineFramer.WriteMessage bufioWriter fuel w msg = some (none, w ++ msg)) ∧
    (LineFramer.WriteMessage bufioWriter fuel w msg
        = some (some "invalid character newline in the middle", w)
      ↔ newline ∈ TrimSuffix msg [newline]) := by
  obtain ⟨k, rfl⟩ : ∃ k, fuel = k + 2 := ⟨fuel - 2, by omega⟩
  have hrej : (∃ t, msg = t ++ [newline] ∧ newline ∈ t) ∨
      (msg.getLast? ≠ some newline ∧ newline ∈ msg) → newline ∈ TrimSuffix msg [newline] := by
    rintro (⟨t, rfl, ht⟩ | ⟨hl, hm⟩)
    · rw [trimSuffix_append_newline]
      exact ht
    · have hs : HasSuffix msg [newline] = false := by
        rw [Bool.eq_false_iff, Ne, hasSuffix_newline_iff]
        exact hl
      rw [trimSuffix_of_not_hasSuffix hs]
      exact hm
  refine ⟨fun h => writeMessage_rejected w msg _ (hrej h), fun h => writeMessage_plain w msg k h,
    ?_, ?_⟩
  · rintro t rfl ht
    exact writeMessage_terminated w t k ht
  · constructor
    · intro hw
      by_contra hn
      rcases List.eq_nil_or_concat msg with rfl | ⟨t, x, rfl⟩
      · rw [writeMessage_plain w [] k (by simp)] at hw
        simp at hw
      · rw [List.concat_eq_append] at hw hn
        by_cases hx : x = newline
        · subst hx
          rw [trimSuffix_append_newline] at hn
          rw [writeMessage_terminated w t k hn] at hw
          simp at hw
        · have hs : HasSuffix (t ++ [x]) [newline] = false := by
            rw [Bool.eq_false_iff, Ne, hasSuffix_newline_iff]
            simpa using hx
          rw [trimSuffix_of_not_hasSuffix hs] at hn
          rw [writeMessage_plain w _ k hn] at hw
          simp at hw
    · exact fun h => writeMessage_rejected w msg _ h

theorem writeMessage_spec_witness :
    LineFramer.WriteMessage bufioWriter 2 [1] [97, 10, 98]
        = some (some "invalid character newline in the middle", [1]) ∧
      LineFramer.WriteMessage bufioWriter 2 [1] [97, 98] = some (none, [1] ++ [97, 98] ++ [newline]) ∧
      LineFramer.WriteMessage bufioWriter 2 [1] [97, 10] = some (none, [1] ++ [97, 10]) :=
  ⟨(writeMessage_spec [1] [97, 10, 98] 2 (le_refl 2)).1 (Or.inr ⟨by decide, by decide⟩),
    (writeMessage_spec [1] [97, 98] 2 (le_refl 2)).2.1 (by decide),
    (writeMessage_spec [1] [97, 10] 2 (le_refl 2)).2.2.1 [97] rfl (by decide)⟩

theorem readBytes_frame (m rest : Bytes) (h : newline ∉ m) :
    ReadBytes newline (m ++ [newline] ++ rest) = ((m ++ [newline], none), rest) := by
  induction m with
  | nil => simp [ReadBytes]
  | cons b m ih =>
    have hb : b ≠ newline := fun hb => h (by simp [hb])
    have hm : newline ∉ m := fun hm => h (List.mem_cons_of_mem _ hm)
    have ih' := ih hm
    simp only [List.append_assoc, List.singleton_append] at ih' ⊢
    simp [ReadBytes, hb, ih']

theorem readBytes_eof (r : Bytes) (h : newline ∉ r) :
    ReadBytes newline r = ((r, some "EOF"), []) := by
  induction r with
  | nil => rfl
  | cons b r ih =>
    have hb : b ≠ newline := fun hb => h (by simp [hb])
    have hr : newline ∉ r := fun hr => h (List.mem_cons_of_mem _ hr)
    simp [ReadBytes, hb, ih hr]

theorem readMessage_frame (m rest : Bytes) (h : newline ∉ m) :
    LineFramer.ReadMessage (m ++ [newline] ++ rest) = ((some m, none), rest) := by
  simp only [LineFramer.ReadMessage, readBytes_frame m rest h, trimSuffix_append_newline]

theorem readMessages_framesOf (ms : List Bytes) (rest : Bytes) (h : ∀ m ∈ ms, newline ∉ m) :
    LineFramer.readMessages ms.length (LineFramer.framesOf ms ++ rest)
      = (ms.map (fun m => (some m, none)), rest) := by
  induction ms with
  | nil => rfl
  | cons m ms ih =>
    have hm : newline ∉ m := h m (List.mem_cons_self _ _)
    have hms : ∀ x ∈ ms, newline ∉ x := fun x hx => h x (List.mem_cons_of_mem _ hx)
    simp only [List.length_cons, LineFramer.framesOf, LineFramer.readMessages, List.map_cons]
    rw [List.append_assoc, readMessage_frame m _ hm, ih hms]

theorem writeMessages_framesOf (ms : List Bytes) (w : Bytes) (fuel : Nat)
    (h : ∀ m ∈ ms, newline ∉ m) :
    LineFramer.writeMessages (fuel + 2) ms w = some (none, w ++ LineFramer.framesOf ms) := by
  induction ms generalizing w with
  | nil => simp [LineFramer.writeMessages, LineFramer.framesOf]
  | cons m ms ih =>
    have hm : newline ∉ m := h m (List.mem_cons_self _ _)
    have hms : ∀ x ∈ ms, newline ∉ x := fun x hx => h x (List.mem_cons_of_mem _ hx)
    simp only [LineFramer.writeMessages, writeMessage_plain w m fuel hm, ih _ hms,
      LineFramer.framesOf, List.append_assoc]

/-- C19: payloads without newline, written one after the other with
`WriteMessage`, are read back by as many calls of `ReadMessage`, in order and
byte for byte, and the stream is then used up; and on a stream that ends before
a newline `ReadMessage` returns an error and no content. -/
theorem framer_roundtrip (ms : List Bytes) (fuel : Nat) (hfuel : 2 ≤ fuel)
    (h : ∀ m ∈ ms, newline ∉ m) :
    (∃ stream, LineFramer.writeMessages fuel ms [] = some (none, stream) ∧
      stream = LineFramer.framesOf ms ∧
      LineFramer.readMessages ms.length stream = (ms.map (fun m => (some m, none)), [])) ∧
    (∀ r : Bytes, newline ∉ r → LineFramer.ReadMessage r = ((none, some "EOF"), [])) := by
  obtain ⟨k, rfl⟩ : ∃ k, fuel = k + 2 := ⟨fuel - 2, by omega⟩
  refine ⟨⟨LineFramer.framesOf ms, ?_, rfl, ?_⟩, ?_⟩
  · simpa using writeMessages_framesOf ms [] k h
  · simpa using readMessages_framesOf ms [] h
  · intro r hr
    simp only [LineFramer.ReadMessage, readBytes_eof r hr]

theorem framer_roundtrip_witness :
    (∃ stream, LineFramer.writeMessages 2 [[], [0, 255, 13], [123, 125]] [] = some (none, stream) ∧
      stream = LineFramer.framesOf [[], [0, 255, 13], [123, 125]] ∧
      LineFramer.readMessages ([[], [0, 255, 13], [123, 125]] : List Bytes).length stream
        = (([[], [0, 255, 13], [123, 125]] : List Bytes).map (fun m => (some m, none)), [])) ∧
    (∀ r : Bytes, newline ∉ r → LineFramer.ReadMessage r = ((none, some "EOF"), [])) :=
  framer_roundtrip [[], [0, 255, 13], [123, 125]] 2 (le_refl 2) (by decide)

/-! ## Batch encode -/

theorem marshalItems_ok {T : Type} (enc : JSONEncoder T) (items : List T) (bs : List Bytes)
    (h : List.Forall₂ (fun x b => enc.marshal x = .ok b) items bs) :
    marshalItems enc items = .ok bs := by
  induction h with
  | nil => rfl
  | cons hx _ ih => simp [marshalItems, hx, ih]

/-- C11, as stated, fails: with `isBatch` true the nil slice of items, in which
there are no items, is encoded as `null`, not as the array `[]`. -/
theorem marshalBatchItem_nil_not_array :
    marshalBatchItem sampleEncoder true none = .ok nullBytes ∧
      marshalBatchItem sampleEncoder true none ≠ .ok (arrayText []) := by
  refine ⟨rfl, ?_⟩
  intro h
  have h' : nullBytes = arrayText [] := Except.ok.inj h
  revert h'
  decide

/-- C11, amended: with `isBatch` true and a slice of items that is not nil, the
output is the JSON array of the encodings of all the items in order, `[]` when
there are none, and `null` for the nil slice; with `isBatch` false the output is
the encoding of the first item when there is one, and `null` otherwise. -/
theorem marshalBatchItem_spec {T : Type} (enc : JSONEncoder T) :
    (∀ items bs, List.Forall₂ (fun x b => enc.marshal x = .ok b) items bs →
      marshalBatchItem enc true (some items) = .ok (arrayText bs) ∧
      BatchItem.MarshalJSON enc ⟨true, items⟩ = .ok (arrayText bs)) ∧
    marshalBatchItem enc true (some []) = .ok [91, 93] ∧
    marshalBatchItem enc true none = .ok nullBytes ∧
    (∀ x rest, marshalBatchItem enc false (some (x :: rest)) = enc.marshal x ∧
      BatchItem.MarshalJSON enc ⟨false, x :: rest⟩ = enc.marshal x) ∧
    marshalBatchItem enc false (some []) = .ok nullBytes ∧
    marshalBatchItem enc false none = .ok nullBytes := by
  refine ⟨?_, rfl, rfl, fun x rest => ⟨rfl, rfl⟩, rfl, rfl⟩
  intro items bs h
  have hm := marshalItems_ok enc items bs h
  constructor
  · simp [marshalBatchItem, marshalSlice, hm]
  · simp [BatchItem.MarshalJSON, marshalBatchItem, marshalSlice, hm]

theorem marshalBatchItem_spec_witness :
    marshalBatchItem sampleEncoder true (some [1, 1]) = .ok (arrayText [[49], [49]]) ∧
      BatchItem.MarshalJSON sampleEncoder ⟨true, [1, 1]⟩ = .ok (arrayText [[49], [49]]) :=
  (marshalBatchItem_spec sampleEncoder).1 [1, 1] [[49], [49]]
    (List.Forall₂.cons rfl (List.Forall₂.cons rfl List.Forall₂.nil))

/-! ## Batch round trip -/

theorem trimLeftSpace_cons (b : Nat) (t : Bytes) (h1 : 0x21 ≤ b) (h2 : b < 0x80) :
    trimLeftSpace (b :: t) = b :: t := by
  have hb : ¬ (b = 0x09 ∨ b = 0x0A ∨ b = 0x0B ∨ b = 0x0C ∨ b = 0x0D ∨ b = 0x20) := by omega
  unfold trimLeftSpace
  simp only [if_neg hb]
  cases t with
  | nil => rfl
  | cons c t' =>
    have hc : ¬ (b = 0xC2 ∧ (c = 0x85 ∨ c = 0xA0)) := by omega
    simp only [if_neg hc]
    cases t' with
    | nil => rfl
    | cons d t'' =>
      have hd : ¬ ((b = 0xE1 ∧ c = 0x9A ∧ d = 0x80) ∨
          (b = 0xE2 ∧ c = 0x80 ∧ ((0x80 ≤ d ∧ d ≤ 0x8A) ∨ d = 0xA8 ∨ d = 0xA9 ∨ d = 0xAF)) ∨
          (b = 0xE2 ∧ c = 0x81 ∧ d = 0x9F) ∨ (b = 0xE3 ∧ c = 0x80 ∧ d = 0x80)) := by omega
      simp only [if_neg hd]

theorem trimRightSpaceRev_cons (b : Nat) (t : Bytes) (h1 : 0x21 ≤ b) (h2 : b < 0x80) :
    trimRightSpaceRev (b :: t) = b :: t := by
  have hb : ¬ (b = 0x09 ∨ b = 0x0A ∨ b = 0x0B ∨ b = 0x0C ∨ b = 0x0D ∨ b = 0x20) := by omega
  unfold trimRightSpaceRev
  simp only [if_neg hb]
  cases t with
  | nil => rfl
  | cons c t' =>
    have hc : ¬ (c = 0xC2 ∧ (b = 0x85 ∨ b = 0xA0)) := by omega
    simp only [if_neg hc]
    cases t' with
    | nil => rfl
    | cons d t'' =>
      have hd : ¬ ((d = 0xE1 ∧ c = 0x9A ∧ b = 0x80) ∨
          (d = 0xE2 ∧ c = 0x80 ∧ ((0x80 ≤ b ∧ b ≤ 0x8A) ∨ b = 0xA8 ∨ b = 0xA9 ∨ b = 0xAF)) ∨
          (d = 0xE2 ∧ c = 0x81 ∧ b = 0x9F) ∨ (d = 0xE3 ∧ c = 0x80 ∧ b = 0x80)) := by omega
      simp only [if_neg hd]

/-- A text that starts and ends with a printable ASCII byte has no white space
to trim. -/
theorem trimSpace_of_printable (first last : Nat) (mid : Bytes)
    (hf1 : 0x21 ≤ first) (hf2 : first < 0x80) (hl1 : 0x21 ≤ last) (hl2 : last < 0x80) :
    TrimSpace (first :: (mid ++ [last])) = first :: (mid ++ [last]) := by
  have h1 := trimLeftSpace_cons first (mid ++ [last]) hf1 hf2
  have h2 : (first :: (mid ++ [last])).reverse = last :: (first :: mid).reverse := by simp
  rw [TrimSpace, h1, h2, trimRightSpaceRev_cons last _ hl1 hl2, ← h2, List.reverse_reverse]

theorem trimSpace_arrayText (es : List Bytes) : TrimSpace (arrayText es) = arrayText es := by
  have h := trimSpace_of_printable 91 93 (List.intercalate [44] es) (by omega) (by omega)
    (by omega) (by omega)
  simpa [arrayText] using h

theorem arrayText_ne_nil (es : List Bytes) : arrayText es ≠ [] := by
  simp [arrayText]

theorem arrayText_ne_null (es : List Bytes) : arrayText es ≠ nullBytes := by
  simp [arrayText, nullBytes]

/-- C13, as stated, fails: a single item that is a nil pointer is encoded as
`null`, which batch decode rejects; and a single item that is a slice is encoded
as a JSON array, which batch decode reads as a batch. -/
theorem roundTrips_fails :
    ¬ BatchItem.RoundTrips pointerEncoder pointerDecoder ⟨false, [none]⟩ ∧
      ¬ BatchItem.RoundTrips sliceEncoder sliceDecoder ⟨false, [[1, 2]]⟩ := by
  constructor
  · rintro ⟨data, henc, hdec⟩
    have h1 : BatchItem.MarshalJSON pointerEncoder ⟨false, [none]⟩ = .ok nullBytes := rfl
    rw [h1] at henc
    have h2 := hdec ⟨false, []⟩
    rw [← Except.ok.inj henc] at h2
    revert h2
    decide
  · rintro ⟨data, henc, hdec⟩
    have h1 : BatchItem.MarshalJSON sliceEncoder ⟨false, [[1, 2]]⟩
        = .ok [91, 49, 44, 50, 93] := rfl
    rw [h1] at henc
    have h2 := hdec ⟨false, []⟩
    rw [← Except.ok.inj henc] at h2
    revert h2
    decide

/-- C13, amended: a `BatchItem` with `IsBatch` true whose items encode to texts
that the decoder splits back out of their array and reads back as the items, and
a `BatchItem` with `IsBatch` false and exactly one item whose encoding is neither
empty nor `null` nor a JSON array and is read back as the item, are encoded to a
text whose decoding succeeds with the same `IsBatch` and the same items in the
same order. -/
theorem batchItem_roundTrips {T : Type} (enc : JSONEncoder T) (dec : JSONDecoder T) :
    (∀ (items : List T) (es : List Bytes),
      List.Forall₂ (fun x e => enc.marshal x = .ok e) items es →
      dec.unmarshalRaw (arrayText es) = .ok es →
      List.Forall₂ (DecodesTo dec) es items →
      BatchItem.RoundTrips enc dec ⟨true, items⟩) ∧
    (∀ (x : T) (e : Bytes), enc.marshal x = .ok e →
      TrimSpace e ≠ [] → TrimSpace e ≠ nullBytes →
      (∃ err, dec.unmarshalRaw (TrimSpace e) = .error err) →
      dec.unmarshal (TrimSpace e) = .ok x →
      BatchItem.RoundTrips enc dec ⟨false, [x]⟩) := by
  constructor
  · intro items es henc hraw hdec
    refine ⟨arrayText es, ?_, fun m => ?_⟩
    · simp [BatchItem.MarshalJSON, marshalBatchItem, marshalSlice, marshalItems_ok enc items es henc]
    · have hc : checkForEmptyOrNullData (arrayText es) = none :=
        checkForEmptyOrNullData_none (by rw [trimSpace_arrayText]; exact arrayText_ne_nil es)
          (by rw [trimSpace_arrayText]; exact arrayText_ne_null es)
      simp only [BatchItem.UnmarshalJSON, unmarshalBatchItem, hc, trimSpace_arrayText, hraw,
        unmarshalBatchLoop_ok dec es items [] hdec, List.nil_append]
  · rintro x e henc h₁ h₂ ⟨err, hraw⟩ hdec
    refine ⟨e, ?_, fun m => ?_⟩
    · simp [BatchItem.MarshalJSON, marshalBatchItem, henc]
    · have hc : checkForEmptyOrNullData e = none := checkForEmptyOrNullData_none h₁ h₂
      simp only [BatchItem.UnmarshalJSON, unmarshalBatchItem, hc, hraw, hdec, List.nil_append]

theorem batchItem_roundTrips_witness :
    BatchItem.RoundTrips pointerEncoder pointerDecoder ⟨false, [some 1]⟩ :=
  (batchItem_roundTrips pointerEncoder pointerDecoder).2 (some 1) [49] rfl (by decide) (by decide)
    ⟨_, rfl⟩ rfl

/-! ## Request ids: decoding and encoding -/

theorem unmarshalInt_int (lib : JSONLib) (data : Bytes) (n : Int)
    (h : lib.shape data = some (.int n)) (h1 : minInt ≤ n) (h2 : n ≤ maxInt) :
    lib.unmarshalInt data = .ok n := by
  simp [JSONLib.unmarshalInt, h, h1, h2]

theorem unmarshalInt_ok (lib : JSONLib) (data : Bytes) (n : Int)
    (h : lib.unmarshalInt data = .ok n) :
    lib.shape data = some .null ∨ (lib.shape data = some (.int n) ∧ minInt ≤ n ∧ n ≤ maxInt) := by
  unfold JSONLib.unmarshalInt at h
  split at h
  · exact Or.inl (by assumption)
  · rename_i m hm
    split at h
    · rename_i hr
      cases h
      exact Or.inr ⟨hm, hr⟩
    · cases h
  · cases h
  · cases h

theorem unmarshalString_ok (lib : JSONLib) (data : Bytes) (s : String)
    (h : lib.unmarshalString data = .ok s) :
    lib.shape data = some .null ∨ lib.shape data = some (.string s) := by
  unfold JSONLib.unmarshalString at h
  split at h
  · exact Or.inl (by assumption)
  · rename_i m hm
    cases h
    exact Or.inr hm
  · cases h
  · cases h

theorem unmarshalInt_string (lib : JSONLib) (data : Bytes) (s : String)
    (h : lib.shape data = some (.string s)) : ∃ e, lib.unmarshalInt data = .error e := by
  simp [JSONLib.unmarshalInt, h]

/-- The text of an integer that fits the Go type `int` is decoded as an int id. -/
theorem intString_unmarshal_int (lib : JSONLib) (data : Bytes) (n : Int)
    (hd : data ≠ nullBytes) (h : lib.shape data = some (.int n)) (h1 : minInt ≤ n)
    (h2 : n ≤ maxInt) : IntString.UnmarshalJSON lib data = .ok (.int n) := by
  simp [IntString.UnmarshalJSON, hd, unmarshalInt_int lib data n h h1 h2]

/-- The text of a string is decoded as a string id. -/
theorem intString_unmarshal_string (lib : JSONLib) (data : Bytes) (s : String)
    (hd : data ≠ nullBytes) (h : lib.shape data = some (.string s)) :
    IntString.UnmarshalJSON lib data = .ok (.string s) := by
  obtain ⟨e, he⟩ := unmarshalInt_string lib data s h
  simp [IntString.UnmarshalJSON, hd, he, JSONLib.unmarshalString, h]

/-- What a decoded id tells about the text: it is not the text `null`, and it
holds `null` (with the int id 0), an integer that fits, or a string. -/
theorem intString_unmarshal_ok (lib : JSONLib) (data : Bytes) (v : IntString)
    (h : IntString.UnmarshalJSON lib data = .ok v) :
    data ≠ nullBytes ∧
      (lib.shape data = some .null ∨
        (∃ n, lib.shape data = some (.int n) ∧ minInt ≤ n ∧ n ≤ maxInt ∧ v = .int n) ∨
        (∃ s, lib.shape data = some (.string s) ∧ v = .string s)) := by
  unfold IntString.UnmarshalJSON at h
  split at h
  · cases h
  · rename_i hd
    refine ⟨hd, ?_⟩
    split at h
    · rename_i n hn
      cases h
      rcases unmarshalInt_ok lib data n hn with h0 | ⟨h1, h2, h3⟩
      · exact Or.inl h0
      · exact Or.inr (Or.inl ⟨n, h1, h2, h3, rfl⟩)
    · split at h
      · rename_i s hs
        cases h
        rcases unmarshalString_ok lib data s hs with h0 | h1
        · exact Or.inl h0
        · exact Or.inr (Or.inr ⟨s, h1, rfl⟩)
      · cases h

/-- C15: an id that holds an int that fits the Go type `int`, or a string, is
encoded, and decoding the encoding gives an id of the same kind and value, which
is `Equal` to it (a string of digits stays a string: the written text is read as
a string); conversely, an id decoded from a text is encoded as the integer, or
as the string, that the text holds. The facts of `encoding/json` used: the text
`null` holds null, the text written for the integer holds that integer, the text
written for the string holds that string, and a text that holds null is the text
`null`. -/
theorem intString_roundtrip (lib : JSONLib) (hnull : lib.shape nullBytes = some .null) :
    (∀ n : Int, minInt ≤ n → n ≤ maxInt → lib.shape (lib.marshalInt n) = some (.int n) →
      ∃ out w, IntString.MarshalJSON lib (.int n) = .ok out ∧
        IntString.UnmarshalJSON lib out = .ok w ∧ w = .int n ∧
        IntString.Equal (some w) (some (.int n)) = true) ∧
    (∀ s : String, lib.shape (lib.marshalString s) = some (.string s) →
      ∃ out w, IntString.MarshalJSON lib (.string s) = .ok out ∧
        IntString.UnmarshalJSON lib out = .ok w ∧ w = .string s ∧
        IntString.Equal (some w) (some (.string s)) = true) ∧
    (∀ (data : Bytes) (v : IntString), (lib.shape data = some .null → data = nullBytes) →
      IntString.UnmarshalJSON lib data = .ok v →
      ∃ out, IntString.MarshalJSON lib v = .ok out ∧
        ((∃ n, lib.shape data = some (.int n) ∧ out = lib.marshalInt n) ∨
          (∃ s, lib.shape data = some (.string s) ∧ out = lib.marshalString s))) := by
  refine ⟨?_, ?_, ?_⟩
  · intro n h1 h2 hs
    have hd : lib.marshalInt n ≠ nullBytes := by
      intro h
      rw [h, hnull] at hs
      cases hs
    exact ⟨lib.marshalInt n, .int n, rfl, intString_unmarshal_int lib _ n hd hs h1 h2, rfl,
      by simp [IntString.Equal]⟩
  · intro s hs
    have hd : lib.marshalString s ≠ nullBytes := by
      intro h
      rw [h, hnull] at hs
      cases hs
    exact ⟨lib.marshalString s, .string s, rfl, intString_unmarshal_string lib _ s hd hs, rfl,
      by simp [IntString.Equal]⟩
  · intro data v hn h
    obtain ⟨hd, h0 | ⟨n, hs, _, _, rfl⟩ | ⟨s, hs, rfl⟩⟩ := intString_unmarshal_ok lib data v h
    · exact absurd (hn h0) hd
    · exact ⟨lib.marshalInt n, rfl, Or.inl ⟨n, hs, rfl⟩⟩
    · exact ⟨lib.marshalString s, rfl, Or.inr ⟨s, hs, rfl⟩⟩

theorem intString_roundtrip_witness :
    ∃ out w, IntString.MarshalJSON sampleLib (.string "1") = .ok out ∧
      IntString.UnmarshalJSON sampleLib out = .ok w ∧ w = .string "1" ∧
      IntString.Equal (some w) (some (.string "1")) = true :=
  (intString_roundtrip sampleLib (by decide)).2.1 "1" (by decide)

/-! ## Request ids: a message with an id of another type -/

theorem fieldOf_id (lib : JSONLib) : lib.fieldOf unionFields "id" = some "id" := by
  simp [JSONLib.fieldOf, unionFields, List.find?]

/-- An `id` member that is neither null nor an id ends the decoding of the
members with an error. -/
theorem decodeMembers_bad_id (lib : JSONLib) (members : List (String × Bytes))
    (st : UnionRequest × Option String) (name : String) (v : Bytes)
    (hmem : (name, v) ∈ members) (hf : lib.fieldOf unionFields name = some "id")
    (hn : lib.shape v ≠ some .null) (hbad : ∀ w, IntString.UnmarshalJSON lib v ≠ .ok w) :
    ∃ e, UnionRequest.decodeMembers lib unionFields members st = .error e := by
  induction members generalizing st with
  | nil => cases hmem
  | cons m rest ih =>
    unfold UnionRequest.decodeMembers
    cases hstep : UnionRequest.decodeMember lib unionFields st m with
    | error e => exact ⟨e, rfl⟩
    | ok st' =>
      rcases List.mem_cons.mp hmem with h | h
      · exfalso
        subst h
        cases hid : IntString.UnmarshalJSON lib v with
        | ok w => exact hbad w hid
        | error e =>
          unfold UnionRequest.decodeMember at hstep
          simp +decide only [hf, hid, if_false, if_true] at hstep
          cases hstep
      · exact ih st' h

theorem unionUnmarshal_bad_id (lib : JSONLib) (data : Bytes) (members : List (String × Bytes))
    (name : String) (v : Bytes) (hs : lib.shape data = some (.object members))
    (hmem : (name, v) ∈ members) (hf : lib.fieldOf unionFields name = some "id")
    (hn : lib.shape v ≠ some .null) (hbad : ∀ w, IntString.UnmarshalJSON lib v ≠ .ok w) :
    ∃ e, UnionRequest.Unmarshal lib data = .error e := by
  obtain ⟨e, he⟩ := decodeMembers_bad_id lib members (UnionRequest.zero, none) name v hmem hf hn hbad
  exact ⟨e, by simp [UnionRequest.Unmarshal, UnionRequest.decodeWith, hs, he]⟩

/-- The loop over a batch stops with an error when one of the messages is not
decoded. -/
theorem unmarshalBatchLoop_fails {T : Type} (dec : JSONDecoder T) (msgs : List Bytes)
    (items : List T) (msg : Bytes) (hmem : msg ∈ msgs) (hbad : ∃ e, dec.unmarshal msg = .error e) :
    ∃ err, (unmarshalBatchLoop dec msgs items).1 = some err := by
  induction msgs generalizing items with
  | nil => cases hmem
  | cons m rest ih =>
    unfold unmarshalBatchLoop
    cases hc : checkForEmptyOrNullData m with
    | some err => exact ⟨err, rfl⟩
    | none =>
      cases hu : dec.unmarshal m with
      | error e => exact ⟨_, rfl⟩
      | ok item =>
        rcases List.mem_cons.mp hmem with h | h
        · obtain ⟨e, he⟩ := hbad
          rw [h, hu] at he
          cases he
        · exact ih (items ++ [item]) h

/-- C14, as stated, fails: the request `{"jsonrpc":"2.0","method":"echo","id":[1]}`,
whose id is an array, is reported by batch decode with the code of `ParseError`
(-32700), not with the code of `InvalidRequest` (-32600). -/
theorem array_id_not_invalidRequest : ¬ ReportsInvalidRequest sampleLib sampleArrayID := by
  rintro ⟨e, he, hcode⟩
  have h : (unmarshalBatchItem (unionDecoder sampleLib) sampleArrayID false []).err =
      some { Code := ParseError
             Message := GetDefaultErrorMessage ParseError ++
               ": Failed to unmarshal single item: IntString must be a string or an integer" } := by
    decide
  rw [h] at he
  rw [← Option.some.inj he] at hcode
  revert hcode
  decide

/-- C14, amended: decoding an id succeeds exactly when the text holds an integer
that fits the Go type `int` or a string, so it fails for an array, an object,
null, a boolean, a number with a fraction and an integer out of range. A message
that carries an `id` member of such a kind, other than null, is not decoded, and
batch decode reports it with the code of `ParseError` (-32700), alone or as an
element of a batch; an `id` member that is null is decoded as the nil id without
an error. The facts of `encoding/json` used: the text `null` holds null, and a
text that holds null is the text `null`. -/
theorem intString_unmarshal_spec (lib : JSONLib) (hnull : lib.shape nullBytes = some .null) :
    (∀ data : Bytes, (lib.shape data = some .null → data = nullBytes) →
      ((∃ v, IntString.UnmarshalJSON lib data = .ok v) ↔
        ((∃ n, lib.shape data = some (.int n) ∧ minInt ≤ n ∧ n ≤ maxInt) ∨
          ∃ s, lib.shape data = some (.string s)))) ∧
    (∀ (data : Bytes) (isBatch : Bool) (items : List UnionRequest)
      (members : List (String × Bytes)) (name : String) (v : Bytes),
      checkForEmptyOrNullData data = none →
      lib.shape (TrimSpace data) = some (.object members) →
      (name, v) ∈ members → lib.fieldOf unionFields name = some "id" →
      lib.shape v ≠ some .null → (∀ w, IntString.UnmarshalJSON lib v ≠ .ok w) →
      ∃ e, unmarshalBatchItem (unionDecoder lib) data isBatch items =
        { err := some { Code := ParseError
                        Message := GetDefaultErrorMessage ParseError ++
                          ": Failed to unmarshal single item: " ++ e }
          isBatch := isBatch, items := items }) ∧
    (∀ (data : Bytes) (isBatch : Bool) (items : List UnionRequest) (raws : List Bytes)
      (msg : Bytes) (members : List (String × Bytes)) (name : String) (v : Bytes),
      checkForEmptyOrNullData data = none →
      lib.shape (TrimSpace data) = some (.array raws) → msg ∈ raws →
      lib.shape msg = some (.object members) →
      (name, v) ∈ members → lib.fieldOf unionFields name = some "id" →
      lib.shape v ≠ some .null → (∀ w, IntString.UnmarshalJSON lib v ≠ .ok w) →
      ∃ e, (unmarshalBatchItem (unionDecoder lib) data isBatch items).err = some e ∧
        e.Code = ParseError) ∧
    (∀ (st : UnionRequest × Option String) (v : Bytes), lib.shape v = some .null →
      UnionRequest.decodeMember lib unionFields st ("id", v) =
        .ok ({ st.1 with ID := none }, st.2)) := by
  refine ⟨?_, ?_, ?_, ?_⟩
  · intro data hn
    constructor
    · rintro ⟨v, hv⟩
      obtain ⟨hd, h0 | ⟨n, hs, h1, h2, _⟩ | ⟨s, hs, _⟩⟩ := intString_unmarshal_ok lib data v hv
      · exact absurd (hn h0) hd
      · exact Or.inl ⟨n, hs, h1, h2⟩
      · exact Or.inr ⟨s, hs⟩
    · rintro (⟨n, hs, h1, h2⟩ | ⟨s, hs⟩)
      · have hd : data ≠ nullBytes := by
          intro h
          rw [h, hnull] at hs
          cases hs
        exact ⟨_, intString_unmarshal_int lib data n hd hs h1 h2⟩
      · have hd : data ≠ nullBytes := by
          intro h
          rw [h, hnull] at hs
          cases hs
        exact ⟨_, intString_unmarshal_string lib data s hd hs⟩
  · intro data isBatch items members name v hc hs hmem hf hn hbad
    obtain ⟨e, he⟩ := unionUnmarshal_bad_id lib (TrimSpace data) members name v hs hmem hf hn hbad
    refine ⟨e, ?_⟩
    have he' : (unionDecoder lib).unmarshal (TrimSpace data) = .error e := he
    have hr : (unionDecoder lib).unmarshalRaw (TrimSpace data) =
        .error "json: cannot unmarshal value into Go value of type []json.RawMessage" := by
      simp [unionDecoder, JSONLib.unmarshalRaw, hs]
    simp only [unmarshalBatchItem, hc, hr, he']
  · intro data isBatch items raws msg members name v hc hs hmsg hobj hmem hf hn hbad
    obtain ⟨e, he⟩ := unionUnmarshal_bad_id lib msg members name v hobj hmem hf hn hbad
    have hr : (unionDecoder lib).unmarshalRaw (TrimSpace data) = .ok raws := by
      simp [unionDecoder, JSONLib.unmarshalRaw, hs]
    obtain ⟨err, herr⟩ :=
      unmarshalBatchLoop_fails (unionDecoder lib) raws items msg hmsg ⟨e, he⟩
    refine ⟨err, ?_, unmarshalBatchLoop_code (unionDecoder lib) raws items err herr⟩
    simp only [unmarshalBatchItem, hc, hr, herr]
  · intro st v hv
    simp [UnionRequest.decodeMember, fieldOf_id, hv]

theorem intString_unmarshal_spec_witness :
    ∃ e, unmarshalBatchItem (unionDecoder sampleLib) sampleArrayID false [] =
      { err := some { Code := ParseError
                      Message := GetDefaultErrorMessage ParseError ++
                        ": Failed to unmarshal single item: " ++ e }
        isBatch := false, items := [] } :=
  (intString_unmarshal_spec sampleLib (by decide)).2.1 sampleArrayID false []
    [("jsonrpc", ascii "\"2.0\""), ("method", ascii "\"echo\""), ("id", ascii "[1]")]
    "id" (ascii "[1]") (by decide) (by decide) (by decide) (by decide) (by decide)
    (fun w h => by
      have h2 : IntString.UnmarshalJSON sampleLib (ascii "[1]") =
          .error "IntString must be a string or an integer" := rfl
      rw [h2] at h
      cases h)

/-! ## Absent params -/

/-- C20, as stated, fails: for the input type `int`, which is not nullable, a
notification without params reaches the user function (with the input 0), and
the same notification with the params `{}` does not: its decoding fails. -/
theorem absentAsEmptyObject_fails :
    ¬ AbsentAsEmptyObject sampleIntHandler (intDecoder sampleLib) := by
  intro h
  have h1 := h [] ⟨"2.0", "ping", none⟩ 0 rfl
  revert h1
  decide

/-- C20, amended: a notification without params is not decoded at all: the user
function receives the zero value of the input type, which is the nil value for a
nullable input type. The outcome is that of the params `{}`, or of any other
params, when these decode to the zero value, as `{}` does for a struct type; when
they do not decode, the user function is not called and the decode failure is
returned. -/
theorem handle_absent_params {σ I : Type} (n : NotificationHandler σ I) (d : Decoder I)
    (ctx : Context) (req : Notification) (s : σ) (h : req.Params = none) :
    unmarshalData d req.Params = .ok d.zero ∧
      n.Handle d ctx req s = n.Endpoint ctx d.zero s ∧
      (∀ text : Bytes, d.unmarshal text = .ok d.zero →
        n.Handle d ctx { req with Params := some text } s = n.Handle d ctx req s) ∧
      (∀ (text : Bytes) (e : GoError), d.unmarshal text = .error e →
        n.Handle d ctx { req with Params := some text } s = (some e, s)) := by
  refine ⟨?_, ?_, ?_, ?_⟩
  · rw [h]
    rfl
  · simp [NotificationHandler.Handle, unmarshalData, h]
  · intro text ht
    simp [NotificationHandler.Handle, unmarshalData, h, ht]
  · intro text e ht
    simp [NotificationHandler.Handle, unmarshalData, ht]

theorem handle_absent_params_witness :
    samplePointerHandler.Handle (intPointerDecoder sampleLib) [] ⟨"2.0", "ping", none⟩ 0 =
      samplePointerHandler.Endpoint [] none 0 :=
  (handle_absent_params samplePointerHandler (intPointerDecoder sampleLib) []
    ⟨"2.0", "ping", none⟩ 0 rfl).2.1

/-! ## Encoding of a response without id -/

theorem rawMember_name (lib : JSONLib) (name : String) (raw : Option Bytes)
    (ms : List (String × Bytes)) (h : lib.rawMember name raw = .ok ms) :
    ∀ m ∈ ms, m.1 = name := by
  unfold JSONLib.rawMember at h
  split at h
  · cases h
    simp
  · split at h
    · cases h
      simp
    · split at h
      · cases h
        simp
      · cases h

theorem errorMember_name (lib : JSONLib) (e : Option JSONRPCError) :
    ∀ m ∈ JSONRPCError.member lib e, m.1 = "error" := by
  cases e <;> simp [JSONRPCError.member]

/-- C17: the encoding of a `Response` whose id is nil is the object of its
members `jsonrpc`, `result` (unless empty) and `error` (unless nil): it has no
member named `id`, hence no member `id` with the value null. -/
theorem response_nil_id_omitted (lib : JSONLib) (r : Response) (ms : List (String × Bytes))
    (hid : r.ID = none) (hms : r.members lib = .ok ms) :
    Response.Marshal lib r = .ok (lib.objectText ms) ∧ ∀ m ∈ ms, m.1 ≠ "id" := by
  refine ⟨by simp [Response.Marshal, hms], ?_⟩
  unfold Response.members at hms
  rw [hid] at hms
  cases hres : lib.rawMember "result" r.Result with
  | error e =>
    rw [hres] at hms
    simp [IntString.member] at hms
  | ok res =>
    rw [hres] at hms
    simp only [IntString.member] at hms
    cases hms
    intro m hm
    simp only [List.append_nil, List.mem_append, List.mem_singleton] at hm
    rcases hm with (rfl | hm) | hm
    · simp
    · rw [rawMember_name lib "result" r.Result res hres m hm]
      decide
    · rw [errorMember_name lib r.Error m hm]
      decide

theorem response_nil_id_omitted_witness :
    Response.Marshal sampleLib noInputItem =
        .ok (sampleLib.objectText
          [("jsonrpc", ascii "\"2.0\""), ("error", noInputErrorText)]) ∧
      ∀ m ∈ [("jsonrpc", ascii "\"2.0\""), ("error", noInputErrorText)], m.1 ≠ "id" :=
  response_nil_id_omitted sampleLib noInputItem
    [("jsonrpc", ascii "\"2.0\""), ("error", noInputErrorText)] rfl rfl

/-! ## Decode and encode again -/

/-- Equal objects have the same member names. -/
theorem jsonEq_object_names (lib : JSONLib) (a b : Bytes) (ms ns : List (String × Bytes))
    (h : JSONEq lib a b) (ha : lib.shape a = some (.object ms))
    (hb : lib.shape b = some (.object ns)) :
    ∀ name : String, name ∈ ms.map Prod.fst ↔ name ∈ ns.map Prod.fst := by
  cases h with
  | null h1 h2 =>
    rw [ha] at h1
    cases h1
  | bool v h1 h2 =>
    rw [ha] at h1
    cases h1
  | number x y q h1 h2 h3 h4 =>
    rw [ha] at h1
    cases h1
    cases h3
  | string s h1 h2 =>
    rw [ha] at h1
    cases h1
  | array xs ys h1 h2 h3 h4 =>
    rw [ha] at h1
    cases h1
  | object ms' ns' h1 h2 h3 h4 =>
    rw [ha] at h1
    rw [hb] at h2
    cases h1
    cases h2
    exact h3

/-- C12, as stated, fails: batch decode accepts the notification
`{"jsonrpc":"2.0","method":"ping","id":null}`, and the notification
`{"jsonrpc":"2.0","method":"ping","meta":1}`, and encoding what it decoded gives
`{"jsonrpc":"2.0","method":"ping"}` for both: the null id and the member that is
not a field are gone. -/
theorem reencodesEqual_fails :
    ¬ ReencodesEqual sampleLib (unionDecoder sampleLib) (unionEncoder sampleLib) sampleNullID ∧
      ¬ ReencodesEqual sampleLib (unionDecoder sampleLib) (unionEncoder sampleLib)
        sampleUnknownMember := by
  constructor
  · intro h
    obtain ⟨out, hout, heq⟩ := h ⟨false, [sampleNotification]⟩ (by decide)
    have h1 : BatchItem.MarshalJSON (unionEncoder sampleLib) ⟨false, [sampleNotification]⟩
        = .ok samplePing := rfl
    rw [h1] at hout
    rw [← Except.ok.inj hout] at heq
    have hn := jsonEq_object_names sampleLib _ _ _ _ heq
      (by decide : sampleLib.shape sampleNullID = some (.object
        [("jsonrpc", ascii "\"2.0\""), ("method", ascii "\"ping\""), ("id", ascii "null")]))
      (by decide : sampleLib.shape samplePing = some (.object
        [("jsonrpc", ascii "\"2.0\""), ("method", ascii "\"ping\"")])) "id"
    revert hn
    decide
  · intro h
    obtain ⟨out, hout, heq⟩ := h ⟨false, [sampleNotification]⟩ (by decide)
    have h1 : BatchItem.MarshalJSON (unionEncoder sampleLib) ⟨false, [sampleNotification]⟩
        = .ok samplePing := rfl
    rw [h1] at hout
    rw [← Except.ok.inj hout] at heq
    have hn := jsonEq_object_names sampleLib _ _ _ _ heq
      (by decide : sampleLib.shape sampleUnknownMember = some (.object
        [("jsonrpc", ascii "\"2.0\""), ("method", ascii "\"ping\""), ("meta", ascii "1")]))
      (by decide : sampleLib.shape samplePing = some (.object
        [("jsonrpc", ascii "\"2.0\""), ("method", ascii "\"ping\"")])) "meta"
    revert hn
    decide

theorem fieldOf_mem (lib : JSONLib) (fields : List String) (name : String)
    (h : name ∈ fields) : lib.fieldOf fields name = some name := by
  have hf : fields.find? (fun f => decide (f = name)) = some name := by
    induction fields with
    | nil => cases h
    | cons f rest ih =>
      by_cases hfn : f = name
      · simp [List.find?, hfn]
      · rcases List.mem_cons.mp h with h1 | h1
        · exact absurd h1.symm hfn
        · simp [List.find?, hfn, ih h1]
  simp [JSONLib.fieldOf, hf]

theorem lookup_eq_none (ms : List (String × Bytes)) (name : String)
    (h : name ∉ ms.map Prod.fst) : ms.lookup name = none := by
  induction ms with
  | nil => rfl
  | cons m rest ih =>
    obtain ⟨k, v⟩ := m
    simp only [List.map_cons, List.mem_cons, not_or] at h
    have hk : (name == k) = false := by simpa using h.1
    simp [List.lookup_cons, hk, ih h.2]

theorem mem_of_lookup (ms : List (String × Bytes)) (name : String) (v : Bytes)
    (h : ms.lookup name = some v) : (name, v) ∈ ms := by
  induction ms with
  | nil => cases h
  | cons m rest ih =>
    obtain ⟨k, w⟩ := m
    rw [List.lookup_cons] at h
    by_cases hk : name = k
    · subst hk
      simp at h
      simp [h]
    · have hk' : (name == k) = false := by simpa using hk
      rw [hk'] at h
      exact List.mem_cons_of_mem _ (ih h)

theorem lookup_of_mem (ms : List (String × Bytes)) (name : String) (v : Bytes)
    (hn : (ms.map Prod.fst).Nodup) (h : (name, v) ∈ ms) : ms.lookup name = some v := by
  induction ms with
  | nil => cases h
  | cons m rest ih =>
    obtain ⟨k, w⟩ := m
    simp only [List.map_cons, List.nodup_cons] at hn
    rw [List.lookup_cons]
    rcases List.mem_cons.mp h with h1 | h1
    · cases h1
      simp
    · have hk : name ≠ k := by
        rintro rfl
        exact hn.1 (List.mem_map.mpr ⟨(name, v), h1, rfl⟩)
      have hk' : (name == k) = false := by simpa using hk
      rw [hk']
      exact ih hn.2 h1

theorem lookup_append_single (ms : List (String × Bytes)) (k : String) (v : Bytes)
    (name : String) :
    (ms ++ [(k, v)]).lookup name =
      (ms.lookup name).or (if name = k then some v else none) := by
  rw [List.lookup_append]
  by_cases h : name = k
  · simp [List.lookup_cons, h]
  · have h' : (name == k) = false := by simpa using h
    simp [List.lookup_cons, h, h']

theorem nodup_append_single (es : List (String × Bytes)) (k : String) (v : Bytes)
    (hn : ((es ++ [(k, v)]).map Prod.fst).Nodup) :
    (es.map Prod.fst).Nodup ∧ es.lookup k = none := by
  rw [List.map_append, List.nodup_append] at hn
  refine ⟨hn.1, lookup_eq_none es k ?_⟩
  intro hk
  exact hn.2.2 hk (by simp)

/-- The members of a plain error object are decoded into the error object that
they hold, and no error is kept aside. -/
theorem decodeError_foldl (lib : JSONLib) (saved : Option String) (es : List (String × Bytes))
    (hn : (es.map Prod.fst).Nodup) (hp : ∀ m ∈ es, PlainErrorMember lib m) :
    es.foldl (JSONRPCError.decodeMember lib) ({ Code := 0, Message := "", Data := none }, saved) =
      (JSONRPCError.ofMembers lib es, saved) := by
  induction es using List.reverseRecOn with
  | nil => rfl
  | append_singleton es m ih =>
    obtain ⟨k, v⟩ := m
    obtain ⟨hn', hnone⟩ := nodup_append_single es k v hn
    have hm := hp (k, v) (by simp)
    rw [List.foldl_append, ih hn' (fun m hm => hp m (List.mem_append_left _ hm))]
    simp only [List.foldl_cons, List.foldl_nil]
    obtain ⟨hk, hcode, hmsg, hdata⟩ := hm
    have hf := fieldOf_mem lib errorFields k hk
    simp only [errorFields, List.mem_cons, List.mem_singleton, List.not_mem_nil, or_false] at hk
    rcases hk with rfl | rfl | rfl
    · obtain ⟨n, hs, h1, h2, _⟩ := hcode rfl
      have hu := unmarshalInt_int lib v n hs h1 h2
      simp +decide [JSONRPCError.decodeMember, hf, hs, hu, JSONRPCError.ofMembers,
        lookup_append_single, hnone, JSONLib.intOf]
    · obtain ⟨s, hs, _⟩ := hmsg rfl
      simp +decide [JSONRPCError.decodeMember, hf, hs, JSONLib.unmarshalString,
        JSONRPCError.ofMembers, lookup_append_single, hnone, JSONLib.stringOf]
    · obtain ⟨hs, _⟩ := hdata rfl
      simp +decide [JSONRPCError.decodeMember, hf, hs, JSONRPCError.ofMembers,
        lookup_append_single, hnone]

theorem decodeMembers_append (lib : JSONLib) (fields : List String)
    (ms : List (String × Bytes)) (m : String × Bytes) (st : UnionRequest × Option String) :
    UnionRequest.decodeMembers lib fields (ms ++ [m]) st =
      match UnionRequest.decodeMembers lib fields ms st with
      | .error e => .error e
      | .ok st' => UnionRequest.decodeMember lib fields st' m := by
  induction ms generalizing st with
  | nil =>
    simp only [List.nil_append, UnionRequest.decodeMembers]
    cases UnionRequest.decodeMember lib fields st m <;> rfl
  | cons a rest ih =>
    simp only [List.cons_append, UnionRequest.decodeMembers]
    cases UnionRequest.decodeMember lib fields st a with
    | error e => rfl
    | ok st' => exact ih st'

/-- The members of a plain message are decoded into the message that they hold,
and no error is kept aside. -/
theorem decodeMembers_plain (lib : JSONLib) (hnull : lib.shape nullBytes = some .null)
    (fields : List String) (hsub : ∀ f ∈ fields, f ∈ unionFields)
    (ms : List (String × Bytes)) (hn : (ms.map Prod.fst).Nodup)
    (hp : ∀ m ∈ ms, PlainMember lib fields m) :
    UnionRequest.decodeMembers lib fields ms (UnionRequest.zero, none) =
      .ok (UnionRequest.ofMembers lib ms, none) := by
  induction ms using List.reverseRecOn with
  | nil => rfl
  | append_singleton ms m ih =>
    obtain ⟨k, v⟩ := m
    obtain ⟨hn', hnone⟩ := nodup_append_single ms k v hn
    have hm := hp (k, v) (by simp)
    rw [decodeMembers_append, ih hn' (fun m hm => hp m (List.mem_append_left _ hm))]
    simp only
    obtain ⟨hk, hstr, hid, hraw, herr⟩ := hm
    have hf := fieldOf_mem lib fields k hk
    have hk' := hsub k hk
    simp only [unionFields, List.mem_cons, List.mem_singleton, List.not_mem_nil, or_false] at hk'
    rcases hk' with rfl | rfl | rfl | rfl | rfl | rfl
    · obtain ⟨s, hs, _⟩ := hstr (Or.inl rfl)
      simp +decide [UnionRequest.decodeMember, hf, hs, JSONLib.unmarshalString,
        UnionRequest.ofMembers, lookup_append_single, hnone, JSONLib.stringOf]
    · rcases hid rfl with ⟨n, hs, h1, h2, _⟩ | ⟨s, hs, _⟩
      · have hv : v ≠ nullBytes := by
          intro h
          rw [h, hnull] at hs
          cases hs
        have hu := intString_unmarshal_int lib v n hv hs h1 h2
        simp +decide [UnionRequest.decodeMember, hf, hs, hu, UnionRequest.ofMembers,
          lookup_append_single, hnone, JSONLib.idOf]
      · have hv : v ≠ nullBytes := by
          intro h
          rw [h, hnull] at hs
          cases hs
        have hu := intString_unmarshal_string lib v s hv hs
        simp +decide [UnionRequest.decodeMember, hf, hs, hu, UnionRequest.ofMembers,
          lookup_append_single, hnone, JSONLib.idOf]
    · obtain ⟨s, hs, _⟩ := hstr (Or.inr rfl)
      simp +decide [UnionRequest.decodeMember, hf, hs, JSONLib.unmarshalString,
        UnionRequest.ofMembers, lookup_append_single, hnone, JSONLib.stringOf]
    · simp +decide [UnionRequest.decodeMember, hf, UnionRequest.ofMembers,
        lookup_append_single, hnone]
    · simp +decide [UnionRequest.decodeMember, hf, UnionRequest.ofMembers,
        lookup_append_single, hnone]
    · obtain ⟨es, hs, ⟨hen, _, _, hep⟩, _⟩ := herr rfl
      have he := decodeError_foldl lib none es hen hep
      simp +decide [UnionRequest.decodeMember, hf, JSONRPCError.decodeInto, hs, he,
        UnionRequest.ofMembers, lookup_append_single, hnone, JSONLib.errorOf]

theorem filterMap_cons_toList {α β : Type} (g : α → Option β) (a : α) (l : List α) :
    (a :: l).filterMap g = (g a).toList ++ l.filterMap g := by
  cases h : g a <;> simp [List.filterMap_cons, h]

theorem lookup_isSome_of_mem (ms : List (String × Bytes)) (name : String)
    (hn : (ms.map Prod.fst).Nodup) (h : name ∈ ms.map Prod.fst) :
    ∃ v, ms.lookup name = some v ∧ (name, v) ∈ ms := by
  obtain ⟨⟨k, v⟩, hm, hk⟩ := List.mem_map.mp h
  simp only at hk
  subst hk
  exact ⟨v, lookup_of_mem ms k v hn hm, hm⟩

/-- The members written for the message that plain members hold. -/
theorem members_ofMembers (lib : JSONLib) (fields : List String)
    (ms : List (String × Bytes)) (hp : PlainMessage lib fields ms) :
    (UnionRequest.ofMembers lib ms).members lib = .ok (lib.writtenMembers ms) := by
  obtain ⟨hn, hj, hp⟩ := hp
  obtain ⟨vj, hvj, _⟩ := lookup_isSome_of_mem ms "jsonrpc" hn hj
  have hid : IntString.member lib ((ms.lookup "id").map lib.idOf) =
      .ok ((ms.lookup "id").map (fun v => ("id", lib.written "id" v))).toList := by
    cases h : ms.lookup "id" with
    | none => rfl
    | some v =>
      obtain ⟨_, _, hid, _, _⟩ := hp ("id", v) (mem_of_lookup ms "id" v h)
      rcases hid rfl with ⟨n, hs, _⟩ | ⟨s, hs, _⟩
      · simp +decide [IntString.member, JSONLib.idOf, hs, IntString.MarshalJSON, JSONLib.written]
      · simp +decide [IntString.member, JSONLib.idOf, hs, IntString.MarshalJSON, JSONLib.written]
  have hparams : lib.rawMember "params" (ms.lookup "params") =
      .ok ((ms.lookup "params").map (fun v => ("params", lib.written "params" v))).toList := by
    cases h : ms.lookup "params" with
    | none => rfl
    | some v =>
      obtain ⟨_, _, _, hraw, _⟩ := hp ("params", v) (mem_of_lookup ms "params" v h)
      obtain ⟨hv, c, hc, _⟩ := hraw (Or.inl rfl)
      simp +decide [JSONLib.rawMember, hv, hc, JSONLib.written]
  have hresult : lib.rawMember "result" (ms.lookup "result") =
      .ok ((ms.lookup "result").map (fun v => ("result", lib.written "result" v))).toList := by
    cases h : ms.lookup "result" with
    | none => rfl
    | some v =>
      obtain ⟨_, _, _, hraw, _⟩ := hp ("result", v) (mem_of_lookup ms "result" v h)
      obtain ⟨hv, c, hc, _⟩ := hraw (Or.inr rfl)
      simp +decide [JSONLib.rawMember, hv, hc, JSONLib.written]
  have hmethod : (match (ms.lookup "method").map lib.stringOf with
      | none => []
      | some m => [("method", lib.marshalString m)]) =
      ((ms.lookup "method").map (fun v => ("method", lib.written "method" v))).toList := by
    cases h : ms.lookup "method" <;> simp +decide [JSONLib.written]
  have herror : JSONRPCError.member lib ((ms.lookup "error").map lib.errorOf) =
      ((ms.lookup "error").map (fun v => ("error", lib.written "error" v))).toList := by
    cases h : ms.lookup "error" <;> simp +decide [JSONRPCError.member, JSONLib.written]
  simp only [UnionRequest.members, UnionRequest.ofMembers, hid, hparams, hresult, hmethod,
    herror, JSONLib.writtenMembers, unionFields, filterMap_cons_toList, List.filterMap_nil,
    List.append_nil, hvj]
  simp +decide [JSONLib.written]

/-- The encoding of the error object that a plain error object holds is equal to
it. -/
theorem jsonEq_error (lib : JSONLib) (v : Bytes) (es : List (String × Bytes))
    (hs : lib.shape v = some (.object es)) (hp : PlainError lib es)
    (hlaw : lib.shape (lib.objectText ((JSONRPCError.ofMembers lib es).members lib)) =
      some (.object ((JSONRPCError.ofMembers lib es).members lib))) :
    JSONEq lib v (lib.objectText ((JSONRPCError.ofMembers lib es).members lib)) := by
  obtain ⟨hn, hc, hm, hp⟩ := hp
  obtain ⟨vc, hvc, hcm⟩ := lookup_isSome_of_mem es "code" hn hc
  obtain ⟨vm, hvm, hmm⟩ := lookup_isSome_of_mem es "message" hn hm
  obtain ⟨_, hcode, _, _⟩ := hp ("code", vc) hcm
  obtain ⟨_, _, hmsg, _⟩ := hp ("message", vm) hmm
  obtain ⟨n, hsn, _, _, hln⟩ := hcode rfl
  obtain ⟨s, hss, hls⟩ := hmsg rfl
  have hmem : ∀ (name : String) (w : Bytes),
      (name, w) ∈ (JSONRPCError.ofMembers lib es).members lib ↔
        (name = "code" ∧ w = lib.marshalInt n) ∨ (name = "message" ∧ w = lib.marshalString s) ∨
          (name = "data" ∧ ∃ d, es.lookup "data" = some d ∧ w = lib.anyText d) := by
    intro name w
    cases hd : es.lookup "data" <;>
      simp [JSONRPCError.members, JSONRPCError.ofMembers, hvc, hvm, hd, JSONLib.intOf, hsn,
        JSONLib.stringOf, hss]
  refine JSONEq.object es _ hs hlaw ?_ ?_
  · intro name
    constructor
    · intro h
      obtain ⟨x, hx, hxm⟩ := lookup_isSome_of_mem es name hn h
      obtain ⟨hk, _⟩ := hp (name, x) hxm
      simp only [errorFields, List.mem_cons, List.mem_singleton, List.not_mem_nil, or_false] at hk
      rcases hk with rfl | rfl | rfl
      · exact List.mem_map.mpr ⟨("code", lib.marshalInt n), (hmem _ _).mpr (Or.inl ⟨rfl, rfl⟩), rfl⟩
      · exact List.mem_map.mpr
          ⟨("message", lib.marshalString s), (hmem _ _).mpr (Or.inr (Or.inl ⟨rfl, rfl⟩)), rfl⟩
      · exact List.mem_map.mpr
          ⟨("data", lib.anyText x), (hmem _ _).mpr (Or.inr (Or.inr ⟨rfl, x, hx, rfl⟩)), rfl⟩
    · intro h
      obtain ⟨⟨k, w⟩, hkw, hk⟩ := List.mem_map.mp h
      simp only at hk
      subst hk
      rcases (hmem k w).mp hkw with ⟨rfl, _⟩ | ⟨rfl, _⟩ | ⟨rfl, d, hd, _⟩
      · exact hc
      · exact hm
      · exact List.mem_map.mpr ⟨("data", d), mem_of_lookup es "data" d hd, rfl⟩
  · intro name x w hx hw
    have hlx := lookup_of_mem es name x hn hx
    rcases (hmem name w).mp hw with ⟨rfl, rfl⟩ | ⟨rfl, rfl⟩ | ⟨rfl, d, hd, rfl⟩
    · rw [hvc] at hlx
      cases hlx
      exact JSONEq.number (.int n) (.int n) n hsn hln rfl rfl
    · rw [hvm] at hlx
      cases hlx
      exact JSONEq.string s hss hls
    · rw [hd] at hlx
      cases hlx
      obtain ⟨_, _, _, hdata⟩ := hp ("data", x) hx
      exact (hdata rfl).2

/-- The text written for a plain member is equal to the text it was read from. -/
theorem jsonEq_written (lib : JSONLib) (fields : List String)
    (hsub : ∀ f ∈ fields, f ∈ unionFields) (k : String) (v : Bytes)
    (hm : PlainMember lib fields (k, v)) : JSONEq lib v (lib.written k v) := by
  obtain ⟨hk, hstr, hid, hraw, herr⟩ := hm
  have hk' := hsub k hk
  simp only [unionFields, List.mem_cons, List.mem_singleton, List.not_mem_nil, or_false] at hk'
  rcases hk' with rfl | rfl | rfl | rfl | rfl | rfl
  · obtain ⟨s, hs, hl⟩ := hstr (Or.inl rfl)
    have hw : lib.written "jsonrpc" v = lib.marshalString s := by
      simp +decide [JSONLib.written, JSONLib.stringOf, hs]
    rw [hw]
    exact JSONEq.string s hs hl
  · rcases hid rfl with ⟨n, hs, _, _, hl⟩ | ⟨s, hs, hl⟩
    · have hw : lib.written "id" v = lib.marshalInt n := by
        simp +decide [JSONLib.written, JSONLib.idOf, hs]
      rw [hw]
      exact JSONEq.number (.int n) (.int n) n hs hl rfl rfl
    · have hw : lib.written "id" v = lib.marshalString s := by
        simp +decide [JSONLib.written, JSONLib.idOf, hs]
      rw [hw]
      exact JSONEq.string s hs hl
  · obtain ⟨s, hs, hl⟩ := hstr (Or.inr rfl)
    have hw : lib.written "method" v = lib.marshalString s := by
      simp +decide [JSONLib.written, JSONLib.stringOf, hs]
    rw [hw]
    exact JSONEq.string s hs hl
  · obtain ⟨_, c, hc, heq⟩ := hraw (Or.inl rfl)
    have hw : lib.written "params" v = c := by
      simp +decide [JSONLib.written, hc]
    rw [hw]
    exact heq
  · obtain ⟨_, c, hc, heq⟩ := hraw (Or.inr rfl)
    have hw : lib.written "result" v = c := by
      simp +decide [JSONLib.written, hc]
    rw [hw]
    exact heq
  · obtain ⟨es, hs, hpe, hl⟩ := herr rfl
    have hw : lib.written "error" v =
        lib.objectText ((JSONRPCError.ofMembers lib es).members lib) := by
      simp +decide [JSONLib.written, JSONLib.errorOf, hs]
    rw [hw]
    exact jsonEq_error lib v es hs hpe hl

theorem mem_writtenMembers (lib : JSONLib) (ms : List (String × Bytes)) (name : String)
    (w : Bytes) :
    (name, w) ∈ lib.writtenMembers ms ↔
      name ∈ unionFields ∧ ∃ v, ms.lookup name = some v ∧ w = lib.written name v := by
  simp only [JSONLib.writtenMembers, List.mem_filterMap, Option.map_eq_some', Prod.mk.injEq]
  constructor
  · rintro ⟨f, hf, v, hv, rfl, rfl⟩
    exact ⟨hf, v, hv, rfl⟩
  · rintro ⟨hf, v, hv, rfl⟩
    exact ⟨name, hf, v, hv, rfl, rfl⟩

/-- The text written for the message that a plain message holds is equal to it. -/
theorem jsonEq_message (lib : JSONLib) (fields : List String)
    (hsub : ∀ f ∈ fields, f ∈ unionFields) (data : Bytes) (ms : List (String × Bytes))
    (hs : lib.shape data = some (.object ms)) (hp : PlainMessage lib fields ms)
    (hlaw : lib.shape (lib.objectText (lib.writtenMembers ms)) =
      some (.object (lib.writtenMembers ms))) :
    JSONEq lib data (lib.objectText (lib.writtenMembers ms)) := by
  obtain ⟨hn, _, hp⟩ := hp
  refine JSONEq.object ms _ hs hlaw ?_ ?_
  · intro name
    constructor
    · intro h
      obtain ⟨x, hx, hxm⟩ := lookup_isSome_of_mem ms name hn h
      obtain ⟨hk, _⟩ := hp (name, x) hxm
      exact List.mem_map.mpr
        ⟨(name, lib.written name x),
          (mem_writtenMembers lib ms name _).mpr ⟨hsub name hk, x, hx, rfl⟩, rfl⟩
    · intro h
      obtain ⟨⟨k, w⟩, hkw, hk⟩ := List.mem_map.mp h
      simp only at hk
      subst hk
      obtain ⟨_, v, hv, _⟩ := (mem_writtenMembers lib ms k w).mp hkw
      exact List.mem_map.mpr ⟨(k, v), mem_of_lookup ms k v hv, rfl⟩
  · intro name x w hx hw
    obtain ⟨_, v, hv, rfl⟩ := (mem_writtenMembers lib ms name w).mp hw
    rw [lookup_of_mem ms name x hn hx] at hv
    cases hv
    exact jsonEq_written lib fields hsub name x (hp (name, x) hx)

theorem rewritten_eq (lib : JSONLib) (raw : Bytes) (ms : List (String × Bytes))
    (hs : lib.shape raw = some (.object ms)) :
    lib.rewritten raw = lib.objectText (lib.writtenMembers ms) := by
  simp [JSONLib.rewritten, JSONLib.membersOf, hs]

/-- A plain text is decoded as a `UnionRequest`, which is encoded as the text
written for it. -/
theorem union_reads_writes (lib : JSONLib) (hnull : lib.shape nullBytes = some .null)
    (raw : Bytes) (h : PlainText lib unionFields raw) :
    ∃ t, (unionDecoder lib).unmarshal raw = .ok t ∧
      (unionEncoder lib).marshal t = .ok (lib.rewritten raw) := by
  obtain ⟨ms, hs, hp, _⟩ := h
  refine ⟨UnionRequest.ofMembers lib ms, ?_, ?_⟩
  · have hd := decodeMembers_plain lib hnull unionFields (fun f hf => hf) ms hp.1 hp.2.2
    simp [unionDecoder, UnionRequest.Unmarshal, UnionRequest.decodeWith, hs, hd]
  · simp [unionEncoder, UnionRequest.Marshal, members_ofMembers lib unionFields ms hp,
      rewritten_eq lib raw ms hs]

theorem response_members_toResponse (lib : JSONLib) (u : UnionRequest)
    (hm : u.Method = none) (hp : u.Params = none) :
    Response.members lib u.toResponse = u.members lib := by
  have hparams : lib.rawMember "params" none = .ok [] := rfl
  simp only [Response.members, UnionRequest.members, UnionRequest.toResponse, hm, hp, hparams]
  cases IntString.member lib u.ID <;> cases lib.rawMember "result" u.Result <;> simp

theorem responseFields_sub : ∀ f ∈ responseFields, f ∈ unionFields := by
  decide

/-- A plain text is decoded as a `Response`, which is encoded as the text written
for it. -/
theorem response_reads_writes (lib : JSONLib) (hnull : lib.shape nullBytes = some .null)
    (raw : Bytes) (h : PlainText lib responseFields raw) :
    ∃ t, (responseDecoder lib).unmarshal raw = .ok t ∧
      (responseEncoder lib).marshal t = .ok (lib.rewritten raw) := by
  obtain ⟨ms, hs, hp, _⟩ := h
  have hno : ∀ name : String, name ∉ responseFields → ms.lookup name = none := by
    intro name hname
    refine lookup_eq_none ms name (fun hmem => ?_)
    obtain ⟨⟨k, v⟩, hkv, hk⟩ := List.mem_map.mp hmem
    simp only at hk
    subst hk
    exact hname (hp.2.2 (k, v) hkv).1
  refine ⟨(UnionRequest.ofMembers lib ms).toResponse, ?_, ?_⟩
  · have hd := decodeMembers_plain lib hnull responseFields responseFields_sub ms hp.1 hp.2.2
    simp [responseDecoder, Response.Unmarshal, UnionRequest.decodeWith, hs, hd]
  · have hm : (UnionRequest.ofMembers lib ms).Method = none := by
      simp [UnionRequest.ofMembers, hno "method" (by decide)]
    have hpa : (UnionRequest.ofMembers lib ms).Params = none := by
      simp [UnionRequest.ofMembers, hno "params" (by decide)]
    simp [responseEncoder, Response.Marshal, response_members_toResponse lib _ hm hpa,
      members_ofMembers lib responseFields ms hp, rewritten_eq lib raw ms hs]

theorem jsonEq_rewritten (lib : JSONLib) (fields : List String)
    (hsub : ∀ f ∈ fields, f ∈ unionFields) (raw : Bytes) (h : PlainText lib fields raw) :
    JSONEq lib raw (lib.rewritten raw) := by
  obtain ⟨ms, hs, hp, hlaw⟩ := h
  rw [rewritten_eq lib raw ms hs]
  exact jsonEq_message lib fields hsub raw ms hs hp hlaw

/-- The elements of a plain batch are decoded, and the decoded values are encoded
as the texts written for the elements. -/
theorem exists_items {T : Type} (lib : JSONLib) (fields : List String) (dec : JSONDecoder T)
    (enc : JSONEncoder T)
    (hcodec : ∀ raw, PlainText lib fields raw →
      ∃ t, dec.unmarshal raw = .ok t ∧ enc.marshal t = .ok (lib.rewritten raw))
    (raws : List Bytes)
    (h : ∀ raw ∈ raws, checkForEmptyOrNullData raw = none ∧ PlainText lib fields raw) :
    ∃ ts, List.Forall₂ (DecodesTo dec) raws ts ∧
      List.Forall₂ (fun x e => enc.marshal x = .ok e) ts (raws.map lib.rewritten) := by
  induction raws with
  | nil => exact ⟨[], List.Forall₂.nil, List.Forall₂.nil⟩
  | cons raw rest ih =>
    obtain ⟨ts, h1, h2⟩ := ih (fun r hr => h r (List.mem_cons_of_mem _ hr))
    obtain ⟨hc, hp⟩ := h raw (List.mem_cons_self _ _)
    obtain ⟨t, ht, he⟩ := hcodec raw hp
    exact ⟨t :: ts, List.Forall₂.cons ⟨hc, ht⟩ h1, List.Forall₂.cons he h2⟩

/-- A plain message, or a batch of plain messages, is accepted by batch decode,
and the encoding of the decoded value is equal to it. -/
theorem reencode_of_plain {T : Type} (lib : JSONLib) (fields : List String)
    (hsub : ∀ f ∈ fields, f ∈ unionFields) (dec : JSONDecoder T) (enc : JSONEncoder T)
    (hraw : dec.unmarshalRaw = lib.unmarshalRaw)
    (hcodec : ∀ raw, PlainText lib fields raw →
      ∃ t, dec.unmarshal raw = .ok t ∧ enc.marshal t = .ok (lib.rewritten raw))
    (data : Bytes) (hc : checkForEmptyOrNullData data = none)
    (htrim : lib.shape (TrimSpace data) = lib.shape data)
    (h : PlainText lib fields data ∨ PlainBatch lib fields data) :
    ∃ b out, (∀ m : BatchItem T, BatchItem.UnmarshalJSON dec m data = (none, b)) ∧
      b.MarshalJSON enc = .ok out ∧ JSONEq lib data out := by
  rcases h with hp | ⟨raws, hs, hall, hlaw⟩
  · have hp' : PlainText lib fields (TrimSpace data) := by
      obtain ⟨ms, hs, hm, hl⟩ := hp
      exact ⟨ms, htrim.trans hs, hm, hl⟩
    obtain ⟨t, ht, he⟩ := hcodec (TrimSpace data) hp'
    obtain ⟨ms, hs, _, _⟩ := hp
    have hrw : lib.rewritten (TrimSpace data) = lib.rewritten data := by
      rw [rewritten_eq lib _ ms (htrim.trans hs), rewritten_eq lib _ ms hs]
    have hr : dec.unmarshalRaw (TrimSpace data) =
        .error "json: cannot unmarshal value into Go value of type []json.RawMessage" := by
      simp [hraw, JSONLib.unmarshalRaw, htrim, hs]
    refine ⟨⟨false, [t]⟩, lib.rewritten data, fun m => ?_, ?_, ?_⟩
    · simp only [BatchItem.UnmarshalJSON, unmarshalBatchItem, hc, hr, ht, List.nil_append]
    · simp [BatchItem.MarshalJSON, marshalBatchItem, he, hrw]
    · exact jsonEq_rewritten lib fields hsub data ⟨ms, hs, by assumption, by assumption⟩
  · obtain ⟨ts, h1, h2⟩ := exists_items lib fields dec enc hcodec raws hall
    have hr : dec.unmarshalRaw (TrimSpace data) = .ok raws := by
      simp [hraw, JSONLib.unmarshalRaw, htrim, hs]
    refine ⟨⟨true, ts⟩, arrayText (raws.map lib.rewritten), fun m => ?_, ?_, ?_⟩
    · simp only [BatchItem.UnmarshalJSON, unmarshalBatchItem, hc, hr,
        unmarshalBatchLoop_ok dec raws ts [] h1, List.nil_append]
    · simp [BatchItem.MarshalJSON, marshalBatchItem, marshalSlice,
        marshalItems_ok enc ts _ h2]
    · refine JSONEq.array raws (raws.map lib.rewritten) hs hlaw (by simp) ?_
      intro i v w hv hw
      rw [List.getElem?_map, hv] at hw
      cases hw
      exact jsonEq_rewritten lib fields hsub v (hall v (List.getElem?_mem hv)).2

/-- C12, amended: a text that batch decode does not reject as empty or null, that
holds the same value once trimmed, and that holds a plain message or an array of
plain messages (objects whose members are fields of the item type, each at most
once and under its exact name, with `jsonrpc` present, no member null but
`params` and `result`, and values of the types of the fields) is accepted by
batch decode, as a `BatchItem` of `UnionRequest` and as a `BatchItem` of
`Response`, and the encoding of the decoded value is semantically equal to it.
The facts of `encoding/json` used are part of the hypotheses: the text `null`
holds null, and the texts written hold what was written. -/
theorem decode_encode_equal (lib : JSONLib) (hnull : lib.shape nullBytes = some .null)
    (data : Bytes) (hc : checkForEmptyOrNullData data = none)
    (htrim : lib.shape (TrimSpace data) = lib.shape data) :
    (PlainText lib unionFields data ∨ PlainBatch lib unionFields data →
      (∃ b, BatchItem.UnmarshalJSON (unionDecoder lib) ⟨false, []⟩ data = (none, b)) ∧
        ReencodesEqual lib (unionDecoder lib) (unionEncoder lib) data) ∧
    (PlainText lib responseFields data ∨ PlainBatch lib responseFields data →
      (∃ b, BatchItem.UnmarshalJSON (responseDecoder lib) ⟨false, []⟩ data = (none, b)) ∧
        ReencodesEqual lib (responseDecoder lib) (responseEncoder lib) data) := by
  constructor
  · intro h
    obtain ⟨b, out, hdec, henc, heq⟩ :=
      reencode_of_plain lib unionFields (fun f hf => hf) (unionDecoder lib) (unionEncoder lib)
        rfl (union_reads_writes lib hnull) data hc htrim h
    refine ⟨⟨b, hdec _⟩, fun b' hb' => ?_⟩
    rw [hdec] at hb'
    cases hb'
    exact ⟨out, henc, heq⟩
  · intro h
    obtain ⟨b, out, hdec, henc, heq⟩ :=
      reencode_of_plain lib responseFields responseFields_sub (responseDecoder lib)
        (responseEncoder lib) rfl (response_reads_writes lib hnull) data hc htrim h
    refine ⟨⟨b, hdec _⟩, fun b' hb' => ?_⟩
    rw [hdec] at hb'
    cases hb'
    exact ⟨out, henc, heq⟩

theorem sampleSpaced_plain : PlainText sampleLib unionFields sampleSpaced := by
  refine ⟨[("id", ascii "1"), ("method", ascii "\"echo\""), ("jsonrpc", ascii "\"2.0\"")],
    by decide, ⟨by decide, by decide, ?_⟩, by decide⟩
  intro m hm
  simp only [List.mem_cons, List.mem_singleton, List.not_mem_nil, or_false] at hm
  unfold PlainMember
  rcases hm with rfl | rfl | rfl
  · exact ⟨by decide, fun h => absurd h (by decide),
      fun _ => Or.inl ⟨1, by decide, by decide, by decide, by decide⟩,
      fun h => absurd h (by decide), fun h => absurd h (by decide)⟩
  · exact ⟨by decide, fun _ => ⟨"echo", by decide, by decide⟩, fun h => absurd h (by decide),
      fun h => absurd h (by decide), fun h => absurd h (by decide)⟩
  · exact ⟨by decide, fun _ => ⟨"2.0", by decide, by decide⟩, fun h => absurd h (by decide),
      fun h => absurd h (by decide), fun h => absurd h (by decide)⟩

theorem decode_encode_equal_witness :
    (∃ b, BatchItem.UnmarshalJSON (unionDecoder sampleLib) ⟨false, []⟩ sampleSpaced = (none, b)) ∧
      ReencodesEqual sampleLib (unionDecoder sampleLib) (unionEncoder sampleLib) sampleSpaced :=
  (decode_encode_equal sampleLib (by decide) sampleSpaced (by decide) (by decide)).1
    (Or.inl sampleSpaced_plain)

/-! ## Request ids that hold neither an int nor a string -/

/-- C30: an `IntString` whose `Value` is neither an int nor a string is not
encoded: `MarshalJSON` returns the error "IntString contains unsupported type";
`Equal` is false between it and every non-nil `IntString`, on either side, itself
included, so that `Equal` is not reflexive on it; and a successful
`UnmarshalJSON` never stores such a value. -/
theorem intString_other_spec (lib : JSONLib) (tag : Nat) :
    IntString.MarshalJSON lib (.other tag) = .error "IntString contains unsupported type" ∧
      (∀ x : IntString, IntString.Equal (some (.other tag)) (some x) = false ∧
        IntString.Equal (some x) (some (.other tag)) = false) ∧
      IntString.Equal (some (.other tag)) (some (.other tag)) = false ∧
      (∀ (data : Bytes) (v : IntString), IntString.UnmarshalJSON lib data = .ok v →
        (∃ n, v = .int n) ∨ (∃ s, v = .string s)) := by
  refine ⟨rfl, ?_, rfl, ?_⟩
  · intro x
    cases x <;> exact ⟨rfl, rfl⟩
  · intro data v h
    obtain ⟨_, h0 | ⟨n, _, _, _, hv⟩ | ⟨s, _, hv⟩⟩ := intString_unmarshal_ok lib data v h
    · unfold IntString.UnmarshalJSON at h
      split at h
      · cases h
      · split at h
        · cases h
          exact Or.inl ⟨_, rfl⟩
        · split at h
          · cases h
            exact Or.inr ⟨_, rfl⟩
          · cases h
    · exact Or.inl ⟨n, hv⟩
    · exact Or.inr ⟨s, hv⟩

theorem intString_other_spec_witness :
    (∃ n, IntString.int 1 = .int n) ∨ (∃ s, IntString.int 1 = .string s) :=
  (intString_other_spec sampleLib 0).2.2.2 (ascii "1") (.int 1) rfl

/-! ## Batch decode: what a failure leaves behind -/

/-- C29: batch decode is not atomic. When the data is an array whose elements
before some element decode and that element is empty, null or not decodable,
`unmarshalBatchItem` returns an error of code ParseError after it has set
`isBatch` to true and appended the decoded values of the elements before it, in
order, to `items` (through `UnmarshalJSON`, which starts from no items, the
receiver holds exactly these). When the data is rejected before any element is
processed, as empty or null data or as a single value that does not decode,
`isBatch` and `items` are left as they were. -/
theorem unmarshalBatchItem_notAtomic {T : Type} (dec : JSONDecoder T) (data : Bytes)
    (isBatch : Bool) (items : List T) :
    (∀ (pre : List Bytes) (ts : List T) (msg : Bytes) (rest : List Bytes),
      checkForEmptyOrNullData data = none →
      dec.unmarshalRaw (TrimSpace data) = .ok (pre ++ msg :: rest) →
      List.Forall₂ (DecodesTo dec) pre ts → (∀ t, ¬ DecodesTo dec msg t) →
      ∃ e, unmarshalBatchItem dec data isBatch items = ⟨some e, true, items ++ ts⟩ ∧
        e.Code = ParseError ∧ ts.length = pre.length ∧
        ∀ m : BatchItem T, BatchItem.UnmarshalJSON dec m data = (some e, ⟨true, ts⟩)) ∧
    (∀ e, checkForEmptyOrNullData data = some e →
      unmarshalBatchItem dec data isBatch items = ⟨some e, isBatch, items⟩) ∧
    (∀ e₀ e, checkForEmptyOrNullData data = none →
      dec.unmarshalRaw (TrimSpace data) = .error e₀ →
      dec.unmarshal (TrimSpace data) = .error e →
      unmarshalBatchItem dec data isBatch items =
        ⟨some { Code := ParseError
                Message := GetDefaultErrorMessage ParseError ++
                  ": Failed to unmarshal single item: " ++ e }, isBatch, items⟩) := by
  refine ⟨?_, ?_, ?_⟩
  · intro pre ts msg rest hc hraw hpre hbad
    have hstop : ∀ its : List T, ∃ e, unmarshalBatchLoop dec (pre ++ msg :: rest) its =
        (some e, its ++ ts) := by
      intro its
      rw [unmarshalBatchLoop_stop dec pre ts msg rest its hpre]
      cases hcm : checkForEmptyOrNullData msg with
      | some err => exact ⟨err, rfl⟩
      | none =>
        cases hu : dec.unmarshal msg with
        | error e => exact ⟨_, rfl⟩
        | ok item => exact absurd ⟨hcm, hu⟩ (hbad item)
    obtain ⟨e, he⟩ := hstop items
    obtain ⟨e', he'⟩ := hstop []
    have hee : e' = e := by
      have h1 := unmarshalBatchLoop_stop dec pre ts msg rest items hpre
      have h2 := unmarshalBatchLoop_stop dec pre ts msg rest [] hpre
      rw [he] at h1
      rw [he'] at h2
      cases hcm : checkForEmptyOrNullData msg with
      | some err =>
        rw [hcm] at h1 h2
        simp only [Prod.mk.injEq, Option.some.injEq] at h1 h2
        rw [h1.1, h2.1]
      | none =>
        cases hu : dec.unmarshal msg with
        | error e₁ =>
          rw [hcm, hu] at h1 h2
          simp only [Prod.mk.injEq, Option.some.injEq] at h1 h2
          rw [h1.1, h2.1]
        | ok item => exact absurd ⟨hcm, hu⟩ (hbad item)
    subst hee
    refine ⟨e', ?_, ?_, (List.Forall₂.length_eq hpre).symm, fun m => ?_⟩
    · simp only [unmarshalBatchItem, hc, hraw, he]
    · exact unmarshalBatchLoop_code dec (pre ++ msg :: rest) items e' (by rw [he])
    · simp only [BatchItem.UnmarshalJSON, unmarshalBatchItem, hc, hraw, he', List.nil_append]
  · intro e hc
    simp only [unmarshalBatchItem, hc]
  · intro e₀ e hc hraw hu
    simp only [unmarshalBatchItem, hc, hraw, hu]

theorem unmarshalBatchItem_notAtomic_witness :
    ∃ e, unmarshalBatchItem sampleDecoder [91, 49, 44, 120, 93] false [7] =
        ⟨some e, true, [7] ++ [1]⟩ ∧
      e.Code = ParseError ∧ [1].length = [[49]].length ∧
      ∀ m : BatchItem Nat,
        BatchItem.UnmarshalJSON sampleDecoder m [91, 49, 44, 120, 93] = (some e, ⟨true, [1]⟩) :=
  (unmarshalBatchItem_notAtomic sampleDecoder [91, 49, 44, 120, 93] false [7]).1 [[49]] [1] [120] []
    (by decide) rfl (List.Forall₂.cons ⟨by decide, rfl⟩ List.Forall₂.nil)
    (fun t h => by
      have h2 : sampleDecoder.unmarshal [120] =
          .error "invalid character 'x' looking for beginning of value" := rfl
      rw [h.2] at h2
      cases h2)

/-! ## Nil method pointers -/

theorem detect_method_isSome (u : UnionRequest)
    (h : (detectMessageType u).1 = .Method ∨ (detectMessageType u).1 = .Notification) :
    u.Method.isSome = true := by
  obtain ⟨v, id, method, params, result, error⟩ := u
  by_cases hv : v = "2.0"
  · subst hv
    cases method <;> cases result <;> cases error <;> cases id <;>
      simp [detectMessageType] at h ⊢
  · simp [detectMessageType, hv] at h

/-- C28: `Handle` never dereferences a nil method pointer. The classifier returns
Method or Notification only for an item whose method is present;
`handleNotification` panics exactly when the method is nil, and `handleMethod`
only when the method or the id is nil; and every iteration of the loop, and
`Handle` itself, returns for every configuration, every input and every state. -/
theorem handle_no_nil_method {σ : Type} (brh : BatchRequestHandler σ) (ctx : Context) :
    (∀ u : UnionRequest,
      (detectMessageType u).1 = .Method ∨ (detectMessageType u).1 = .Notification →
      u.Method.isSome = true) ∧
    (∀ (u : UnionRequest) (notificationMap : String → Option (INotificationHandler σ)) (s : σ),
      handleNotification ctx u notificationMap s = none ↔ u.Method = none) ∧
    (∀ (u : UnionRequest) (methodMap : String → Option (IMethodHandler σ)) (s : σ),
      handleMethod ctx u methodMap s = none → u.Method = none ∨ u.ID = none) ∧
    (∀ (u : UnionRequest) (acc : List Response) (s : σ), ∃ r, handleItem brh ctx u acc s = some r) ∧
    (∀ (metaReq : Option BatchRequest) (s : σ), ∃ r, brh.Handle ctx metaReq s = some r) := by
  refine ⟨detect_method_isSome, ?_, ?_, ?_, ?_⟩
  · intro u nm s
    cases hm : u.Method with
    | none => simp [handleNotification, hm]
    | some method =>
      simp only [handleNotification, hm]
      cases nm method <;> simp
  · intro u mm s h
    cases hm : u.Method with
    | none => exact Or.inl rfl
    | some method =>
      cases hid : u.ID with
      | none => exact Or.inr rfl
      | some id =>
        simp only [handleMethod, hm, hid] at h
        cases hh : mm method with
        | none => simp [hh] at h
        | some handler => simp [hh] at h
  · intro u acc s
    obtain ⟨out, s', h, _⟩ := handleItem_spec brh ctx u acc s
    exact ⟨_, h⟩
  · intro metaReq s
    cases metaReq with
    | none => exact ⟨_, rfl⟩
    | some req =>
      obtain ⟨body⟩ := req
      cases body with
      | none => exact ⟨_, rfl⟩
      | some body =>
        by_cases hne : body.Items = []
        · obtain ⟨isBatch, items⟩ := body
          simp only at hne
          subst hne
          exact ⟨_, rfl⟩
        · obtain ⟨out, s', _, _, h⟩ := handle_nonempty brh ctx body s hne
          exact ⟨_, h⟩

theorem handle_no_nil_method_witness : sampleCall.Method.isSome = true :=
  (handle_no_nil_method sampleHandler []).1 sampleCall (Or.inl (by decide))

/-! ## Reading the per-call context -/

/-- C25: on the context that `contextWithRequestInfo` derives from a parent
context, a method name, a message type and an optional request id,
`GetMethodName` returns the method name, `GetMessageType` returns the message
type and, when the request id is present, `GetRequestID` returns it, whatever the
parent context carried under these keys. -/
theorem contextWithRequestInfo_getters (parent : Context) (methodName : String)
    (msgType : MessageType) (requestID : Option RequestID) :
    GetMethodName (contextWithRequestInfo parent methodName msgType requestID) = some methodName ∧
      GetMessageType (contextWithRequestInfo parent methodName msgType requestID) = some msgType ∧
      ∀ id, requestID = some id →
        GetRequestID (contextWithRequestInfo parent methodName msgType requestID) = some id := by
  have h1 : (ctxKeyMethodName == ctxKeyMessageType) = false := by decide
  have h2 : (ctxKeyMethodName == ctxKeyRequestID) = false := by decide
  have h3 : (ctxKeyMessageType == ctxKeyRequestID) = false := by decide
  refine ⟨?_, ?_, ?_⟩
  · cases requestID <;>
      simp [GetMethodName, Context.Value, contextWithRequestInfo, Context.WithValue,
        List.lookup_cons, h1, h2]
  · cases requestID <;>
      simp [GetMessageType, Context.Value, contextWithRequestInfo, Context.WithValue,
        List.lookup_cons, h3]
  · rintro id rfl
    simp [GetRequestID, Context.Value, contextWithRequestInfo, Context.WithValue,
      List.lookup_cons]

theorem contextWithRequestInfo_getters_witness :
    GetRequestID (contextWithRequestInfo sampleParentContext "echo" .Method (some (.int 1))) =
      some (.int 1) :=
  (contextWithRequestInfo_getters sampleParentContext "echo" .Method (some (.int 1))).2.2
    (.int 1) rfl

/-! ## Response handlers -/

/-- C21: `ResponseHandler.Handle` calls the user function with exactly one of its
two arguments non-nil. When the response carries an error the user function is
called with the nil result and that error, and the outcome does not depend on
the decoder: the result is not decoded. Otherwise the result is decoded, and the
user function is called with the pointer to the decoded value and the nil error;
when the decoding fails the decode error is returned, the state is as it was and
the outcome does not depend on the user function: it is not called. -/
theorem responseHandler_handle_spec {σ T : Type} (r : ResponseHandler σ T) (d : Decoder T)
    (ctx : Context) (resp : Response) (s : σ) :
    (∀ e, resp.Error = some e →
      r.Handle d ctx resp s = r.Endpoint ctx none (some e) s ∧
        ∀ d' : Decoder T, r.Handle d' ctx resp s = r.Handle d ctx resp s) ∧
    (∀ result, resp.Error = none → unmarshalData d resp.Result = .ok result →
      r.Handle d ctx resp s = r.Endpoint ctx (some result) none s) ∧
    (∀ err, resp.Error = none → unmarshalData d resp.Result = .error err →
      r.Handle d ctx resp s = (some err, s) ∧
        ∀ r' : ResponseHandler σ T, r'.Handle d ctx resp s = (some err, s)) := by
  refine ⟨?_, ?_, ?_⟩
  · intro e he
    simp [ResponseHandler.Handle, he]
  · intro result he hd
    simp [ResponseHandler.Handle, he, hd]
  · intro err he hd
    simp [ResponseHandler.Handle, he, hd]

theorem responseHandler_handle_spec_witness :
    sampleResponseHandler.Handle (intDecoder sampleLib) []
        ⟨"2.0", some (.int 1), some (ascii "1"), none⟩ 0 =
      sampleResponseHandler.Endpoint [] (some 1) none 0 :=
  (responseHandler_handle_spec sampleResponseHandler (intDecoder sampleLib) []
    ⟨"2.0", some (.int 1), some (ascii "1"), none⟩ 0).2.1 1 rfl rfl

/-! ## Client: the dead-letter queue -/

theorem trySend_capacity {α : Type} (c : Chan α) (x : α) :
    (c.trySend x).capacity = c.capacity := by
  unfold Chan.trySend
  split <;> rfl

theorem trySend_bounded {α : Type} (c : Chan α) (x : α) (h : c.buf.length ≤ c.capacity) :
    (c.trySend x).buf.length ≤ (c.trySend x).capacity := by
  unfold Chan.trySend
  split
  · simp only [List.length_append, List.length_singleton]
    omega
  · exact h

theorem applyOp_bounded (c : Client) (op : DeadLetterOp)
    (h : c.deadLetters.buf.length ≤ c.deadLetters.capacity) :
    (c.applyOp op).deadLetters.capacity = c.deadLetters.capacity ∧
      (c.applyOp op).deadLetters.buf.length ≤ c.deadLetters.capacity := by
  cases op with
  | add item =>
    refine ⟨trySend_capacity _ _, ?_⟩
    have := trySend_bounded c.deadLetters item h
    rw [trySend_capacity] at this
    exact this
  | pop =>
    simp only [Client.applyOp, Client.PopDeadLetter, Chan.tryRecv]
    cases hb : c.deadLetters.buf with
    | nil => simp [hb]
    | cons x rest =>
      rw [hb] at h
      simp only [List.length_cons] at h
      simp only [true_and]
      omega

theorem foldl_applyOp_bounded (ops : List DeadLetterOp) (c : Client)
    (h : c.deadLetters.buf.length ≤ c.deadLetters.capacity) :
    (ops.foldl Client.applyOp c).deadLetters.capacity = c.deadLetters.capacity ∧
      (ops.foldl Client.applyOp c).deadLetters.buf.length ≤ c.deadLetters.capacity := by
  induction ops generalizing c with
  | nil => exact ⟨rfl, h⟩
  | cons op rest ih =>
    obtain ⟨h1, h2⟩ := applyOp_bounded c op h
    have := ih (c.applyOp op) (by rw [h1]; exact h2)
    rw [h1] at this
    exact this

theorem newClient_deadLetters (capacity : Int) :
    ∃ c, NewClient [WithDeadLetterQueue capacity] = some c ∧
      c.deadLetters = Chan.make (max 4096 capacity).toNat := by
  refine ⟨_, rfl, ?_⟩
  simp only [List.foldl_cons, List.foldl_nil, WithDeadLetterQueue]
  by_cases h : capacity < 4096
  · rw [if_pos h, max_eq_left (le_of_lt h)]
  · rw [if_neg h, max_eq_right (not_lt.mp h)]

/-- C23: the dead-letter queue of a client is a FIFO bounded by the greater of
4096 and the capacity given to `WithDeadLetterQueue`, and by 4096 when the option
is not used. Adding an item to a queue that holds fewer items than the bound puts
it at the tail; adding an item to a full queue leaves the client as it was;
`PopDeadLetter` takes the oldest item; and whatever items are added and popped,
the queue never holds more items than the bound. -/
theorem deadLetter_bounded_fifo :
    (∃ c, NewClient [] = some c ∧ c.deadLetters = Chan.make 4096) ∧
    (∀ capacity : Int, ∃ c, NewClient [WithDeadLetterQueue capacity] = some c ∧
      c.deadLetters = Chan.make (max 4096 capacity).toNat) ∧
    (∀ (c : Client) (item : DeadLetterItem),
      c.deadLetters.buf.length < c.deadLetters.capacity →
      (c.addToDeadLetter item).deadLetters =
        ⟨c.deadLetters.capacity, c.deadLetters.buf ++ [item]⟩) ∧
    (∀ (c : Client) (item : DeadLetterItem),
      c.deadLetters.capacity ≤ c.deadLetters.buf.length → c.addToDeadLetter item = c) ∧
    (∀ (c : Client) (item : DeadLetterItem) (rest : List DeadLetterItem),
      c.deadLetters.buf = item :: rest →
      c.PopDeadLetter = (.ok item, { c with deadLetters := ⟨c.deadLetters.capacity, rest⟩ })) ∧
    (∀ (capacity : Int) (c : Client) (ops : List DeadLetterOp),
      NewClient [WithDeadLetterQueue capacity] = some c →
      (ops.foldl Client.applyOp c).deadLetters.buf.length ≤ (max 4096 capacity).toNat) ∧
    (∀ (c : Client) (ops : List DeadLetterOp), NewClient [] = some c →
      (ops.foldl Client.applyOp c).deadLetters.buf.length ≤ 4096) := by
  refine ⟨⟨_, rfl, rfl⟩, newClient_deadLetters, ?_, ?_, ?_, ?_, ?_⟩
  · intro c item h
    simp [Client.addToDeadLetter, Chan.trySend, h]
  · intro c item h
    have h' : ¬ c.deadLetters.buf.length < c.deadLetters.capacity := by omega
    simp [Client.addToDeadLetter, Chan.trySend, h']
  · intro c item rest h
    simp [Client.PopDeadLetter, Chan.tryRecv, h]
  · intro capacity c ops hc
    obtain ⟨c', hc', hq⟩ := newClient_deadLetters capacity
    rw [hc] at hc'
    cases hc'
    have := (foldl_applyOp_bounded ops c (by rw [hq]; simp [Chan.make])).2
    rw [hq] at this
    exact this
  · intro c ops hc
    have hq : c.deadLetters = Chan.make 4096 := by
      have h : NewClient [] = some _ := rfl
      rw [hc] at h
      cases h
      rfl
    have := (foldl_applyOp_bounded ops c (by rw [hq]; simp [Chan.make])).2
    rw [hq] at this
    exact this

theorem deadLetter_bounded_fifo_witness :
    (sampleClient.addToDeadLetter ⟨some (ascii "bad"), "invalid frame"⟩).deadLetters =
      ⟨sampleClient.deadLetters.capacity,
        sampleClient.deadLetters.buf ++ [⟨some (ascii "bad"), "invalid frame"⟩]⟩ :=
  deadLetter_bounded_fifo.2.2.1 sampleClient ⟨some (ascii "bad"), "invalid frame"⟩ (by decide)

/-! ## Client: the receiver -/

/-- C22: one iteration of the receiver on a frame that was read. When `extractID`
returns an error, the frame is added to the dead-letter queue with that error and
nothing else changes; when it returns no id, nothing changes; when it returns an
id that has no pending entry, the frame is added to the dead-letter queue with
the error "no pending request for response" and nothing else changes; otherwise
the payload that `extractID` returned is sent to the channel registered under
that id, the entry of that id is removed, and every other entry, every other
channel and the dead-letter queue are as they were. -/
theorem receiverStep_spec (c : Client) (extractID : IDFunc) (resp : Bytes) :
    (∀ id payload e, extractID resp = (id, payload, some e) →
      c.receiverStep extractID (some resp) none =
        some (c.addToDeadLetter { Response := some resp, Err := e }) ∧
      (c.addToDeadLetter { Response := some resp, Err := e }).pending = c.pending ∧
      (c.addToDeadLetter { Response := some resp, Err := e }).responses = c.responses) ∧
    (∀ payload, extractID resp = (none, payload, none) →
      c.receiverStep extractID (some resp) none = some c) ∧
    (∀ reqID payload, extractID resp = (some reqID, payload, none) → c.pending reqID = none →
      c.receiverStep extractID (some resp) none =
        some (c.addToDeadLetter
          { Response := some resp, Err := "no pending request for response" }) ∧
      (c.addToDeadLetter
        { Response := some resp, Err := "no pending request for response" }).pending =
          c.pending) ∧
    (∀ reqID payload ch, extractID resp = (some reqID, payload, none) →
      c.pending reqID = some ch →
      ∃ c', c.receiverStep extractID (some resp) none = some c' ∧
        c'.responses ch = c.responses ch ++ [payload] ∧
        (∀ n, n ≠ ch → c'.responses n = c.responses n) ∧
        c'.pending reqID = none ∧
        (∀ k, k ≠ reqID → c'.pending k = c.pending k) ∧
        c'.deadLetters = c.deadLetters) := by
  refine ⟨?_, ?_, ?_, ?_⟩
  · intro id payload e h
    refine ⟨?_, rfl, rfl⟩
    simp [Client.receiverStep, h]
  · intro payload h
    simp [Client.receiverStep, h]
  · intro reqID payload h hp
    refine ⟨?_, rfl⟩
    simp [Client.receiverStep, h, hp]
  · intro reqID payload ch h hp
    refine ⟨{ c with
        pending := fun k => if k = reqID then none else c.pending k
        responses := fun n => if n = ch then c.responses n ++ [payload] else c.responses n },
      by simp only [Client.receiverStep, Option.getD_some, h, hp], ?_, ?_, ?_, ?_, rfl⟩
    · simp
    · intro n hn
      simp [hn]
    · simp
    · intro k hk
      simp [hk]

theorem receiverStep_spec_witness :
    ∃ c', sampleClient.receiverStep sampleExtractID (some (ascii "reply")) none = some c' ∧
      c'.responses 0 = sampleClient.responses 0 ++ [some (ascii "reply")] ∧
      (∀ n, n ≠ 0 → c'.responses n = sampleClient.responses n) ∧
      c'.pending "1" = none ∧
      (∀ k, k ≠ "1" → c'.pending k = sampleClient.pending k) ∧
      c'.deadLetters = sampleClient.deadLetters :=
  (receiverStep_spec sampleClient sampleExtractID (ascii "reply")).2.2.2 "1"
    (some (ascii "reply")) 0 rfl rfl

/-! ## String unions -/

theorem mem_foldl_insert (l acc : List String) (v : String) :
    v ∈ l.foldl (fun allowed x => if x ∈ allowed then allowed else allowed ++ [x]) acc ↔
      v ∈ acc ∨ v ∈ l := by
  induction l generalizing acc with
  | nil => simp
  | cons x rest ih =>
    rw [List.foldl_cons, ih]
    by_cases hx : x ∈ acc
    · simp only [if_pos hx, List.mem_cons]
      constructor
      · rintro (h | h)
        · exact Or.inl h
        · exact Or.inr (Or.inr h)
      · rintro (h | h | h)
        · exact Or.inl h
        · exact Or.inl (h ▸ hx)
        · exact Or.inr h
    · simp only [if_neg hx, List.mem_append, List.mem_singleton, List.mem_cons]
      tauto

theorem mem_newStringUnion (allowed : List String) (v : String) :
    v ∈ (NewStringUnion allowed).allowedValues ↔ v ∈ allowed := by
  simp [NewStringUnion, mem_foldl_insert]

/-- C27, as stated, fails: for the `StringUnion` whose one allowed value is the
empty string, `UnmarshalJSON` accepts the text `null`, which is not a JSON
string: `json.Unmarshal` of `null` into a string leaves the empty string. -/
theorem acceptsAllowedStrings_fails : ¬ AcceptsAllowedStrings sampleLib (NewStringUnion [""]) := by
  intro h
  have h1 : ((NewStringUnion [""]).UnmarshalJSON sampleLib (ascii "null")).1 = none := by
    decide
  obtain ⟨v, hv, _⟩ := (h (ascii "null")).mp h1
  have h2 : sampleLib.shape (ascii "null") = some .null := by decide
  rw [h2] at hv
  cases hv

/-- C27, amended: for every `StringUnion`, and so for one built by
`NewStringUnion`, whose allowed values are those it was given: `SetValue`
succeeds exactly when the value is allowed, and then `Value` is that value; when
it fails the receiver is unchanged, and the allowed set is never changed.
`UnmarshalJSON` accepts exactly the JSON strings that are allowed values and,
when the empty string is allowed, `null`, which it reads as the empty string;
when it fails the receiver is unchanged. A value set through `SetValue` or
`UnmarshalJSON` is one of the allowed values. -/
theorem stringUnion_spec (lib : JSONLib) (s : StringUnion) :
    (∀ (allowed : List String) (v : String),
      v ∈ (NewStringUnion allowed).allowedValues ↔ v ∈ allowed) ∧
    (∀ v, v ∈ s.allowedValues → s.SetValue v = (none, { s with Value := v })) ∧
    (∀ v, v ∉ s.allowedValues → ∃ e, s.SetValue v = (some e, s)) ∧
    (∀ b : Bytes, (s.UnmarshalJSON lib b).1 = none ↔
      ((∃ v, lib.shape b = some (.string v) ∧ v ∈ s.allowedValues) ∨
        (lib.shape b = some .null ∧ "" ∈ s.allowedValues))) ∧
    (∀ (b : Bytes) (v : String), lib.shape b = some (.string v) → v ∈ s.allowedValues →
      s.UnmarshalJSON lib b = (none, { s with Value := v })) ∧
    (∀ b : Bytes, (s.UnmarshalJSON lib b).1 ≠ none → (s.UnmarshalJSON lib b).2 = s) ∧
    (∀ v, (s.SetValue v).2.allowedValues = s.allowedValues ∧
      ((s.SetValue v).1 = none → (s.SetValue v).2.Value ∈ s.allowedValues)) ∧
    (∀ b : Bytes, (s.UnmarshalJSON lib b).2.allowedValues = s.allowedValues ∧
      ((s.UnmarshalJSON lib b).1 = none → (s.UnmarshalJSON lib b).2.Value ∈ s.allowedValues)) := by
  have hset : ∀ v, (s.SetValue v).2.allowedValues = s.allowedValues ∧
      ((s.SetValue v).1 = none → (s.SetValue v).2.Value ∈ s.allowedValues) := by
    intro v
    by_cases hv : v ∈ s.allowedValues <;> simp [StringUnion.SetValue, hv]
  refine ⟨mem_newStringUnion, ?_, ?_, ?_, ?_, ?_, hset, ?_⟩
  · intro v hv
    simp [StringUnion.SetValue, hv]
  · intro v hv
    exact ⟨.plain ("invalid value " ++ v), by simp [StringUnion.SetValue, hv]⟩
  · intro b
    unfold StringUnion.UnmarshalJSON
    cases hu : lib.unmarshalString b with
    | error e =>
      simp only [reduceCtorEq, false_iff, not_or, not_exists, not_and]
      unfold JSONLib.unmarshalString at hu
      constructor
      · intro v hv
        rw [hv] at hu
        cases hu
      · intro hn
        rw [hn] at hu
        cases hu
    | ok v =>
      rcases unmarshalString_ok lib b v hu with h0 | h1
      · have hv : v = "" := by
          simp [JSONLib.unmarshalString, h0] at hu
          exact hu.symm
        subst hv
        by_cases hm : "" ∈ s.allowedValues <;> simp [StringUnion.SetValue, hm, h0]
      · by_cases hm : v ∈ s.allowedValues <;> simp [StringUnion.SetValue, hm, h1]
  · intro b v hb hv
    simp [StringUnion.UnmarshalJSON, JSONLib.unmarshalString, hb, StringUnion.SetValue, hv]
  · intro b
    unfold StringUnion.UnmarshalJSON
    cases lib.unmarshalString b with
    | error e => simp
    | ok v => by_cases hm : v ∈ s.allowedValues <;> simp [StringUnion.SetValue, hm]
  · intro b
    unfold StringUnion.UnmarshalJSON
    cases lib.unmarshalString b with
    | error e => simp
    | ok v => exact hset v

theorem stringUnion_spec_witness :
    (NewStringUnion enumValuesRole).SetValue "user" =
      (none, { NewStringUnion enumValuesRole with Value := "user" }) :=
  (stringUnion_spec sampleLib (NewStringUnion enumValuesRole)).2.1 "user" (by decide)

/-! ## Error handler of the HTTP adapter -/

/-- C24: for every status, message and list of errors, the status error that the
error handler returns reports the HTTP status 200, whatever the status it was
given, and carries a response with the version "2.0", a nil id, no result and an
error object. -/
theorem getErrorHandler_status {M N : Type} (lib : JSONLib) (methodMap : String → Option M)
    (notificationMap : String → Option N) (gotStatus : Int) (gotMessage : String)
    (errs : List AdapterError) :
    (GetErrorHandler lib methodMap notificationMap gotStatus gotMessage errs).GetStatus = 200 ∧
      (GetErrorHandler lib methodMap notificationMap gotStatus gotMessage errs).Response.JSONRPC =
        "2.0" ∧
      (GetErrorHandler lib methodMap notificationMap gotStatus gotMessage errs).Response.ID =
        none ∧
      (GetErrorHandler lib methodMap notificationMap gotStatus gotMessage errs).Response.Result =
        none ∧
      ∃ e,
        (GetErrorHandler lib methodMap notificationMap gotStatus gotMessage errs).Response.Error =
          some e :=
  ⟨rfl, rfl, rfl, rfl, _, rfl⟩

/-- The error handler on a request that named the method `foo`, which is in
neither map: the code is that of a method that was not found. -/
theorem getErrorHandler_sample :
    (GetErrorHandler sampleLib (fun _ => (none : Option Unit)) (fun _ => (none : Option Unit)) 422
        "validation failed" [.other "expected method:foo to be one of [echo]"]).Response.Error =
      some { Code := MethodNotFoundError
             Message := "Method 'foo' not found"
             Data := some (arrayText (["Message:validation failed", "HTTP Status:422",
               "expected method:foo to be one of [echo]"].map sampleLib.marshalString)) } := by
  decide

/-! ## Handler tasks of a server connection -/

theorem init_inv (replies : List Bytes) : (ConnState.init replies).Inv replies [] := by
  refine ⟨List.nodup_nil, fun i hi => absurd hi (List.not_mem_nil i), fun i => ?_, rfl,
    fun _ => rfl⟩
  simp only [ConnState.init]
  cases h : replies[i]? with
  | none =>
    refine ⟨by simp, ?_⟩
    rintro ⟨reply, hr, _⟩
    rw [h] at hr
    cases hr
  | some reply => exact ⟨h, List.not_mem_nil i, by simp⟩

/-- What holds of a task that does not hold the mutex still holds after a step of
another task. -/
theorem taskOk_other (replies : List Bytes) (m m' : Option Nat) (b b' : Bytes)
    (order order' : List Nat) (i j : Nat) (t : TaskState) (hji : j ≠ i)
    (hm : m = none ∨ m = some i) (hm' : m' = none ∨ m' = some i)
    (hord : order' = order ∨ order' = order ++ [i])
    (h : TaskOk replies m b order j t) : TaskOk replies m' b' order' j t := by
  have hmj : m ≠ some j := by
    rcases hm with rfl | rfl
    · simp
    · simpa using fun h => hji h.symm
  have hmj' : m' ≠ some j := by
    rcases hm' with rfl | rfl
    · simp
    · simpa using fun h => hji h.symm
  have hsub : ∀ x, x ∈ order → x ∈ order' := by
    intro x hx
    rcases hord with rfl | rfl
    · exact hx
    · exact List.mem_append_left _ hx
  have hnot : j ∉ order → j ∉ order' := by
    intro hj
    rcases hord with rfl | rfl
    · exact hj
    · simp [hj, hji]
  cases t with
  | waiting reply => exact ⟨h.1, hnot h.2.1, hmj'⟩
  | writing msg tw => exact absurd h.2.1 hmj
  | flushing => exact absurd h.1 hmj
  | unlocking => exact absurd h.1 hmj
  | done => exact ⟨hmj', fun hv => hsub j (h.2 hv)⟩

theorem framesInOrder_append (replies : List Bytes) (order : List Nat) (i : Nat) :
    framesInOrder replies (order ++ [i]) =
      framesInOrder replies order ++ frameOf (replies[i]?.getD []) := by
  simp [framesInOrder]

/-- A step of a task keeps what holds of the connection. -/
theorem step_inv (replies : List Bytes) (c : ConnState) (order : List Nat) (i n k : Nat)
    (h : c.Inv replies order) : ∃ order', (c.step i n k).Inv replies order' := by
  have hi := h.task i
  cases ht : c.tasks i with
  | waiting reply =>
    rw [ht] at hi
    obtain ⟨hr, hno, _⟩ := hi
    cases hm : c.writeMutex with
    | some holder =>
      refine ⟨order, ?_⟩
      have hstep : c.step i n k = c := by simp [ConnState.step, ht, hm]
      rw [hstep]
      exact h
    | none =>
      have hbuf := h.free hm
      have hcur : c.current = [] := by simp [ConnState.current, hm]
      have hstream := h.stream
      rw [hcur] at hstream
      by_cases hbad : Contains (TrimSuffix reply [newline]) [newline] = true
      · refine ⟨order, ?_⟩
        have hstep : c.step i n k =
            { c with writeMutex := some i, tasks := Function.update c.tasks i .unlocking } := by
          simp [ConnState.step, ht, hm, hbad]
        rw [hstep]
        refine ⟨h.nodup, h.valid, fun j => ?_, ?_, by simp⟩
        · by_cases hji : j = i
          · subst hji
            simp only [Function.update_same]
            refine ⟨rfl, hbuf, ⟨reply, hr⟩, ?_⟩
            rintro ⟨reply', hr', hv⟩
            rw [hr] at hr'
            cases hr'
            rw [hbad] at hv
            cases hv
          · simp only [Function.update_noteq hji]
            exact taskOk_other replies c.writeMutex _ c.buffered _ order order i j _ hji
              (Or.inl hm) (Or.inr rfl) (Or.inl rfl) (h.task j)
        · simpa [ConnState.current] using hstream
      · have hok : Contains (TrimSuffix reply [newline]) [newline] = false := by
          simpa using hbad
        refine ⟨order, ?_⟩
        have hstep : c.step i n k =
            { c with writeMutex := some i
                     tasks := Function.update c.tasks i (.writing (frameOf reply) 0) } := by
          simp [ConnState.step, ht, hm, hok]
        rw [hstep]
        refine ⟨h.nodup, h.valid, fun j => ?_, ?_, by simp⟩
        · by_cases hji : j = i
          · subst hji
            simp only [Function.update_same]
            exact ⟨⟨reply, hr, rfl, hok⟩, rfl, hno⟩
          · simp only [Function.update_noteq hji]
            exact taskOk_other replies c.writeMutex _ c.buffered _ order order i j _ hji
              (Or.inl hm) (Or.inr rfl) (Or.inl rfl) (h.task j)
        · simpa [ConnState.current] using hstream
  | writing msg tw =>
    rw [ht] at hi
    obtain ⟨⟨reply, hr, hmsg, hok⟩, hm, hno⟩ := hi
    have hcur : c.current = msg.take tw := by simp [ConnState.current, hm, ht]
    have hstream := h.stream
    rw [hcur] at hstream
    by_cases hlt : tw < msg.length
    · refine ⟨order, ?_⟩
      have hstep : c.step i n k =
          { c with
            tasks := Function.update c.tasks i
              (.writing msg (tw + min (max n 1) (msg.drop tw).length))
            buffered := (c.buffered ++ (msg.drop tw).take (min (max n 1) (msg.drop tw).length)).drop
              (min k (c.buffered ++
                (msg.drop tw).take (min (max n 1) (msg.drop tw).length)).length)
            wire := c.wire ++
              (c.buffered ++ (msg.drop tw).take (min (max n 1) (msg.drop tw).length)).take
                (min k (c.buffered ++
                  (msg.drop tw).take (min (max n 1) (msg.drop tw).length)).length) } := by
        simp [ConnState.step, ht, hlt]
      rw [hstep]
      refine ⟨h.nodup, h.valid, fun j => ?_, ?_, ?_⟩
      · by_cases hji : j = i
        · subst hji
          simp only [Function.update_same]
          exact ⟨⟨reply, hr, hmsg, hok⟩, hm, hno⟩
        · simp only [Function.update_noteq hji]
          exact taskOk_other replies c.writeMutex _ c.buffered _ order order i j _ hji
            (Or.inr hm) (Or.inr hm) (Or.inl rfl) (h.task j)
      · simp only [ConnState.current, hm, Function.update_same, List.append_assoc,
          List.take_append_drop]
        rw [← List.append_assoc, hstream, List.append_assoc, List.take_add]
      · intro hnone
        simp only at hnone
        rw [hm] at hnone
        cases hnone
    · refine ⟨order ++ [i], ?_⟩
      have hstep : c.step i n k = { c with tasks := Function.update c.tasks i .flushing } := by
        simp [ConnState.step, ht, hlt]
      rw [hstep]
      refine ⟨?_, ?_, fun j => ?_, ?_, ?_⟩
      · exact List.nodup_append.mpr ⟨h.nodup, List.nodup_singleton i, by simpa using hno⟩
      · intro x hx
        rcases List.mem_append.mp hx with hx | hx
        · exact h.valid x hx
        · rw [List.mem_singleton.mp hx]
          exact ⟨reply, hr, hok⟩
      · by_cases hji : j = i
        · subst hji
          simp only [Function.update_same]
          exact ⟨hm, by simp⟩
        · simp only [Function.update_noteq hji]
          exact taskOk_other replies c.writeMutex _ c.buffered _ order (order ++ [i]) i j _ hji
            (Or.inr hm) (Or.inr hm) (Or.inr rfl) (h.task j)
      · have htake : msg.take tw = msg := List.take_of_length_le (by omega)
        simp only [ConnState.current, hm, Function.update_same, List.append_nil]
        rw [hstream, htake, framesInOrder_append, hr, Option.getD_some, hmsg]
      · intro hnone
        simp only at hnone
        rw [hm] at hnone
        cases hnone
  | flushing =>
    rw [ht] at hi
    obtain ⟨hm, hin⟩ := hi
    have hcur : c.current = [] := by simp [ConnState.current, hm, ht]
    have hstream := h.stream
    rw [hcur] at hstream
    refine ⟨order, ?_⟩
    have hstep : c.step i n k =
        { c with tasks := Function.update c.tasks i .unlocking
                 buffered := []
                 wire := c.wire ++ c.buffered } := by
      simp [ConnState.step, ht]
    rw [hstep]
    refine ⟨h.nodup, h.valid, fun j => ?_, ?_, fun _ => rfl⟩
    · by_cases hji : j = i
      · subst hji
        simp only [Function.update_same]
        exact ⟨hm, rfl, h.valid j hin |>.imp fun _ hx => hx.1, fun _ => hin⟩
      · simp only [Function.update_noteq hji]
        exact taskOk_other replies c.writeMutex _ c.buffered _ order order i j _ hji
          (Or.inr hm) (Or.inr hm) (Or.inl rfl) (h.task j)
    · simpa [ConnState.current, hm] using hstream
  | unlocking =>
    rw [ht] at hi
    obtain ⟨hm, hbuf, hreply, hv⟩ := hi
    have hcur : c.current = [] := by simp [ConnState.current, hm, ht]
    have hstream := h.stream
    rw [hcur] at hstream
    refine ⟨order, ?_⟩
    have hstep : c.step i n k =
        { c with writeMutex := none, tasks := Function.update c.tasks i .done } := by
      simp [ConnState.step, ht]
    rw [hstep]
    refine ⟨h.nodup, h.valid, fun j => ?_, ?_, fun _ => hbuf⟩
    · by_cases hji : j = i
      · subst hji
        simp only [Function.update_same]
        exact ⟨by simp, hv⟩
      · simp only [Function.update_noteq hji]
        exact taskOk_other replies c.writeMutex _ c.buffered _ order order i j _ hji
          (Or.inr hm) (Or.inl rfl) (Or.inl rfl) (h.task j)
    · simpa [ConnState.current] using hstream
  | done =>
    refine ⟨order, ?_⟩
    have hstep : c.step i n k = c := by simp [ConnState.step, ht]
    rw [hstep]
    exact h

theorem run_inv (replies : List Bytes) (schedule : List (Nat × Nat × Nat)) (c : ConnState)
    (order : List Nat) (h : c.Inv replies order) :
    ∃ order', (c.run schedule).Inv replies order' := by
  induction schedule generalizing c order with
  | nil => exact ⟨order, h⟩
  | cons s rest ih =>
    obtain ⟨order₁, h₁⟩ := step_inv replies c order s.1 s.2.1 s.2.2 h
    exact ih _ order₁ h₁

/-- C26: on one server connection, whatever the order in which the handler tasks
run their steps and however the writes are cut, the bytes written to the
connection and those still in the buffer of the writer are whole frames, each the
reply of one task with its newline, one frame for each task of `order` and no
task twice, followed by the bytes that the task holding the mutex has written of
its own frame so far: the bytes of two replies are never interleaved. When no
task holds the mutex nothing is left in the buffer, and when all the tasks are at
their end the connection has received exactly the frames of the tasks whose reply
`WriteMessage` accepts. -/
theorem handlers_never_interleave (replies : List Bytes)
    (schedule : List (Nat × Nat × Nat)) :
    ∃ order : List Nat, order.Nodup ∧ (∀ i ∈ order, ValidAt replies i) ∧
      ∃ current : Bytes,
        ((ConnState.init replies).run schedule).wire ++
            ((ConnState.init replies).run schedule).buffered =
          framesInOrder replies order ++ current ∧
        (((ConnState.init replies).run schedule).writeMutex = none →
          current = [] ∧ ((ConnState.init replies).run schedule).buffered = []) ∧
        (∀ h, ((ConnState.init replies).run schedule).writeMutex = some h →
          ∃ reply, replies[h]? = some reply ∧ current <+: frameOf reply) ∧
        ((∀ i, ((ConnState.init replies).run schedule).tasks i = .done) →
          ((ConnState.init replies).run schedule).wire = framesInOrder replies order ∧
            ∀ i, ValidAt replies i → i ∈ order) := by
  obtain ⟨order, hinv⟩ := run_inv replies schedule (ConnState.init replies) [] (init_inv replies)
  generalize (ConnState.init replies).run schedule = c at hinv
  refine ⟨order, hinv.nodup, hinv.valid, c.current, hinv.stream, ?_, ?_, ?_⟩
  · intro hm
    exact ⟨by simp [ConnState.current, hm], hinv.free hm⟩
  · intro h hm
    have ht := hinv.task h
    cases hs : c.tasks h with
    | waiting reply =>
      rw [hs] at ht
      exact absurd hm ht.2.2
    | writing msg tw =>
      rw [hs] at ht
      obtain ⟨⟨reply, hr, hmsg, _⟩, _, _⟩ := ht
      refine ⟨reply, hr, ?_⟩
      simp only [ConnState.current, hm, hs]
      rw [← hmsg]
      exact List.take_prefix tw msg
    | flushing =>
      rw [hs] at ht
      obtain ⟨reply, hr, _⟩ := hinv.valid h ht.2
      exact ⟨reply, hr, by simp [ConnState.current, hm, hs]⟩
    | unlocking =>
      rw [hs] at ht
      obtain ⟨_, _, ⟨reply, hr⟩, _⟩ := ht
      exact ⟨reply, hr, by simp [ConnState.current, hm, hs]⟩
    | done =>
      rw [hs] at ht
      exact absurd hm ht.1
  · intro hdone
    have hm : c.writeMutex = none := by
      cases hmx : c.writeMutex with
      | none => rfl
      | some h =>
        have ht := hinv.task h
        rw [hdone h] at ht
        exact absurd hmx ht.1
    have hstream := hinv.stream
    rw [hinv.free hm] at hstream
    simp only [ConnState.current, hm, List.append_nil] at hstream
    refine ⟨hstream, fun i hv => ?_⟩
    have ht := hinv.task i
    rw [hdone i] at ht
    exact ht.2 hv

/-- Two tasks with the replies `a` and `bc`: the second asks for the mutex while
the first is writing, and gets it only after the first has flushed and unlocked;
the connection receives the frame of the first and then that of the second. -/
theorem run_sample :
    (((ConnState.init [[97], [98, 99]]).run
        [(0, 0, 0), (1, 0, 0), (0, 1, 1), (1, 0, 0), (0, 1, 0), (0, 0, 0), (1, 0, 0), (0, 0, 0),
          (0, 0, 0), (1, 0, 0), (1, 3, 0), (1, 0, 0), (1, 0, 0), (1, 0, 0)]).wire =
      [97, 10, 98, 99, 10]) ∧
    ((ConnState.init [[97], [98, 99]]).run
        [(0, 0, 0), (1, 0, 0), (0, 1, 1), (1, 0, 0)]).wire = [97] ∧
    ((ConnState.init [[97], [98, 99]]).run
        [(0, 0, 0), (1, 0, 0), (0, 1, 1), (1, 0, 0)]).writeMutex = some 0 := by
  decide

theorem handlers_never_interleave_witness :
    ∃ order : List Nat, order.Nodup ∧ (∀ i ∈ order, ValidAt [[97], [98, 99]] i) ∧
      ∃ current : Bytes,
        ((ConnState.init [[97], [98, 99]]).run [(0, 0, 0), (1, 0, 0), (0, 1, 1)]).wire ++
            ((ConnState.init [[97], [98, 99]]).run [(0, 0, 0), (1, 0, 0), (0, 1, 1)]).buffered =
          framesInOrder [[97], [98, 99]] order ++ current ∧
        (((ConnState.init [[97], [98, 99]]).run [(0, 0, 0), (1, 0, 0), (0, 1, 1)]).writeMutex =
            none →
          current = [] ∧
            ((ConnState.init [[97], [98, 99]]).run [(0, 0, 0), (1, 0, 0), (0, 1, 1)]).buffered =
              []) ∧
        (∀ h,
          ((ConnState.init [[97], [98, 99]]).run [(0, 0, 0), (1, 0, 0), (0, 1, 1)]).writeMutex =
            some h →
          ∃ reply, [[97], [98, 99]][h]? = some reply ∧ current <+: frameOf reply) ∧
        ((∀ i,
            ((ConnState.init [[97], [98, 99]]).run [(0, 0, 0), (1, 0, 0), (0, 1, 1)]).tasks i =
              .done) →
          ((ConnState.init [[97], [98, 99]]).run [(0, 0, 0), (1, 0, 0), (0, 1, 1)]).wire =
              framesInOrder [[97], [98, 99]] order ∧
            ∀ i, ValidAt [[97], [98, 99]] i → i ∈ order) :=
  handlers_never_interleave [[97], [98, 99]] [(0, 0, 0), (1, 0, 0), (0, 1, 1)]

end Reqresp
